import Mathlib

/-!
# gojiai: class resolution, class initialization and the thread execution loop

A shallow embedding of `vm/class.go` and `vm/thread.go`.

Go pointers become references (natural numbers) into heaps that are total
functions; a nil pointer is `none`.  Code of the runtime that the two files
call but do not contain (the class registry, the instruction executor, frames,
monitors) is a field of `Env`, so every theorem holds for all of its possible
behaviours.  A result `none` stands for a call that does not return: it runs
out of fuel, blocks on a held lock, or panics.
-/

namespace Gojiai

/-! ## Data model -/

abbrev ClassRef := Nat
abbrev InstanceRef := Nat
abbrev FrameRef := Nat
abbrev ThreadRef := Nat
abbrev ChanRef := Nat

/-- Class initialization states, `ClassState` of `vm/class.go`. -/
inductive ClassState where
  | NotInitialized
  | Initializing
  | Initialized
  | FailedInitialization
  deriving DecidableEq, Repr

/-- Identities of the well-known classes, `SpecialClassID` of `vm/class.go`. -/
inductive SpecialClassID where
  | UnknownClassID
  | JavaLangObjectID
  | JavaLangStringID
  | JavaLangClassID
  | JavaLangThreadID
  deriving DecidableEq, Repr

/-- Values held by `interface{}` slots: nil, a number, a `*string` constant of
the constant pool, or a `*Instance`. -/
inductive Value where
  | null
  | int (n : Int)
  | str (s : String)
  | ref (r : InstanceRef)
  deriving DecidableEq, Repr

/-- Go `error` values: a wrapped Java exception or any other failure. -/
inductive Error where
  | java (exception : InstanceRef)
  | other (msg : String)
  deriving DecidableEq, Repr

/-- Field entry of a class file: `class_file.FieldInfo` with its slot id. -/
structure FieldInfo where
  name : String
  desc : String
  isStatic : Bool
  id : Int
  constantValue : Option Nat
  deriving DecidableEq, Repr

/-- Method entry of a class file: `class_file.MethodInfo`. -/
structure MethodInfo where
  name : String
  desc : String
  isSync : Bool
  isStatic : Bool
  isNative : Bool
  numArgs : Nat
  deriving DecidableEq, Repr

/-- The decoded class file as `vm/class.go` reads it: `ThisClass()`,
`SuperClass()` (nil for the root type), `Interfaces()`, the field and method
tables and the constant pool. -/
structure ClassFile where
  thisClass : String
  superClass : Option String
  interfaces : List String
  fields : List FieldInfo
  methods : List MethodInfo
  constPool : List Value
  deriving DecidableEq, Repr

/-- `ClassFile.FindMethod`: the first declared method with that name and
descriptor. -/
def ClassFile.FindMethod (c : ClassFile) (name desc : String) : Option MethodInfo :=
  c.methods.find? (fun method => method.name = name ∧ method.desc = desc)

/-- Modelled from the spec: `ClassFile.FindField` is not part of the sources at
hand; it looks a field up among "the class's own declared fields" by name and
descriptor, the first entry winning as in `FindMethod`. -/
def ClassFile.FindField (c : ClassFile) (name desc : String) : Option FieldInfo :=
  c.fields.find? (fun field => field.name = name ∧ field.desc = desc)

/-- `ClassFile.InstanceFields()`: the non-static fields in declaration order. -/
def ClassFile.InstanceFields (c : ClassFile) : List FieldInfo :=
  c.fields.filter (fun f => !f.isStatic)

/-- `ClassFile.StaticFields()`: the static fields in declaration order. -/
def ClassFile.StaticFields (c : ClassFile) : List FieldInfo :=
  c.fields.filter (fun f => f.isStatic)

/-- `ClassFile.ConstantPool().Const(i)`. -/
def ClassFile.Const (c : ClassFile) (i : Nat) : Value :=
  c.constPool.getD i Value.null

/-- The `Class` struct of `vm/class.go`.  `initLocked` is the mutex
`initCond.L`; `fields` is the static storage. -/
structure Class where
  id : SpecialClassID
  file : ClassFile
  java : Option InstanceRef
  fields : List Value
  totalIFields : Int
  state : ClassState
  initLocked : Bool
  initBy : Option ThreadRef
  super : Option ClassRef
  interfaces : List ClassRef
  deriving DecidableEq, Repr

/-- `ClassIDFrom`: the special identity that belongs to a class name. -/
def ClassIDFrom (name : String) : SpecialClassID :=
  if name = "java/lang/Object" then SpecialClassID.JavaLangObjectID
  else if name = "java/lang/String" then SpecialClassID.JavaLangStringID
  else if name = "java/lang/Class" then SpecialClassID.JavaLangClassID
  else if name = "java/lang/Thread" then SpecialClassID.JavaLangThreadID
  else SpecialClassID.UnknownClassID

/-- `NewClass`: static storage sized to the static fields, slot total unset
(-1), state `NotInitialized`, `super` and `interfaces` unset. -/
def NewClass (file : ClassFile) : Class :=
  { id := ClassIDFrom file.thisClass
    file := file
    java := none
    fields := List.replicate (file.fields.length - file.InstanceFields.length) Value.null
    totalIFields := -1
    state := ClassState.NotInitialized
    initLocked := false
    initBy := none
    super := none
    interfaces := [] }

/-! ## Field and method resolution -/

/-- Step 2 of `ResolveField`: the first directly implemented interface whose
own class file declares the field. -/
def ResolveField.interfaces (cs : ClassRef → Class) (name desc : String) :
    List ClassRef → Option (ClassRef × FieldInfo)
  | [] => none
  | ifClass :: rest =>
    match (cs ifClass).file.FindField name desc with
    | some field => some (ifClass, field)
    | none => ResolveField.interfaces cs name desc rest

/-- `Class.ResolveField`.  The pair is the Go result `(*Class, *FieldInfo)`;
the outer `none` means the recursion along `super` ran out of fuel. -/
def ResolveField (cs : ClassRef → Class) :
    Nat → ClassRef → String → String → Option (Option ClassRef × Option FieldInfo)
  | 0, _, _, _ => none
  | fuel + 1, c, name, desc =>
    match (cs c).file.FindField name desc with
    | some field => some (some c, some field)
    | none =>
      match ResolveField.interfaces cs name desc (cs c).interfaces with
      | some (ifClass, field) => some (some ifClass, some field)
      | none =>
        match (cs c).super with
        | some s => ResolveField cs fuel s name desc
        | none => some (none, none)

/-- The interface loop of `ResolveMethod`: the first interface on which the
recursive resolution `rec` yields a non-nil method. -/
def ResolveMethod.interfaces
    (rec : ClassRef → Option (Option ClassRef × Option MethodInfo)) :
    List ClassRef → Option (Option ClassRef × Option MethodInfo)
  | [] => some (none, none)
  | ifClass :: rest =>
    match rec ifClass with
    | none => none
    | some (resolvedIf, some method) => some (resolvedIf, some method)
    | some (_, none) => ResolveMethod.interfaces rec rest

/-- `Class.ResolveMethod`.  The superclass result is taken when its owner is
non-nil, an interface result when its method is non-nil, as in the source. -/
def ResolveMethod (cs : ClassRef → Class) :
    Nat → ClassRef → String → String → Option (Option ClassRef × Option MethodInfo)
  | 0, _, _, _ => none
  | fuel + 1, c, name, desc =>
    match (cs c).file.FindMethod name desc with
    | some method => some (some c, some method)
    | none =>
      let viaInterfaces :=
        ResolveMethod.interfaces (fun i => ResolveMethod cs fuel i name desc) (cs c).interfaces
      match (cs c).super with
      | some s =>
        match ResolveMethod cs fuel s name desc with
        | none => none
        | some (some owner, method) => some (some owner, method)
        | some (none, _) => viaInterfaces
      | none => viaInterfaces

/-- Class `d` is `c` itself or is reached from `c` through `super` and
`interfaces` links. -/
inductive Reachable (cs : ClassRef → Class) : ClassRef → ClassRef → Prop where
  | self (c : ClassRef) : Reachable cs c c
  | viaSuper (c s d : ClassRef) : (cs c).super = some s → Reachable cs s d → Reachable cs c d
  | viaInterface (c i d : ClassRef) :
      i ∈ (cs c).interfaces → Reachable cs i d → Reachable cs c d

/-- The graph of `super` and `interfaces` links has no cycle: every link leads
to a class of smaller rank. -/
def Acyclic (cs : ClassRef → Class) (rank : ClassRef → Nat) : Prop :=
  ∀ c, (∀ s, (cs c).super = some s → rank s < rank c) ∧
    (∀ i ∈ (cs c).interfaces, rank i < rank c)

/-- Class `d` is `c` itself or a class on the chain of `super` links that
starts at `c`. -/
inductive OnSuperChain (cs : ClassRef → Class) : ClassRef → ClassRef → Prop where
  | self (c : ClassRef) : OnSuperChain cs c c
  | viaSuper (c s d : ClassRef) : (cs c).super = some s → OnSuperChain cs s d → OnSuperChain cs c d

/-- The class file declares a field with that name and descriptor. -/
def ClassFile.DeclaresField (c : ClassFile) (name desc : String) : Prop :=
  ∃ f ∈ c.fields, f.name = name ∧ f.desc = desc

/-! ## Type tests -/

/-- `Class.IsSubClassOf`: the name is that of the class, or the superclass is
non-nil and is a subclass of it.  `none` means the recursion along `super` ran
out of fuel. -/
def IsSubClassOf (cs : ClassRef → Class) : Nat → ClassRef → String → Option Bool
  | 0, _, _ => none
  | fuel + 1, c, className =>
    if (cs c).file.thisClass = className then some true
    else
      match (cs c).super with
      | none => some false
      | some s => IsSubClassOf cs fuel s className

/-- `Class.Implements`: the name is among `class.file.Interfaces()`, or the
superclass is non-nil and implements it. -/
def Implements (cs : ClassRef → Class) : Nat → ClassRef → String → Option Bool
  | 0, _, _ => none
  | fuel + 1, c, ifName =>
    if (cs c).file.interfaces.any (fun i => i = ifName) then some true
    else
      match (cs c).super with
      | none => some false
      | some s => Implements cs fuel s ifName

/-- `Class.IsInstanceOf`: `IsSubClassOf(className) || Implements(className)`,
the right side evaluated only when the left is false. -/
def IsInstanceOf (cs : ClassRef → Class) (fuel : Nat) (c : ClassRef) (className : String) :
    Option Bool :=
  match IsSubClassOf cs fuel c className with
  | none => none
  | some true => some true
  | some false => Implements cs fuel c className

/-! ## Runtime state -/

/-- Modelled from the spec: `Frame` (its source file is not at hand) "owns an
operand stack, a locals array, a program counter, a reference to the
ClassDescriptor and Method being executed". -/
structure Frame where
  curClass : ClassRef
  curMethod : MethodInfo
  pc : Nat
  operands : List Value
  locals : List Value
  deriving DecidableEq, Repr

/-- Modelled from the spec: `Frame.JumpPC`, "the program counter jumps to the
handler". -/
def Frame.JumpPC (f : Frame) (handler : Nat) : Frame := { f with pc := handler }

/-- Modelled from the spec: `Frame.ClearOperand`, "the operand stack is
cleared". -/
def Frame.ClearOperand (f : Frame) : Frame := { f with operands := [] }

/-- Modelled from the spec: `Frame.PushOperand`, the value becomes the top of
the operand stack (the last element). -/
def Frame.PushOperand (f : Frame) (v : Value) : Frame := { f with operands := f.operands ++ [v] }

/-- The `Thread` struct of `vm/thread.go`; both stacks grow at the end, and
`interLocked` is the mutex `interLock`. -/
structure Thread where
  name : String
  main : Bool
  daemon : Bool
  java : Option InstanceRef
  frameStack : List FrameRef
  syncStack : List (Option InstanceRef)
  alive : Bool
  interLocked : Bool
  interrupted : Bool
  interWatcher : List ChanRef
  deriving DecidableEq, Repr

/-- The mutable state of one VM: the heaps of classes, frames and threads, the
flag behind `DoneLoadingMinimumClass()`, the table behind `SpecialClass(id)`,
and in `external` whatever else the runtime keeps (instances, monitors, the
class registry). -/
structure VM (σ : Type) where
  classes : ClassRef → Class
  frames : FrameRef → Frame
  threads : ThreadRef → Thread
  doneLoadingMinimumClass : Bool
  specialClass : SpecialClassID → Option ClassRef
  external : σ

/-- The calls that are recorded as they happen: those that leave `class.go`
and `thread.go` (class lookup, instruction step, handler lookup, monitor
operations, wait and broadcast on the class condition) and those of `Execute`
and `PopFrame`. -/
inductive Event where
  | resolve (name : String) (thread : Option ThreadRef)
  | execute (thread : ThreadRef) (frame : FrameRef)
  | step (thread : ThreadRef) (frame : FrameRef)
  | findHandler (frame : FrameRef)
  | popFrame (thread : ThreadRef) (frame : FrameRef)
  | monitorEnter (obj : InstanceRef) (thread : ThreadRef)
  | monitorExit (obj : InstanceRef) (thread : ThreadRef)
  | monitorNotifyAll (obj : InstanceRef) (thread : ThreadRef)
  | wait (c : ClassRef) (thread : ThreadRef)
  | broadcast (c : ClassRef)
  deriving DecidableEq, Repr

/-- A VM state together with the record of the calls made so far.  The record
is kept apart from `VM`, so that the external code of `Env` cannot touch it. -/
structure World (σ : Type) where
  vm : VM σ
  log : List Event

/-- The code outside `class.go` and `thread.go`, each entry acting on the VM
state.  `Class` is `VM.Class(name, thread)`: it yields a class, or an error
together with a nil class.  `awaitBroadcast` is the state in which a thread
blocked in `initCond.Wait()` is woken. -/
structure Env (σ : Type) where
  Class : String → Option ThreadRef → VM σ → Except Error ClassRef × VM σ
  JavaString : String → VM σ → InstanceRef × VM σ
  NewInstance : Option ClassRef → VM σ → InstanceRef × VM σ
  ToBeClass : InstanceRef → ClassRef → VM σ → VM σ
  NewFrame : ClassRef → MethodInfo → VM σ → FrameRef × VM σ
  NextInstr : FrameRef → VM σ → Nat × VM σ
  ExecInstr : ThreadRef → FrameRef → Nat → VM σ → Option Error × VM σ
  FindCurrentExceptionHandler : FrameRef → InstanceRef → VM σ → Option Nat
  MonitorEnter : InstanceRef → ThreadRef → VM σ → VM σ
  MonitorExit : InstanceRef → ThreadRef → VM σ → VM σ
  MonitorNotifyAll : InstanceRef → ThreadRef → VM σ → VM σ
  awaitBroadcast : ClassRef → ThreadRef → VM σ → VM σ

variable {σ : Type}

/-- Write to the class behind a reference. -/
def VM.setClass (vm : VM σ) (c : ClassRef) (k : Class) : VM σ :=
  { vm with classes := Function.update vm.classes c k }

/-- Write to the frame behind a reference. -/
def VM.setFrame (vm : VM σ) (f : FrameRef) (k : Frame) : VM σ :=
  { vm with frames := Function.update vm.frames f k }

/-- Write to the thread behind a reference. -/
def VM.setThread (vm : VM σ) (t : ThreadRef) (k : Thread) : VM σ :=
  { vm with threads := Function.update vm.threads t k }

/-- Append one entry to the record of calls. -/
def World.emit (w : World σ) (e : Event) : World σ := { w with log := w.log ++ [e] }

/-- `vm.Class(name, thread)` as called from `class.go`. -/
def World.resolve (env : Env σ) (name : String) (thread : Option ThreadRef) (w : World σ) :
    Except Error ClassRef × World σ :=
  let r := env.Class name thread w.vm
  (r.1, { vm := r.2, log := w.log ++ [Event.resolve name thread] })

/-- `initCond.L.Lock()`: a held mutex blocks the caller, which in a run of one
thread never ends. -/
def lockInit (c : ClassRef) (w : World σ) : Option (World σ) :=
  if (w.vm.classes c).initLocked then none
  else some { w with vm := w.vm.setClass c { w.vm.classes c with initLocked := true } }

/-- `initCond.L.Unlock()`. -/
def unlockInit (c : ClassRef) (w : World σ) : World σ :=
  { w with vm := w.vm.setClass c { w.vm.classes c with initLocked := false } }

/-- Modelled from the spec: `UnwrapJavaError` (not in the sources at hand)
tells "an exceptional outcome carrying a runtime exception object" from "a
non-exception failure". -/
def UnwrapJavaError : Error → Option InstanceRef
  | Error.java exception => some exception
  | Error.other _ => none

/-! ## Thread: frames and the execution loop -/

/-- The lock object of a synchronized method in `PushFrame`:
`frame.CurrentClass().Java()` for a static method, `frame.Locals()[0].(*Instance)`
otherwise; `none` when there is no such object. -/
def PushFrame.syncObj (vm : VM σ) (frame : FrameRef) : Option InstanceRef :=
  let f := vm.frames frame
  if f.curMethod.isStatic then (vm.classes f.curClass).java
  else
    match f.locals.head? with
    | some (Value.ref r) => some r
    | _ => none

/-- `Thread.PushFrame`.  A synchronized method locks the class object (static)
or local 0; a nil lock object panics. -/
def PushFrame (env : Env σ) (thread : ThreadRef) (frame : FrameRef) (w : World σ) :
    Option (World σ) :=
  let f := w.vm.frames frame
  let push (syncObj : Option InstanceRef) (w : World σ) : World σ :=
    let t := w.vm.threads thread
    let t1 : Thread :=
      { t with frameStack := t.frameStack ++ [frame], syncStack := t.syncStack ++ [syncObj] }
    { w with vm := w.vm.setThread thread t1 }
  if f.curMethod.isSync then
    match PushFrame.syncObj w.vm frame with
    | none => none
    | some syncObj =>
      some (push (some syncObj)
        { vm := env.MonitorEnter syncObj thread w.vm
          log := w.log ++ [Event.monitorEnter syncObj thread] })
  else some (push none w)

/-- `Thread.PopFrame`.  The monitor recorded at push time is left when the top
frame's method is synchronized; an empty stack panics. -/
def PopFrame (env : Env σ) (thread : ThreadRef) (w : World σ) : Option (World σ) :=
  let t := w.vm.threads thread
  match t.frameStack.getLast? with
  | none => none
  | some top =>
    let idx := t.frameStack.length - 1
    let cut (w : World σ) : World σ :=
      let t := w.vm.threads thread
      let t1 : Thread :=
        { t with frameStack := t.frameStack.take idx, syncStack := t.syncStack.take idx }
      { vm := w.vm.setThread thread t1, log := w.log ++ [Event.popFrame thread top] }
    if (w.vm.frames top).curMethod.isSync then
      match t.syncStack.get? idx with
      | some (some syncObj) =>
        some (cut
          { vm := env.MonitorExit syncObj thread w.vm
            log := w.log ++ [Event.monitorExit syncObj thread] })
      | _ => none
    else some (cut w)

/-- The handler branch of `Execute`: `frame.JumpPC(*handler)`,
`frame.ClearOperand()`, `frame.PushOperand(javaErr.Exception())`. -/
def Execute.enterHandler (frame : FrameRef) (handler : Nat) (exception : InstanceRef)
    (w : World σ) : World σ :=
  let f : Frame :=
    (((w.vm.frames frame).JumpPC handler).ClearOperand).PushOperand (Value.ref exception)
  { w with vm := w.vm.setFrame frame f }

/-- The inner loop of `Execute`:
`for ; len(thread.frameStack) > bottom; thread.PopFrame()`.  The lookup is made
on `curFrame`, the handler is entered on `frame`, and `break INSTR` leaves the
outer loop, so that `Execute` returns nil. -/
def Execute.unwind (env : Env σ) (thread : ThreadRef) (frame curFrame : FrameRef)
    (bottom : Nat) (exception : InstanceRef) (err : Error) :
    Nat → World σ → Option (Option Error × World σ)
  | 0, _ => none
  | fuel + 1, w =>
    if (w.vm.threads thread).frameStack.length > bottom then
      let w1 := w.emit (Event.findHandler curFrame)
      match env.FindCurrentExceptionHandler curFrame exception w1.vm with
      | some handler => some (none, Execute.enterHandler frame handler exception w1)
      | none =>
        match PopFrame env thread w1 with
        | none => none
        | some w2 => Execute.unwind env thread frame curFrame bottom exception err fuel w2
    else some (some err, w)

/-- The outer loop of `Execute`, labelled `INSTR`. -/
def Execute.loop (env : Env σ) (thread : ThreadRef) (frame : FrameRef) (bottom : Nat) :
    Nat → World σ → Option (Option Error × World σ)
  | 0, _ => none
  | fuel + 1, w =>
    if (w.vm.threads thread).frameStack.length > bottom then
      match (w.vm.threads thread).frameStack.getLast? with
      | none => none
      | some curFrame =>
        let fetched := env.NextInstr curFrame w.vm
        let done := env.ExecInstr thread curFrame fetched.1 fetched.2
        let w1 : World σ := { vm := done.2, log := w.log ++ [Event.step thread curFrame] }
        match done.1 with
        | none => Execute.loop env thread frame bottom fuel w1
        | some err =>
          match UnwrapJavaError err with
          | some exception =>
            Execute.unwind env thread frame curFrame bottom exception err fuel w1
          | none => some (some err, w1)
    else some (none, w)

/-- `Thread.Execute`: the error returned (nil is `none`) and the state left. -/
def Execute (env : Env σ) (fuel : Nat) (thread : ThreadRef) (frame : FrameRef)
    (w : World σ) : Option (Option Error × World σ) :=
  let bottom := (w.vm.threads thread).frameStack.length
  match PushFrame env thread frame (w.emit (Event.execute thread frame)) with
  | none => none
  | some w1 => Execute.loop env thread frame bottom fuel w1

/-- The call `ExecInstr(thread, curFrame, curFrame.NextInstr())` of the loop of
`Execute`: the error returned and the VM state left. -/
def Execute.instr (env : Env σ) (thread : ThreadRef) (curFrame : FrameRef) (vm : VM σ) :
    Option Error × VM σ :=
  env.ExecInstr thread curFrame (env.NextInstr curFrame vm).1 (env.NextInstr curFrame vm).2

/-- One iteration of the loop of `Execute` whose step succeeds: the stack is
above `bottom`, the step on the top frame returns nil, and `w1` is the state
that it leaves. -/
def Execute.Step (env : Env σ) (thread : ThreadRef) (bottom : Nat) (w w1 : World σ) : Prop :=
  bottom < (w.vm.threads thread).frameStack.length ∧
  ∃ curFrame, (w.vm.threads thread).frameStack.getLast? = some curFrame ∧
    (Execute.instr env thread curFrame w.vm).1 = none ∧
    w1 = { vm := (Execute.instr env thread curFrame w.vm).2
           log := w.log ++ [Event.step thread curFrame] }

/-- The loop of `Execute` goes from `w` to `w1` in `n` iterations whose steps
all succeed. -/
inductive Execute.Steps (env : Env σ) (thread : ThreadRef) (bottom : Nat) :
    Nat → World σ → World σ → Prop where
  | done (w : World σ) : Execute.Steps env thread bottom 0 w w
  | next (n : Nat) (w w1 w2 : World σ) :
      Execute.Step env thread bottom w w1 → Execute.Steps env thread bottom n w1 w2 →
      Execute.Steps env thread bottom (n + 1) w w2

/-! ## Class: slot numbering and initialization -/

/-- The loop `for _, f := range class.file.InstanceFields() { f.SetID(id); id++ }`
on the field table: instance fields are numbered in declaration order from
`id`, static fields keep their id; the second component is the final `id`. -/
def assignFieldIDs : Int → List FieldInfo → List FieldInfo × Int
  | id, [] => ([], id)
  | id, f :: fs =>
    if f.isStatic then
      let r := assignFieldIDs id fs
      (f :: r.1, r.2)
    else
      let r := assignFieldIDs (id + 1) fs
      ({ f with id := id } :: r.1, r.2)

/-- The tail of `initializeFieldID`: number the instance fields of `c` from
`id`, store the total and return it. -/
def initializeFieldID.assign (c : ClassRef) (id : Int) (w : World σ) :
    (Int × Option Error) × World σ :=
  let k := w.vm.classes c
  let r := assignFieldIDs id k.file.fields
  let k1 : Class := { k with file := { k.file with fields := r.1 }, totalIFields := r.2 }
  ((r.2, none), { w with vm := w.vm.setClass c k1 })

/-- `Class.initializeFieldID`: the Go result `(int, error)` and the state
left. -/
def initializeFieldID (env : Env σ) :
    Nat → ClassRef → World σ → Option ((Int × Option Error) × World σ)
  | 0, _, _ => none
  | fuel + 1, c, w =>
    if (w.vm.classes c).totalIFields ≠ -1 then
      some (((w.vm.classes c).totalIFields, none), w)
    else
      match (w.vm.classes c).file.superClass with
      | some superName =>
        match World.resolve env superName none w with
        | (Except.error err, w1) => some ((-1, some err), w1)
        | (Except.ok super, w1) =>
          match initializeFieldID env fuel super w1 with
          | none => none
          | some ((_, some err), w2) => some ((-1, some err), w2)
          | some ((id, none), w2) => some (initializeFieldID.assign c id w2)
      | none => some (initializeFieldID.assign c 0 w)

/-- `class.fields[id] = value` on the static storage; an index out of range
panics. -/
def setStaticSlot (fields : List Value) (id : Int) (value : Value) : Option (List Value) :=
  if 0 ≤ id ∧ id.toNat < fields.length then some (fields.set id.toNat value) else none

/-- `Class.InitJava`: a fresh `java/lang/Class` instance is made to stand for
the class and stored in `class.java`. -/
def InitJava (env : Env σ) (c : ClassRef) (w : World σ) : World σ :=
  let made := env.NewInstance (w.vm.specialClass SpecialClassID.JavaLangClassID) w.vm
  let vm1 := env.ToBeClass made.1 c made.2
  { w with vm := vm1.setClass c { vm1.classes c with java := some made.1 } }

/-- The value stored for one constant field: a `*string` constant becomes the
Java string that `VM.JavaString` returns, any other constant is stored as it
is. -/
def initializeClass.constValue (env : Env σ) (constVal : Value) (w : World σ) :
    Value × World σ :=
  match constVal with
  | Value.str cv =>
    let made := env.JavaString cv w.vm
    (Value.ref made.1, { w with vm := made.2 })
  | cv => (cv, w)

/-- The loop "Initialize constant fields" of `Class.initialize` over the
static fields: a field with a `ConstantValue` attribute gets its constant
stored at `class.fields[f.ID()]`. -/
def initializeClass.constants (env : Env σ) (c : ClassRef) :
    List FieldInfo → World σ → Option (World σ)
  | [], w => some w
  | f :: fs, w =>
    match f.constantValue with
    | none => initializeClass.constants env c fs w
    | some constValAttr =>
      let stored :=
        initializeClass.constValue env ((w.vm.classes c).file.Const constValAttr) w
      let k := stored.2.vm.classes c
      match setStaticSlot k.fields f.id stored.1 with
      | none => none
      | some fields1 =>
        initializeClass.constants env c fs
          { stored.2 with vm := stored.2.vm.setClass c { k with fields := fields1 } }

/-- The block "Initialize super class" of `Class.initialize`: the error, if
any, and the state left.  `class.super` receives the class that `vm.Class`
returns, nil on an error. -/
def initializeClass.super (env : Env σ) (c : ClassRef) (curThread : ThreadRef)
    (w : World σ) : Option Error × World σ :=
  match (w.vm.classes c).file.superClass with
  | none => (none, w)
  | some superName =>
    match World.resolve env superName (some curThread) w with
    | (Except.error err, w1) =>
      (some err, { w1 with vm := w1.vm.setClass c { w1.vm.classes c with super := none } })
    | (Except.ok s, w1) =>
      (none, { w1 with vm := w1.vm.setClass c { w1.vm.classes c with super := some s } })

/-- The loop "Initialize interfaces" of `Class.initialize` over the declared
interface names: each class resolved is appended to `class.interfaces`, the
first error ends the loop. -/
def initializeClass.interfaces (env : Env σ) (c : ClassRef) (curThread : ThreadRef) :
    List String → World σ → Option Error × World σ
  | [], w => (none, w)
  | ifName :: rest, w =>
    match World.resolve env ifName (some curThread) w with
    | (Except.error err, w1) => (some err, w1)
    | (Except.ok ifClass, w1) =>
      let k := w1.vm.classes c
      initializeClass.interfaces env c curThread rest
        { w1 with vm := w1.vm.setClass c { k with interfaces := k.interfaces ++ [ifClass] } }

/-- The block "Call clinit" of `Class.initialize` with the two assignments to
`state` that follow it: the value of `state`, the error, the state left. -/
def initializeClass.clinit (env : Env σ) (fuel : Nat) (c : ClassRef) (curThread : ThreadRef)
    (w : World σ) : Option ((ClassState × Option Error) × World σ) :=
  match (w.vm.classes c).file.FindMethod "<clinit>" "()V" with
  | none => some ((ClassState.Initialized, none), w)
  | some clinit =>
    let made := env.NewFrame c clinit w.vm
    match Execute env fuel curThread made.1 { w with vm := made.2 } with
    | none => none
    | some (some err, w1) => some ((ClassState.FailedInitialization, some err), w1)
    | some (none, w1) => some ((ClassState.Initialized, none), w1)

/-- The body of `Class.initialize` before "Call clinit": slot numbering,
constant fields, superclass, interfaces.  The result is the error on which the
body returns early, if any, and the state left. -/
def initializeClass.link (env : Env σ) (fuel : Nat) (c : ClassRef) (curThread : ThreadRef)
    (w : World σ) : Option (Option Error × World σ) :=
  match initializeFieldID env fuel c w with
  | none => none
  | some ((_, some err), w1) => some (some err, w1)
  | some ((_, none), w1) =>
    match initializeClass.constants env c (w1.vm.classes c).file.StaticFields w1 with
    | none => none
    | some w2 =>
      match initializeClass.super env c curThread w2 with
      | (some err, w3) => some (some err, w3)
      | (none, w3) =>
        some (initializeClass.interfaces env c curThread (w3.vm.classes c).file.interfaces w3)

/-- The body of `Class.initialize` up to its return: the value of the local
`state` (which starts as the zero value `NotInitialized` and is assigned only
in and after "Call clinit"), the error returned, and the state left. -/
def initializeClass.body (env : Env σ) (fuel : Nat) (c : ClassRef) (curThread : ThreadRef)
    (w : World σ) : Option ((ClassState × Option Error) × World σ) :=
  match initializeClass.link env fuel c curThread w with
  | none => none
  | some (some err, w1) => some ((ClassState.NotInitialized, some err), w1)
  | some (none, w1) => initializeClass.clinit env fuel c curThread w1

/-- The deferred function of `Class.initialize`: under the lock, store
`state`, clear `initBy`, wake every waiting thread. -/
def initializeClass.deferred (c : ClassRef) (state : ClassState) (w : World σ) :
    Option (World σ) :=
  match lockInit c w with
  | none => none
  | some w1 =>
    let k := w1.vm.classes c
    let w2 : World σ :=
      { vm := w1.vm.setClass c { k with state := state, initBy := none }
        log := w1.log ++ [Event.broadcast c] }
    some (unlockInit c w2)

/-- `Class.initialize` (lower case in the source, a reserved word here): the
body followed by the deferred function; the result is the error returned. -/
def initializeClass (env : Env σ) (fuel : Nat) (c : ClassRef) (curThread : ThreadRef)
    (w : World σ) : Option (Option Error × World σ) :=
  match initializeClass.body env fuel c curThread w with
  | none => none
  | some ((state, err), w1) =>
    match initializeClass.deferred c state w1 with
    | none => none
    | some w2 => some (err, w2)

/-- The `NotInitialized` case of `Class.Initialize` between `Lock()` and the
call of `initialize`: `InitJava` once the minimum classes are loaded, state
`Initializing`, `initBy` the caller, `Unlock()`. -/
def Initialize.enter (env : Env σ) (c : ClassRef) (curThread : ThreadRef) (w : World σ) :
    World σ :=
  let w1 := if w.vm.doneLoadingMinimumClass then InitJava env c w else w
  let k := w1.vm.classes c
  let k1 : Class := { k with state := ClassState.Initializing, initBy := some curThread }
  unlockInit c { w1 with vm := w1.vm.setClass c k1 }

/-- `Class.Initialize`: the Go result `(ClassState, error)` and the state
left. -/
def Initialize (env : Env σ) (fuel : Nat) (c : ClassRef) (curThread : ThreadRef)
    (w : World σ) : Option ((ClassState × Option Error) × World σ) :=
  if (w.vm.classes c).state = ClassState.Initialized ∨
      (w.vm.classes c).state = ClassState.FailedInitialization then
    some (((w.vm.classes c).state, none), w)
  else
    match lockInit c w with
    | none => none
    | some w1 =>
      match (w1.vm.classes c).state with
      | ClassState.NotInitialized =>
        match initializeClass env fuel c curThread (Initialize.enter env c curThread w1) with
        | none => none
        | some (some err, w2) => some ((ClassState.NotInitialized, some err), w2)
        | some (none, w2) => some (((w2.vm.classes c).state, none), w2)
      | ClassState.Initializing =>
        if (w1.vm.classes c).initBy = some curThread then
          let w2 := unlockInit c w1
          some (((w2.vm.classes c).state, none), w2)
        else
          let w2 := unlockInit c w1
          let w3 : World σ :=
            { vm := env.awaitBroadcast c curThread w2.vm
              log := w2.log ++ [Event.wait c curThread] }
          match lockInit c w3 with
          | none => none
          | some w4 => some (((w4.vm.classes c).state, none), w4)
      | _ =>
        let w2 := unlockInit c w1
        some (((w2.vm.classes c).state, none), w2)

/-! ## Thread: interruption -/

/-- The channels that `WatchInterruption` makes: those closed so far, in the
order of closing, and the next channel that `make` returns. -/
structure Chans where
  closed : List ChanRef
  next : ChanRef
  deriving DecidableEq, Repr

/-- The Go builtin `close(w)`: closing a closed channel panics. -/
def Chans.close (chans : Chans) (w : ChanRef) : Option Chans :=
  if w ∈ chans.closed then none else some { chans with closed := chans.closed ++ [w] }

/-- The loop `for _, w := range thread.interWatcher { close(w) }`. -/
def Interrupt.closeAll : List ChanRef → Chans → Option Chans
  | [], chans => some chans
  | w :: rest, chans =>
    match chans.close w with
    | none => none
    | some chans1 => Interrupt.closeAll rest chans1

/-- `Thread.Interrupt`, under `interLock`, which the deferred `Unlock()`
releases: every watcher is closed, `interrupted` records whether there was
one, and the watcher list becomes nil. -/
def Interrupt (thread : Thread) (chans : Chans) : Option (Thread × Chans) :=
  if thread.interLocked then none
  else
    match Interrupt.closeAll thread.interWatcher chans with
    | none => none
    | some chans1 =>
      some ({ thread with
                interrupted := decide (thread.interWatcher.length > 0), interWatcher := [] },
        chans1)

/-- `Thread.WatchInterruption`, under `interLock`: `make` returns a channel
that did not exist before, which is appended to the watcher list and
returned. -/
def WatchInterruption (thread : Thread) (chans : Chans) : Option (ChanRef × Thread × Chans) :=
  if thread.interLocked then none
  else
    let watcher := chans.next
    some (watcher, { thread with interWatcher := thread.interWatcher ++ [watcher] },
      { chans with next := chans.next + 1 })

/-- The loop of `UnWatchInterruption`: at the first index `i` whose entry is
the watcher, the list becomes `interWatcher[:i]` followed by
`interWatcher[i+1:]`, and the loop ends. -/
def UnWatchInterruption.remove (watcher : ChanRef) : List ChanRef → List ChanRef
  | [] => []
  | w :: rest =>
    if w ≠ watcher then w :: UnWatchInterruption.remove watcher rest
    else rest

/-- `Thread.UnWatchInterruption`, under `interLock`. -/
def UnWatchInterruption (thread : Thread) (watcher : ChanRef) : Option Thread :=
  if thread.interLocked then none
  else
    some { thread with interWatcher := UnWatchInterruption.remove watcher thread.interWatcher }

/-- One call on a thread: `WatchInterruption()`, `UnWatchInterruption(watcher)`
or `Interrupt()`. -/
inductive InterruptionCall where
  | watch
  | unwatch (watcher : ChanRef)
  | interrupt
  deriving DecidableEq, Repr

/-- The thread and the channels that one call leaves. -/
def InterruptionCall.run (call : InterruptionCall) (thread : Thread) (chans : Chans) :
    Option (Thread × Chans) :=
  match call with
  | InterruptionCall.watch =>
    match WatchInterruption thread chans with
    | none => none
    | some (_, thread1, chans1) => some (thread1, chans1)
  | InterruptionCall.unwatch watcher =>
    match UnWatchInterruption thread watcher with
    | none => none
    | some thread1 => some (thread1, chans)
  | InterruptionCall.interrupt => Interrupt thread chans

/-- A sequence of calls on one thread, one after the other. -/
def InterruptionCall.runAll : List InterruptionCall → Thread → Chans → Option (Thread × Chans)
  | [], thread, chans => some (thread, chans)
  | call :: rest, thread, chans =>
    match call.run thread chans with
    | none => none
    | some (thread1, chans1) => InterruptionCall.runAll rest thread1 chans1

/-! ## ThreadExecutor -/

/-- The `ThreadResult` struct of `vm/thread.go`. -/
structure ThreadResult where
  thread : ThreadRef
  err : Option Error
  deriving DecidableEq, Repr

/-- The `ThreadExecutor` struct of `vm/thread.go`: `locked` is the mutex
`lock`; the channel `result` is the list of the results delivered on it and
whether it is closed.  The counters are Go `int`s, far from overflow for any
number of threads that can exist. -/
structure ThreadExecutor where
  locked : Bool
  executingNum : Int
  daemonNum : Int
  delivered : List ThreadResult
  closed : Bool
  deriving DecidableEq, Repr

/-- `NewThreadExecutor`. -/
def NewThreadExecutor : ThreadExecutor :=
  { locked := false, executingNum := 0, daemonNum := 0, delivered := [], closed := false }

/-- `ThreadExecutor.Start` up to the `go` statement: under the lock, which
the deferred `Unlock()` releases, the thread is counted. -/
def ThreadExecutor.Start (executor : ThreadExecutor) (thread : Thread) :
    Option ThreadExecutor :=
  if executor.locked then none
  else
    some { executor with
      executingNum := executor.executingNum + 1
      daemonNum := if thread.daemon then executor.daemonNum + 1 else executor.daemonNum }

/-- The end of the goroutine of `ThreadExecutor.Start`: under the lock the
thread is counted out and `done` is computed; then the result is sent, and the
channel is closed when `done` holds.  The Go result is `done` and the executor
left; sending on a closed channel panics. -/
def ThreadExecutor.Start.report (executor : ThreadExecutor) (thread : ThreadRef)
    (daemon : Bool) (err : Option Error) : Option (Bool × ThreadExecutor) :=
  if executor.locked then none
  else
    let executingNum := executor.executingNum - 1
    let daemonNum := if daemon then executor.daemonNum - 1 else executor.daemonNum
    let done := decide (executingNum - daemonNum = 0)
    if executor.closed then none
    else
      let sent : ThreadExecutor :=
        { executor with
          executingNum := executingNum
          daemonNum := daemonNum
          delivered := executor.delivered ++ [{ thread := thread, err := err }] }
      some (done, if done then { sent with closed := true } else sent)

/-- The part of the goroutine of `ThreadExecutor.Start` that runs under the
lock: the thread is counted out and `done` is computed.  The Go result is
`done` and the executor left. -/
def ThreadExecutor.Start.countOut (executor : ThreadExecutor) (daemon : Bool) :
    Option (Bool × ThreadExecutor) :=
  if executor.locked then none
  else
    let executingNum := executor.executingNum - 1
    let daemonNum := if daemon then executor.daemonNum - 1 else executor.daemonNum
    some (decide (executingNum - daemonNum = 0),
      { executor with executingNum := executingNum, daemonNum := daemonNum })

/-- The goroutine of `ThreadExecutor.Start`: execute the frame, mark the thread
not alive, notify the waiters on the thread's own monitor (a nil `JavaThread()`
panics), then report. -/
def ThreadExecutor.Start.goroutine (env : Env σ) (fuel : Nat) (executor : ThreadExecutor)
    (thread : ThreadRef) (frame : FrameRef) (w : World σ) :
    Option ((Bool × ThreadExecutor) × World σ) :=
  match Execute env fuel thread frame w with
  | none => none
  | some (err, w1) =>
    let w2 : World σ :=
      { w1 with vm := w1.vm.setThread thread { w1.vm.threads thread with alive := false } }
    match (w2.vm.threads thread).java with
    | none => none
    | some obj =>
      let w3 : World σ :=
        { vm := env.MonitorExit obj thread
            (env.MonitorNotifyAll obj thread (env.MonitorEnter obj thread w2.vm))
          log := w2.log ++ [Event.monitorEnter obj thread, Event.monitorNotifyAll obj thread,
            Event.monitorExit obj thread] }
      match ThreadExecutor.Start.report executor thread (w3.vm.threads thread).daemon err with
      | none => none
      | some r => some (r, w3)

/-- One call of `Start` for each thread of a list, in order. -/
def ThreadExecutor.startAll : List Thread → ThreadExecutor → Option ThreadExecutor
  | [], executor => some executor
  | thread :: rest, executor =>
    match executor.Start thread with
    | none => none
    | some executor1 => ThreadExecutor.startAll rest executor1

/-! ## Slot numbering along the superclass chain -/

/-- The slot ids of the instance fields that a class declares, in declaration
order. -/
def Class.instanceFieldIDs (k : Class) : List Int :=
  k.file.InstanceFields.map FieldInfo.id

/-- The consecutive ids `base, base + 1, ..., base + count - 1`. -/
def slotsFrom (base : Int) (count : Nat) : List Int :=
  (List.range count).map (fun (i : Nat) => base + (i : Int))

/-- The stored slot total of the superclass of `c`, or 0 when `c` has no
superclass (or its name does not resolve); `reg` is `vm.Class(name, nil)`. -/
def superTotal (reg : String → Except Error ClassRef) (cs : ClassRef → Class)
    (c : ClassRef) : Int :=
  match (cs c).file.superClass with
  | none => 0
  | some superName =>
    match reg superName with
    | Except.ok p => (cs p).totalIFields
    | Except.error _ => 0

/-- The superclass chain of `c`, root first and `c` last, following the
superclass names through `reg`. -/
def superChain (reg : String → Except Error ClassRef) (cs : ClassRef → Class) :
    Nat → ClassRef → Option (List ClassRef)
  | 0, _ => none
  | fuel + 1, c =>
    match (cs c).file.superClass with
    | none => some [c]
    | some superName =>
      match reg superName with
      | Except.ok p => (superChain reg cs fuel p).map (fun chain => chain ++ [c])
      | Except.error _ => none

/-- The slot ids of all instance fields declared along a chain of classes. -/
def chainFieldIDs (cs : ClassRef → Class) (chain : List ClassRef) : List Int :=
  (chain.map (fun d => (cs d).instanceFieldIDs)).flatten

/-- Class `c` and every class above it are numbered, and the stored total of
`c` is `n`: each class on the chain holds as total the total of its superclass
(0 at the root) plus the number of instance fields it declares, and its own
ids are the consecutive numbers in between. -/
inductive Slotted (reg : String → Except Error ClassRef) (cs : ClassRef → Class) :
    ClassRef → Nat → Prop where
  | root (c : ClassRef) :
      (cs c).file.superClass = none →
      (cs c).instanceFieldIDs = slotsFrom 0 (cs c).file.InstanceFields.length →
      (cs c).totalIFields = ((cs c).file.InstanceFields.length : Int) →
      Slotted reg cs c (cs c).file.InstanceFields.length
  | step (c p : ClassRef) (superName : String) (n : Nat) :
      (cs c).file.superClass = some superName →
      reg superName = Except.ok p →
      Slotted reg cs p n →
      (cs c).instanceFieldIDs = slotsFrom n (cs c).file.InstanceFields.length →
      (cs c).totalIFields = ((n + (cs c).file.InstanceFields.length : Nat) : Int) →
      Slotted reg cs c (n + (cs c).file.InstanceFields.length)

/-- Every class whose slot total is set (not -1) is numbered together with its
whole superclass chain.  This holds when no class is numbered yet and is kept
by `initializeFieldID`. -/
def SlotsWF (reg : String → Except Error ClassRef) (cs : ClassRef → Class) : Prop :=
  ∀ c, (cs c).totalIFields ≠ -1 → ∃ n, Slotted reg cs c n

/-! ## The record of calls -/

/-- The event is a call of `vm.Class`. -/
def Event.isResolve : Event → Bool
  | Event.resolve _ _ => true
  | _ => false

/-- The event is a call of `Thread.Execute`. -/
def Event.isExecute : Event → Bool
  | Event.execute _ _ => true
  | _ => false

/-- An event that is neither a call of `vm.Class` nor a call of `Execute`. -/
def Event.isInner (e : Event) : Bool := !e.isResolve && !e.isExecute

/-- The record of `w1` is the record of `w` followed by events that all
satisfy `p`. -/
def World.Extends (p : Event → Bool) (w w1 : World σ) : Prop :=
  ∃ l, w1.log = w.log ++ l ∧ ∀ e ∈ l, p e = true

/-- The event is a call of `PopFrame`. -/
def Event.isPopFrame : Event → Bool
  | Event.popFrame _ _ => true
  | _ => false

/-- The events that `PopFrame` records for the top frame `top`: the exit of
the monitor `syncObj` recorded for it when its method is synchronized, and the
pop itself. -/
def PopFrame.events (thread : ThreadRef) (top : FrameRef) (isSync : Bool)
    (syncObj : Option InstanceRef) : List Event :=
  match isSync, syncObj with
  | true, some obj => [Event.monitorExit obj thread, Event.popFrame thread top]
  | _, _ => [Event.popFrame thread top]

/-- The events that `PushFrame` records: the entry into the monitor of the
lock object, if there is one. -/
def PushFrame.events (thread : ThreadRef) (syncObj : Option InstanceRef) : List Event :=
  match syncObj with
  | some obj => [Event.monitorEnter obj thread]
  | none => []

/-! ## Conditions on the call stack and on the monitor code -/

/-- The two stacks of a thread are aligned: `syncStack` is as long as
`frameStack`, and the entry recorded for a frame with a synchronized method
is a lock object.  `PushFrame` builds the stacks this way. -/
def StacksWF (vm : VM σ) (thread : ThreadRef) : Prop :=
  (vm.threads thread).syncStack.length = (vm.threads thread).frameStack.length ∧
  ∀ i f, (vm.threads thread).frameStack.get? i = some f →
    (vm.frames f).curMethod.isSync = true →
    ∃ syncObj, (vm.threads thread).syncStack.get? i = some (some syncObj)

/-- `Monitor.Enter` and `Monitor.Exit` act on the monitor of the object only:
they leave the classes, the frames and the threads of the VM as they are. -/
def MonitorsLocal (env : Env σ) : Prop :=
  ∀ obj thread vm,
    (env.MonitorEnter obj thread vm).classes = vm.classes ∧
    (env.MonitorEnter obj thread vm).frames = vm.frames ∧
    (env.MonitorEnter obj thread vm).threads = vm.threads ∧
    (env.MonitorExit obj thread vm).classes = vm.classes ∧
    (env.MonitorExit obj thread vm).frames = vm.frames ∧
    (env.MonitorExit obj thread vm).threads = vm.threads

/-! ## Conditions on the watchers of a thread -/

/-- The watcher list of a thread whose `interLock` is free holds distinct
channels, all of them made earlier and none of them closed; every closed
channel was made earlier and is recorded once. -/
def WatchersWF (thread : Thread) (chans : Chans) : Prop :=
  thread.interLocked = false ∧
  thread.interWatcher.Nodup ∧
  (∀ w ∈ thread.interWatcher, w < chans.next ∧ w ∉ chans.closed) ∧
  chans.closed.Nodup ∧
  (∀ w ∈ chans.closed, w < chans.next)

/-! ## Conditions on the writers of the link fields -/

/-- The link fields of a class, `super` and `interfaces`, and the declared
names they are resolved from. -/
def Class.links (k : Class) : Option ClassRef × List ClassRef × Option String × List String :=
  (k.super, k.interfaces, k.file.superClass, k.file.interfaces)

/-- The external code that runs during an initialization never writes the link
fields of class `c`, nor its declared superclass and interface names. -/
def LinksUntouched (env : Env σ) (c : ClassRef) : Prop :=
  ∀ vm : VM σ,
    (∀ name thread, ((env.Class name thread vm).2.classes c).links = (vm.classes c).links) ∧
    (∀ str, ((env.JavaString str vm).2.classes c).links = (vm.classes c).links) ∧
    (∀ k, ((env.NewInstance k vm).2.classes c).links = (vm.classes c).links) ∧
    (∀ i k, ((env.ToBeClass i k vm).classes c).links = (vm.classes c).links) ∧
    (∀ k m, ((env.NewFrame k m vm).2.classes c).links = (vm.classes c).links) ∧
    (∀ f, ((env.NextInstr f vm).2.classes c).links = (vm.classes c).links) ∧
    (∀ t f i, ((env.ExecInstr t f i vm).2.classes c).links = (vm.classes c).links) ∧
    (∀ obj t, ((env.MonitorEnter obj t vm).classes c).links = (vm.classes c).links) ∧
    (∀ obj t, ((env.MonitorExit obj t vm).classes c).links = (vm.classes c).links)

/-- The class `i` is what `vm.Class(name, thread)` returns in some state. -/
def ResolvesTo (env : Env σ) (thread : ThreadRef) (name : String) (i : ClassRef) : Prop :=
  ∃ vm, (env.Class name (some thread) vm).1 = Except.ok i

/-! ## Example runs -/

/-- A class file without declared interfaces and constants. -/
def exampleFile (name : String) (super : Option String) (fields : List FieldInfo)
    (methods : List MethodInfo) : ClassFile :=
  { thisClass := name, superClass := super, interfaces := [], fields := fields,
    methods := methods, constPool := [] }

/-- An instance field of type `int` whose slot id is not assigned yet. -/
def exampleField (name : String) : FieldInfo :=
  { name := name, desc := "I", isStatic := false, id := 0, constantValue := none }

/-- A thread with an empty call stack. -/
def exampleThread : Thread :=
  { name := "main", main := true, daemon := false, java := none, frameStack := [],
    syncStack := [], alive := true, interLocked := false, interrupted := false,
    interWatcher := [] }

/-- A static method without arguments that is not synchronized. -/
def exampleMethod (name : String) : MethodInfo :=
  { name := name, desc := "()V", isSync := false, isStatic := true, isNative := false,
    numArgs := 0 }

/-- External code that does nothing: no class is found, every instruction
succeeds without effect, no handler matches. -/
def quietEnv : Env Unit :=
  { Class := fun name _ vm => (Except.error (Error.other name), vm)
    JavaString := fun _ vm => (0, vm)
    NewInstance := fun _ vm => (0, vm)
    ToBeClass := fun _ _ vm => vm
    NewFrame := fun _ _ vm => (0, vm)
    NextInstr := fun _ vm => (0, vm)
    ExecInstr := fun _ _ _ vm => (none, vm)
    FindCurrentExceptionHandler := fun _ _ _ => none
    MonitorEnter := fun _ _ vm => vm
    MonitorExit := fun _ _ vm => vm
    MonitorNotifyAll := fun _ _ vm => vm
    awaitBroadcast := fun _ _ vm => vm }

/-- Class `B` (reference 1) is found, but initializing it on a thread fails. -/
def failingSuperEnv : Env Unit :=
  { quietEnv with
    Class := fun name thread vm =>
      if name = "B" then
        match thread with
        | none => (Except.ok 1, vm)
        | some _ => (Except.error (Error.other "B: initialization failed"), vm)
      else (Except.error (Error.other name), vm) }

/-- Two freshly loaded classes: `A` (reference 0) with superclass `B`, and `B`
(every other reference) without a superclass; neither declares a member. -/
def exampleVM : VM Unit :=
  { classes := fun r =>
      if r = 0 then NewClass (exampleFile "A" (some "B") [] [])
      else NewClass (exampleFile "B" none [] [])
    frames := fun _ =>
      { curClass := 0, curMethod := exampleMethod "run", pc := 0, operands := [], locals := [] }
    threads := fun _ => exampleThread
    doneLoadingMinimumClass := false
    specialClass := fun _ => none
    external := () }

/-- The class of reference 0 is `Initialized`. -/
def initializedWorld : World Unit :=
  { vm := exampleVM.setClass 0 { exampleVM.classes 0 with state := ClassState.Initialized }
    log := [] }

/-- The class of reference 0 is being initialized by thread 0. -/
def initializingWorld : World Unit :=
  { vm := exampleVM.setClass 0
      { exampleVM.classes 0 with state := ClassState.Initializing, initBy := some 0 }
    log := [] }

/-- Every instruction is a return: it pops the top frame of the thread. -/
def returningEnv : Env Unit :=
  { quietEnv with
    ExecInstr := fun thread _ _ vm =>
      let t := vm.threads thread
      (none, vm.setThread thread
        { t with frameStack := t.frameStack.dropLast, syncStack := t.syncStack.dropLast }) }

/-- One freshly loaded class `K` without superclass that declares a static
initializer `<clinit>()V`. -/
def clinitWorld : World Unit :=
  { vm := { exampleVM with
      classes := fun _ =>
        NewClass
          (exampleFile "K" none [] [exampleMethod "<clinit>"]) }
    log := [] }

/-- Linked classes: `C` (reference 0) declares nothing, has superclass `S`
(reference 1) and implements `I1` (reference 2) and `I2` (reference 3) in
that order; `S` declares field `f` and method `m`, `I1` declares method `m`
only, `I2` declares field `f` only. -/
def resolutionHeap : ClassRef → Class := fun r =>
  match r with
  | 0 =>
    { NewClass (exampleFile "C" (some "S") [] []) with
      super := some 1, interfaces := [2, 3] }
  | 1 =>
    NewClass
      (exampleFile "S" none [exampleField "f"] [exampleMethod "m"])
  | 2 => NewClass (exampleFile "I1" none [] [exampleMethod "m"])
  | _ => NewClass (exampleFile "I2" none [exampleField "f"] [])

/-- `vm.Class(name, nil)` as a lookup: `B` is the class of reference 1, no
other name is known. -/
def slotRegistry (name : String) : Except Error ClassRef :=
  if name = "B" then Except.ok 1 else Except.error (Error.other name)

/-- External code whose class lookup is `slotRegistry` and changes nothing. -/
def slotEnv : Env Unit :=
  { quietEnv with Class := fun name _ vm => (slotRegistry name, vm) }

/-- Two freshly loaded classes: `A` (reference 0) extends `B` and declares the
instance fields `x` and `y`; `B` (every other reference) declares a static
field `s` and the instance field `z`. -/
def slotWorld : World Unit :=
  { vm := { exampleVM with
      classes := fun r =>
        if r = 0 then
          NewClass
            (exampleFile "A" (some "B") [exampleField "x", exampleField "y"] [])
        else
          NewClass
            (exampleFile "B" none
              [{ exampleField "s" with isStatic := true }, exampleField "z"] []) }
    log := [] }

/-- The state that `initializeFieldID` on class `A` leaves from `slotWorld`. -/
def slotWorldNumbered : World Unit :=
  match initializeFieldID slotEnv 2 0 slotWorld with
  | some r => r.2
  | none => slotWorld

/-- Thread 0 has an empty call stack; frame 0 holds the operand 5 and frame 1
the operand 9, both at pc 0. -/
def frameWorld : World Unit :=
  { vm := { exampleVM with
      frames := fun r =>
        { curClass := 0, curMethod := exampleMethod "run", pc := 0,
          operands := if r = 0 then [Value.int 5] else [Value.int 9], locals := [] } }
    log := [] }

/-- The instruction at pc 7 returns (it pops the top frame); every other
instruction throws the Java exception 42.  Every frame has a handler at pc 7
that catches it. -/
def handlerEnv : Env Unit :=
  { quietEnv with
    ExecInstr := fun thread frame _ vm =>
      if (vm.frames frame).pc = 7 then
        let t := vm.threads thread
        (none, vm.setThread thread
          { t with frameStack := t.frameStack.dropLast, syncStack := t.syncStack.dropLast })
      else (some (Error.java 42), vm)
    FindCurrentExceptionHandler := fun _ _ _ => some 7 }

/-- The instruction of frame 0 invokes a method that is not synchronized: the
callee frame 1 is pushed, as `ExecMethod` does through `PushFrame`.  The
instruction of frame 1 throws the Java exception 42.  Only the callee frame 1
has a handler for it, at pc 7. -/
def calleeEnv : Env Unit :=
  { quietEnv with
    ExecInstr := fun thread frame _ vm =>
      if frame = 0 then
        let t := vm.threads thread
        (none, vm.setThread thread
          { t with frameStack := t.frameStack ++ [1], syncStack := t.syncStack ++ [none] })
      else (some (Error.java 42), vm)
    FindCurrentExceptionHandler := fun frame _ _ => if frame = 1 then some 7 else none }

/-- The instruction of frame 0 invokes a method that is not synchronized: the
callee frame 1 is pushed.  The instruction of frame 1 throws the Java
exception 42.  Only the caller frame 0 has a handler for it, at pc 7. -/
def callerHandlerEnv : Env Unit :=
  { calleeEnv with
    FindCurrentExceptionHandler := fun frame _ _ => if frame = 0 then some 7 else none }

/-- The instruction of frame 0 invokes a method that is not synchronized: the
callee frame 1 is pushed.  The instruction of frame 1 throws the Java
exception 42, for which no frame has a handler. -/
def uncaughtEnv : Env Unit :=
  { calleeEnv with FindCurrentExceptionHandler := fun _ _ _ => none }

/-- Every instruction fails with an error that is not a Java exception. -/
def fatalEnv : Env Unit :=
  { quietEnv with
    ExecInstr := fun _ _ _ vm => (some (Error.other "native method not found"), vm)
    FindCurrentExceptionHandler := fun _ _ _ => some 7 }

/-- Frame 0 runs a synchronized instance method whose receiver, local 0, is
the object 5; thread 0 has an empty call stack. -/
def syncWorld : World Unit :=
  { vm := { exampleVM with
      frames := fun _ =>
        { curClass := 0, curMethod := { exampleMethod "run" with isSync := true, isStatic := false },
          pc := 0, operands := [], locals := [Value.ref 5] } }
    log := [] }

/-- Every instruction throws the Java exception 42, after overwriting local 0
of the frame; no frame has a handler. -/
def throwingEnv : Env Unit :=
  { quietEnv with
    ExecInstr := fun _ frame _ vm =>
      (some (Error.java 42), vm.setFrame frame { vm.frames frame with locals := [Value.null] }) }

/-- A thread on which the watchers 3 and 4 are registered, with an
interruption recorded earlier. -/
def watchedThread : Thread :=
  { exampleThread with interrupted := true, interWatcher := [3, 4] }

/-- A daemon thread. -/
def daemonThread : Thread := { exampleThread with name := "daemon", main := false, daemon := true }

/-- Class `K` (reference 0) implements the interface `I` and declares a
static initializer `<clinit>()V`; `I` is every other reference.  Both are
freshly loaded. -/
def interfaceWorld : World Unit :=
  { vm := { exampleVM with
      classes := fun r =>
        if r = 0 then
          NewClass
            { exampleFile "K" none [] [exampleMethod "<clinit>"] with interfaces := ["I"] }
        else NewClass (exampleFile "I" none [] []) }
    log := [] }

/-- The interface `I` resolves to the class of reference 1; every instruction
throws the Java exception 42, for which no frame has a handler. -/
def interfaceEnv : Env Unit :=
  { throwingEnv with
    Class := fun name _ vm =>
      if name = "I" then (Except.ok 1, vm) else (Except.error (Error.other name), vm) }

/-- As `interfaceEnv`, but every instruction is a return. -/
def interfaceReturningEnv : Env Unit :=
  { returningEnv with
    Class := fun name _ vm =>
      if name = "I" then (Except.ok 1, vm) else (Except.error (Error.other name), vm) }

/-- The state in which the static initializer of `K` starts when
`Initialize` is called on `K` in `interfaceWorld`. -/
def interfaceWorldLinked : World Unit :=
  match (lockInit 0 interfaceWorld).bind (fun w =>
      initializeClass.link interfaceReturningEnv 5 0 0
        (Initialize.enter interfaceReturningEnv 0 0 w)) with
  | some r => r.2
  | none => interfaceWorld

/-- Linked classes: `C` (reference 0) implements `I0` (reference 1) and `I`
(reference 2), in that order, and has no superclass; `I` extends the interface
`J` (reference 3); only `J` declares the method `m`. -/
def interfaceHeap : ClassRef → Class := fun r =>
  match r with
  | 0 => { NewClass (exampleFile "C" none [] []) with interfaces := [1, 2] }
  | 1 => NewClass (exampleFile "I0" none [] [])
  | 2 => { NewClass (exampleFile "I" none [] []) with interfaces := [3] }
  | _ => NewClass (exampleFile "J" none [] [exampleMethod "m"])

/-- A rank for `interfaceHeap`: 2 for `C`, 1 for `I`, 0 for the others. -/
def interfaceRank : ClassRef → Nat := fun r =>
  match r with
  | 0 => 2
  | 2 => 1
  | _ => 0

/-- The thread that initializes the class fails to resolve the superclass:
a thread waiting for it is woken after the deferred function of `initialize`
has stored `NotInitialized`, cleared `initBy` and released the lock. -/
def wakingEnv : Env Unit :=
  { quietEnv with
    awaitBroadcast := fun c _ vm =>
      vm.setClass c
        { vm.classes c with
          state := ClassState.NotInitialized, initBy := none, initLocked := false } }

/-- Linked classes: `C` (reference 0) extends `S` (reference 3) and declares
the interface `J` (reference 1) only; `J` extends the interface `I`
(reference 2); only `I` declares the field `f` and the method `m`. -/
def superInterfaceHeap : ClassRef → Class := fun r =>
  match r with
  | 0 =>
    { NewClass { exampleFile "C" (some "S") [] [] with interfaces := ["J"] } with
      super := some 3, interfaces := [1] }
  | 1 =>
    { NewClass { exampleFile "J" none [] [] with interfaces := ["I"] } with
      interfaces := [2] }
  | 2 => NewClass (exampleFile "I" none [exampleField "f"] [exampleMethod "m"])
  | _ => NewClass (exampleFile "S" none [] [])

/-- A rank for `superInterfaceHeap`: 2 for `C`, 1 for `J`, 0 for the others. -/
def superInterfaceRank : ClassRef → Nat := fun r =>
  match r with
  | 0 => 2
  | 1 => 1
  | _ => 0

/-- Two freshly loaded classes: `A` (reference 0) extends `B` and declares the
instance field `x`; `B` (every other reference) extends `Z` and declares the
instance field `z`.  With `slotEnv`, `B` is found and `Z` is not. -/
def failingChainWorld : World Unit :=
  { vm := { exampleVM with
      classes := fun r =>
        if r = 0 then NewClass (exampleFile "A" (some "B") [exampleField "x"] [])
        else NewClass (exampleFile "B" (some "Z") [exampleField "z"] []) }
    log := [] }

/-! ## Resolution order -/

theorem ResolveField.interfaces_first (cs : ClassRef → Class) (name desc : String)
    (pre post : List ClassRef) (i : ClassRef) (f : FieldInfo)
    (hpre : ∀ j ∈ pre, (cs j).file.FindField name desc = none)
    (hi : (cs i).file.FindField name desc = some f) :
    ResolveField.interfaces cs name desc (pre ++ i :: post) = some (i, f) := by
  induction pre with
  | nil => simp [ResolveField.interfaces, hi]
  | cons j pre ih =>
    have hj : (cs j).file.FindField name desc = none := hpre j (List.mem_cons_self _ _)
    have hrest : ∀ k ∈ pre, (cs k).file.FindField name desc = none :=
      fun k hk => hpre k (List.mem_cons_of_mem _ hk)
    simp [ResolveField.interfaces, hj, ih hrest]

/-- C1: when class `c` does not declare the field and `i` is the first of its
directly implemented interfaces (declaration order) that declares it, then
`ResolveField` returns `(i, i's field)` for every positive fuel, whatever the
superclass chain of `c` declares. -/
theorem ResolveField_interface_before_super (cs : ClassRef → Class) (fuel : Nat)
    (c i : ClassRef) (name desc : String) (pre post : List ClassRef) (f : FieldInfo)
    (hown : (cs c).file.FindField name desc = none)
    (hifs : (cs c).interfaces = pre ++ i :: post)
    (hpre : ∀ j ∈ pre, (cs j).file.FindField name desc = none)
    (hi : (cs i).file.FindField name desc = some f) :
    ResolveField cs (fuel + 1) c name desc = some (some i, some f) := by
  simp [ResolveField, hown, hifs, ResolveField.interfaces_first cs name desc pre post i f hpre hi]

theorem ResolveField_interface_before_super_witness :
    ResolveField resolutionHeap 1 0 "f" "I" = some (some 3, some (exampleField "f")) :=
  ResolveField_interface_before_super resolutionHeap 0 0 3 "f" "I" [2] [] (exampleField "f")
    (by decide) (by decide) (by decide) (by decide)

/-- C2: a method declared by `c` itself wins with owner `c`; when `c` declares
none and resolution on its superclass yields a non-nil owner, `ResolveMethod`
returns exactly that result, whatever the interfaces of `c` declare; the
interface search decides only when there is no superclass or the superclass
search is not-found. -/
theorem ResolveMethod_super_before_interfaces (cs : ClassRef → Class) (fuel : Nat)
    (c : ClassRef) (name desc : String) :
    (∀ m, (cs c).file.FindMethod name desc = some m →
      ResolveMethod cs (fuel + 1) c name desc = some (some c, some m)) ∧
    ((cs c).file.FindMethod name desc = none →
      (∀ s owner m, (cs c).super = some s →
        ResolveMethod cs fuel s name desc = some (some owner, m) →
        ResolveMethod cs (fuel + 1) c name desc = some (some owner, m)) ∧
      (∀ s m, (cs c).super = some s →
        ResolveMethod cs fuel s name desc = some (none, m) →
        ResolveMethod cs (fuel + 1) c name desc =
          ResolveMethod.interfaces (fun i => ResolveMethod cs fuel i name desc)
            (cs c).interfaces) ∧
      ((cs c).super = none →
        ResolveMethod cs (fuel + 1) c name desc =
          ResolveMethod.interfaces (fun i => ResolveMethod cs fuel i name desc)
            (cs c).interfaces)) := by
  refine ⟨fun m hm => by simp [ResolveMethod, hm], fun hown => ⟨?_, ?_, ?_⟩⟩
  · intro s owner m hs hr
    simp [ResolveMethod, hown, hs, hr]
  · intro s m hs hr
    simp [ResolveMethod, hown, hs, hr]
  · intro hs
    simp [ResolveMethod, hown, hs]

theorem ResolveMethod_super_before_interfaces_witness :
    ResolveMethod resolutionHeap 2 0 "m" "()V" = some (some 1, some (exampleMethod "m")) :=
  (ResolveMethod_super_before_interfaces resolutionHeap 1 0 "m" "()V").2 (by decide) |>.1
    1 1 (some (exampleMethod "m")) (by decide) (by decide)

/-! ## The record of calls: what each function adds -/

theorem World.Extends.refl (p : Event → Bool) (w : World σ) : World.Extends p w w :=
  ⟨[], by simp, by simp⟩

theorem World.Extends.of_log_eq (p : Event → Bool) {w w1 : World σ} (h : w1.log = w.log) :
    World.Extends p w w1 :=
  ⟨[], by simp [h], by simp⟩

theorem World.Extends.trans {p : Event → Bool} {w w1 w2 : World σ}
    (h1 : World.Extends p w w1) (h2 : World.Extends p w1 w2) : World.Extends p w w2 := by
  obtain ⟨l1, e1, p1⟩ := h1
  obtain ⟨l2, e2, p2⟩ := h2
  refine ⟨l1 ++ l2, by rw [e2, e1, List.append_assoc], ?_⟩
  intro e he
  rcases List.mem_append.mp he with h | h
  · exact p1 e h
  · exact p2 e h

theorem lockInit_log {c : ClassRef} {w w1 : World σ} (h : lockInit c w = some w1) :
    w1.log = w.log := by
  unfold lockInit at h
  split at h
  · cases h
  · cases h; rfl

theorem Initialize.enter_log (env : Env σ) (c : ClassRef) (curThread : ThreadRef)
    (w : World σ) : (Initialize.enter env c curThread w).log = w.log := by
  unfold Initialize.enter unlockInit InitJava
  split <;> rfl

theorem World.resolve_extends (env : Env σ) (name : String) (thread : Option ThreadRef)
    (w : World σ) : World.Extends Event.isResolve w (World.resolve env name thread w).2 :=
  ⟨[Event.resolve name thread], rfl, by simp [Event.isResolve]⟩

theorem initializeFieldID_extends (env : Env σ) (fuel : Nat) :
    ∀ (c : ClassRef) (w w1 : World σ) (r : Int × Option Error),
      initializeFieldID env fuel c w = some (r, w1) → World.Extends Event.isResolve w w1 := by
  induction fuel with
  | zero => intro c w w1 r h; simp [initializeFieldID] at h
  | succ fuel ih =>
    intro c w w1 r h
    unfold initializeFieldID at h
    split at h
    · cases h; exact World.Extends.refl _ _
    · split at h
      · rename_i superName _
        have hres := World.resolve_extends env superName none w
        split at h
        · rename_i err w2 heq
          cases h
          rw [heq] at hres
          exact hres
        · rename_i super w2 heq
          rw [heq] at hres
          split at h
          · cases h
          · rename_i x err w3 hrec
            cases h
            exact hres.trans (ih _ _ _ _ hrec)
          · rename_i id w3 hrec
            cases h
            exact hres.trans ((ih _ _ _ _ hrec).trans (World.Extends.of_log_eq _ rfl))
      · cases h
        exact World.Extends.of_log_eq _ rfl

theorem initializeClass.constValue_log (env : Env σ) (constVal : Value) (w : World σ) :
    (initializeClass.constValue env constVal w).2.log = w.log := by
  unfold initializeClass.constValue
  split <;> rfl

theorem initializeClass.constants_log (env : Env σ) (c : ClassRef) (fs : List FieldInfo) :
    ∀ (w w1 : World σ), initializeClass.constants env c fs w = some w1 → w1.log = w.log := by
  induction fs with
  | nil => intro w w1 h; simp [initializeClass.constants] at h; rw [← h]
  | cons f fs ih =>
    intro w w1 h
    unfold initializeClass.constants at h
    split at h
    · exact ih _ _ h
    · simp only [] at h
      split at h
      · cases h
      · have := ih _ _ h
        rw [this]
        exact initializeClass.constValue_log env _ w

theorem initializeClass.super_extends (env : Env σ) (c : ClassRef) (curThread : ThreadRef)
    (w : World σ) :
    World.Extends Event.isResolve w (initializeClass.super env c curThread w).2 := by
  unfold initializeClass.super
  split
  · exact World.Extends.refl _ _
  · rename_i superName _
    have hres := World.resolve_extends env superName (some curThread) w
    split
    · rename_i err w1 heq
      rw [heq] at hres
      exact hres.trans (World.Extends.of_log_eq _ rfl)
    · rename_i s w1 heq
      rw [heq] at hres
      exact hres.trans (World.Extends.of_log_eq _ rfl)

theorem initializeClass.interfaces_extends (env : Env σ) (c : ClassRef)
    (curThread : ThreadRef) (names : List String) :
    ∀ w : World σ, World.Extends Event.isResolve w
      (initializeClass.interfaces env c curThread names w).2 := by
  induction names with
  | nil => intro w; exact World.Extends.refl _ _
  | cons ifName rest ih =>
    intro w
    unfold initializeClass.interfaces
    have hres := World.resolve_extends env ifName (some curThread) w
    split
    · rename_i err w1 heq
      rw [heq] at hres
      exact hres
    · rename_i ifClass w1 heq
      rw [heq] at hres
      exact hres.trans ((World.Extends.of_log_eq _ rfl).trans (ih _))

theorem initializeClass.link_extends (env : Env σ) (fuel : Nat) (c : ClassRef)
    (curThread : ThreadRef) (w w1 : World σ) (r : Option Error)
    (h : initializeClass.link env fuel c curThread w = some (r, w1)) :
    World.Extends Event.isResolve w w1 := by
  unfold initializeClass.link at h
  split at h
  · cases h
  · rename_i x err w2 hslots
    cases h
    exact initializeFieldID_extends env fuel c w _ _ hslots
  · rename_i x w2 hslots
    have h1 := initializeFieldID_extends env fuel c w _ _ hslots
    split at h
    · cases h
    · rename_i w3 hconst
      have h2 : World.Extends Event.isResolve w2 w3 :=
        World.Extends.of_log_eq _ (initializeClass.constants_log env c _ _ _ hconst)
      have h3 := initializeClass.super_extends env c curThread w3
      split at h
      · rename_i err w4 hsuper
        cases h
        rw [hsuper] at h3
        exact h1.trans (h2.trans h3)
      · rename_i w4 hsuper
        rw [hsuper] at h3
        have h4 := initializeClass.interfaces_extends env c curThread
          (w4.vm.classes c).file.interfaces w4
        rw [Option.some.inj h] at h4
        exact h1.trans (h2.trans (h3.trans h4))

theorem PushFrame_extends (env : Env σ) (thread : ThreadRef) (frame : FrameRef)
    (w w1 : World σ) (h : PushFrame env thread frame w = some w1) :
    World.Extends Event.isInner w w1 := by
  unfold PushFrame at h
  simp only [] at h
  split at h
  · split at h
    · cases h
    · rename_i syncObj _
      cases h
      exact ⟨[Event.monitorEnter syncObj thread], rfl, by simp [Event.isInner, Event.isResolve, Event.isExecute]⟩
  · cases h
    exact World.Extends.of_log_eq _ rfl

theorem PopFrame_extends (env : Env σ) (thread : ThreadRef) (w w1 : World σ)
    (h : PopFrame env thread w = some w1) : World.Extends Event.isInner w w1 := by
  unfold PopFrame at h
  simp only [] at h
  split at h
  · cases h
  · rename_i top _
    split at h
    · split at h
      · rename_i syncObj _
        cases h
        exact ⟨[Event.monitorExit syncObj thread, Event.popFrame thread top], by simp,
          by simp [Event.isInner, Event.isResolve, Event.isExecute]⟩
      · cases h
    · cases h
      exact ⟨[Event.popFrame thread top], rfl,
        by simp [Event.isInner, Event.isResolve, Event.isExecute]⟩

theorem Execute.unwind_extends (env : Env σ) (thread : ThreadRef) (frame curFrame : FrameRef)
    (bottom : Nat) (exception : InstanceRef) (err : Error) (fuel : Nat) :
    ∀ (w w1 : World σ) (r : Option Error),
      Execute.unwind env thread frame curFrame bottom exception err fuel w = some (r, w1) →
      World.Extends Event.isInner w w1 := by
  induction fuel with
  | zero => intro w w1 r h; simp [Execute.unwind] at h
  | succ fuel ih =>
    intro w w1 r h
    unfold Execute.unwind at h
    have hfind : World.Extends Event.isInner w (w.emit (Event.findHandler curFrame)) :=
      ⟨[Event.findHandler curFrame], rfl,
        by simp [Event.isInner, Event.isResolve, Event.isExecute]⟩
    split at h
    · simp only [] at h
      split at h
      · cases h
        exact hfind.trans (World.Extends.of_log_eq _ rfl)
      · split at h
        · cases h
        · rename_i w2 hpop
          exact hfind.trans ((PopFrame_extends env thread _ _ hpop).trans (ih _ _ _ h))
    · cases h
      exact World.Extends.refl _ _

theorem Execute.loop_extends (env : Env σ) (thread : ThreadRef) (frame : FrameRef)
    (bottom : Nat) (fuel : Nat) :
    ∀ (w w1 : World σ) (r : Option Error),
      Execute.loop env thread frame bottom fuel w = some (r, w1) →
      World.Extends Event.isInner w w1 := by
  induction fuel with
  | zero => intro w w1 r h; simp [Execute.loop] at h
  | succ fuel ih =>
    intro w w1 r h
    unfold Execute.loop at h
    split at h
    · split at h
      · cases h
      · rename_i curFrame _
        simp only [] at h
        have hstep : ∀ vm : VM σ, World.Extends Event.isInner w
            { vm := vm, log := w.log ++ [Event.step thread curFrame] } :=
          fun vm => ⟨[Event.step thread curFrame], rfl,
            by simp [Event.isInner, Event.isResolve, Event.isExecute]⟩
        split at h
        · exact (hstep _).trans (ih _ _ _ h)
        · split at h
          · exact (hstep _).trans (Execute.unwind_extends _ _ _ _ _ _ _ _ _ _ _ h)
          · cases h
            exact hstep _
    · cases h
      exact World.Extends.refl _ _

theorem Execute_log (env : Env σ) (fuel : Nat) (thread : ThreadRef) (frame : FrameRef)
    (w w1 : World σ) (r : Option Error) (h : Execute env fuel thread frame w = some (r, w1)) :
    ∃ l, w1.log = w.log ++ Event.execute thread frame :: l ∧ ∀ e ∈ l, e.isInner = true := by
  unfold Execute at h
  simp only [] at h
  split at h
  · cases h
  · rename_i w2 hpush
    obtain ⟨l1, e1, p1⟩ := PushFrame_extends env thread frame _ _ hpush
    obtain ⟨l2, e2, p2⟩ := Execute.loop_extends env thread frame _ fuel _ _ _ h
    refine ⟨l1 ++ l2, ?_, ?_⟩
    · rw [e2, e1]
      simp [World.emit]
    · intro e he
      rcases List.mem_append.mp he with h | h
      · exact p1 e h
      · exact p2 e h

/-! ## Class initialization -/

theorem lockInit_free (c : ClassRef) (w : World σ) (h : (w.vm.classes c).initLocked = false) :
    ∃ w1, lockInit c w = some w1 ∧ unlockInit c w1 = w ∧
      (w1.vm.classes c).state = (w.vm.classes c).state ∧
      (w1.vm.classes c).initBy = (w.vm.classes c).initBy := by
  refine ⟨_, by simp only [lockInit, h]; rfl, ?_, by simp [VM.setClass], by simp [VM.setClass]⟩
  obtain ⟨vm, log⟩ := w
  obtain ⟨classes, frames, threads, done, special, ext⟩ := vm
  simp only [unlockInit, VM.setClass, Function.update_same, Function.update_idem] at h ⊢
  congr
  rw [Function.update_eq_self_iff]
  cases hk : classes c
  simp_all

theorem lockInit_state {c : ClassRef} {w w1 : World σ} (h : lockInit c w = some w1) :
    (w1.vm.classes c).state = (w.vm.classes c).state := by
  unfold lockInit at h
  split at h
  · cases h
  · cases h; simp [VM.setClass]

theorem initializeClass.deferred_free (c : ClassRef) (state : ClassState) (w : World σ)
    (h : (w.vm.classes c).initLocked = false) :
    ∃ w1, initializeClass.deferred c state w = some w1 ∧
      (w1.vm.classes c).state = state ∧ (w1.vm.classes c).initBy = none ∧
      (w1.vm.classes c).initLocked = false ∧ w1.log = w.log ++ [Event.broadcast c] := by
  refine ⟨_, by simp only [initializeClass.deferred, lockInit, h]; rfl, ?_, ?_, ?_, ?_⟩ <;>
    simp [unlockInit, VM.setClass]

theorem Initialize_of_NotInitialized (env : Env σ) (fuel : Nat) (c : ClassRef)
    (curThread : ThreadRef) (w w1 : World σ)
    (hstate : (w.vm.classes c).state = ClassState.NotInitialized)
    (hlock : lockInit c w = some w1) :
    Initialize env fuel c curThread w =
      match initializeClass env fuel c curThread (Initialize.enter env c curThread w1) with
      | none => none
      | some (some err, w2) => some ((ClassState.NotInitialized, some err), w2)
      | some (none, w2) => some (((w2.vm.classes c).state, none), w2) := by
  have hs1 := lockInit_state hlock
  rw [hstate] at hs1
  unfold Initialize
  rw [if_neg (by simp [hstate]), hlock]
  simp only [hs1]

/-- C3 (the code at the failing input): class `A` is `NotInitialized`, its
slot numbering succeeds, and initializing its superclass `B` fails.
`Initialize` returns that error, and the state it stores for `A` is
`NotInitialized`, not `FailedInitialization`; `initBy` is cleared, so the next
call starts over. -/
theorem Initialize_super_failure_stores_NotInitialized :
    (Initialize failingSuperEnv 2 0 0 { vm := exampleVM, log := [] }).map
        (fun r => (r.1, (r.2.vm.classes 0).state, (r.2.vm.classes 0).initBy, r.2.log))
      = some ((ClassState.NotInitialized, some (Error.other "B: initialization failed")),
          ClassState.NotInitialized, none,
          [Event.resolve "B" none, Event.resolve "B" (some 0), Event.broadcast 0]) := by
  decide

/-- C4: for a class whose state is `Initialized` or `FailedInitialization`,
`Initialize` returns that state with a nil error for every calling thread and
leaves the whole state as it was: no field of any class changes and no call
(resolution, execution, wait) is recorded. -/
theorem Initialize_terminal (env : Env σ) (fuel : Nat) (c : ClassRef) (curThread : ThreadRef)
    (w : World σ)
    (h : (w.vm.classes c).state = ClassState.Initialized ∨
      (w.vm.classes c).state = ClassState.FailedInitialization) :
    Initialize env fuel c curThread w = some (((w.vm.classes c).state, none), w) := by
  simp [Initialize, h]

/-- C5: for a `NotInitialized` class whose mutex the caller acquires and whose
slot numbering, constants and superclass/interface resolution succeed: without
`<clinit>()V` the stored state becomes `Initialized` and `Initialize` returns
`(Initialized, nil)`; with one, a failed execution stores
`FailedInitialization` and returns the error, a successful one stores
`Initialized` and returns `(Initialized, nil)`.  Before the static initializer
the call records resolutions only; `Execute` is recorded once, after them, and
is followed by no further resolution or execution of this call. -/
theorem Initialize_clinit_outcome (env : Env σ) (fuel : Nat) (c : ClassRef)
    (curThread : ThreadRef) (w w1 w2 : World σ)
    (hstate : (w.vm.classes c).state = ClassState.NotInitialized)
    (hlock : lockInit c w = some w1)
    (hlink : initializeClass.link env fuel c curThread (Initialize.enter env c curThread w1)
      = some (none, w2)) :
    World.Extends Event.isResolve w w2 ∧
    ((w2.vm.classes c).file.FindMethod "<clinit>" "()V" = none →
      (w2.vm.classes c).initLocked = false →
      ∃ w3, Initialize env fuel c curThread w = some ((ClassState.Initialized, none), w3) ∧
        (w3.vm.classes c).state = ClassState.Initialized ∧
        w3.log = w2.log ++ [Event.broadcast c]) ∧
    (∀ clinit r w3, (w2.vm.classes c).file.FindMethod "<clinit>" "()V" = some clinit →
      Execute env fuel curThread (env.NewFrame c clinit w2.vm).1
        { w2 with vm := (env.NewFrame c clinit w2.vm).2 } = some (r, w3) →
      (w3.vm.classes c).initLocked = false →
      ∃ w4 l,
        Initialize env fuel c curThread w
          = some ((match r with
                   | some _ => ClassState.NotInitialized
                   | none => ClassState.Initialized, r), w4) ∧
        (w4.vm.classes c).state
          = (match r with
             | some _ => ClassState.FailedInitialization
             | none => ClassState.Initialized) ∧
        w4.log = w2.log ++ Event.execute curThread (env.NewFrame c clinit w2.vm).1 :: l
          ++ [Event.broadcast c] ∧
        ∀ e ∈ l, e.isInner = true) := by
  have hinit := Initialize_of_NotInitialized env fuel c curThread w w1 hstate hlock
  refine ⟨?_, ?_, ?_⟩
  · have h1 : World.Extends Event.isResolve w (Initialize.enter env c curThread w1) :=
      World.Extends.of_log_eq _ (by rw [Initialize.enter_log, lockInit_log hlock])
    exact h1.trans (initializeClass.link_extends env fuel c curThread _ _ _ hlink)
  · intro hno hfree
    obtain ⟨w3, hdef, hs, _, _, hlog⟩ :=
      initializeClass.deferred_free c ClassState.Initialized w2 hfree
    refine ⟨w3, ?_, hs, hlog⟩
    rw [hinit]
    simp only [initializeClass, initializeClass.body, hlink, initializeClass.clinit, hno, hdef, hs]
  · intro clinit r w3 hclinit hexec hfree
    obtain ⟨l, hl, hinner⟩ := Execute_log env fuel curThread _ _ _ _ hexec
    cases r with
    | none =>
      obtain ⟨w4, hdef, hs, _, _, hlog⟩ :=
        initializeClass.deferred_free c ClassState.Initialized w3 hfree
      refine ⟨w4, l, ?_, hs, ?_, hinner⟩
      · rw [hinit]
        simp only [initializeClass, initializeClass.body, hlink, initializeClass.clinit, hclinit,
          hexec, hdef, hs]
      · rw [hlog, hl]
    | some err =>
      obtain ⟨w4, hdef, hs, _, _, hlog⟩ :=
        initializeClass.deferred_free c ClassState.FailedInitialization w3 hfree
      refine ⟨w4, l, ?_, hs, ?_, hinner⟩
      · rw [hinit]
        simp only [initializeClass, initializeClass.body, hlink, initializeClass.clinit, hclinit,
          hexec, hdef]
      · rw [hlog, hl]

/-- C6: when the class is `Initializing`, the caller is the thread recorded in
`initBy` and the class mutex is free, `Initialize` returns
`(Initializing, nil)` and leaves the whole state as it was; in particular no
wait on the class condition is recorded. -/
theorem Initialize_reentrant (env : Env σ) (fuel : Nat) (c : ClassRef) (curThread : ThreadRef)
    (w : World σ)
    (hstate : (w.vm.classes c).state = ClassState.Initializing)
    (hby : (w.vm.classes c).initBy = some curThread)
    (hfree : (w.vm.classes c).initLocked = false) :
    Initialize env fuel c curThread w = some ((ClassState.Initializing, none), w) := by
  obtain ⟨w1, hlock, hunlock, hs1, hb1⟩ := lockInit_free c w hfree
  rw [hstate] at hs1
  rw [hby] at hb1
  unfold Initialize
  rw [if_neg (by simp [hstate]), hlock]
  simp only [hs1, hb1, if_true, hunlock, hstate]

theorem Initialize_terminal_witness :
    Initialize quietEnv 0 0 7 initializedWorld
      = some ((ClassState.Initialized, none), initializedWorld) :=
  Initialize_terminal quietEnv 0 0 7 initializedWorld (by decide)

theorem Initialize_reentrant_witness :
    Initialize quietEnv 0 0 0 initializingWorld
      = some ((ClassState.Initializing, none), initializingWorld) :=
  Initialize_reentrant quietEnv 0 0 0 initializingWorld (by decide) (by decide) (by decide)

theorem Initialize_clinit_outcome_witness :
    ∃ w4 l, Initialize returningEnv 2 0 0 clinitWorld
        = some ((ClassState.Initialized, none), w4) ∧
      (w4.vm.classes 0).state = ClassState.Initialized ∧
      w4.log = [] ++ Event.execute 0 0 :: l ++ [Event.broadcast 0] ∧
      ∀ e ∈ l, e.isInner = true :=
  (Initialize_clinit_outcome returningEnv 2 0 0 clinitWorld _ _ (by decide) rfl rfl).2.2
    (exampleMethod "<clinit>") none _ (by decide) rfl (by decide)

/-! ## Slot numbering -/

theorem assignFieldIDs_total (fs : List FieldInfo) :
    ∀ id : Int, (assignFieldIDs id fs).2
      = id + ((fs.filter (fun f => !f.isStatic)).length : Int) := by
  induction fs with
  | nil => intro id; simp [assignFieldIDs]
  | cons f fs ih =>
    intro id
    unfold assignFieldIDs
    by_cases hf : f.isStatic = true
    · simp [hf, ih]
    · simp [hf, ih]
      omega

theorem assignFieldIDs_length (fs : List FieldInfo) :
    ∀ id : Int, ((assignFieldIDs id fs).1.filter (fun f => !f.isStatic)).length
      = (fs.filter (fun f => !f.isStatic)).length := by
  induction fs with
  | nil => intro id; simp [assignFieldIDs]
  | cons f fs ih =>
    intro id
    unfold assignFieldIDs
    by_cases hf : f.isStatic = true
    · simp [hf, ih]
    · simp [hf, ih]

theorem slotsFrom_succ (base : Int) (count : Nat) :
    slotsFrom base (count + 1) = base :: slotsFrom (base + 1) count := by
  unfold slotsFrom
  rw [List.range_succ_eq_map, List.map_cons, List.map_map]
  congr 1
  · simp
  · apply List.map_congr_left
    intro i _
    simp only [Function.comp, Nat.cast_succ]
    omega

theorem assignFieldIDs_ids (fs : List FieldInfo) :
    ∀ id : Int, ((assignFieldIDs id fs).1.filter (fun f => !f.isStatic)).map FieldInfo.id
      = slotsFrom id (fs.filter (fun f => !f.isStatic)).length := by
  induction fs with
  | nil => intro id; simp [assignFieldIDs, slotsFrom]
  | cons f fs ih =>
    intro id
    unfold assignFieldIDs
    by_cases hf : f.isStatic = true
    · simp [hf, ih]
    · simp [hf, ih, slotsFrom_succ]

theorem assignFieldIDs_fixed (fs : List FieldInfo) :
    ∀ id : Int, (fs.filter (fun f => !f.isStatic)).map FieldInfo.id
        = slotsFrom id (fs.filter (fun f => !f.isStatic)).length →
      (assignFieldIDs id fs).1 = fs := by
  induction fs with
  | nil => intro id _; simp [assignFieldIDs]
  | cons f fs ih =>
    intro id h
    unfold assignFieldIDs
    by_cases hf : f.isStatic = true
    · simp only [hf, Bool.not_true, Bool.false_eq_true, not_false_eq_true, List.filter_cons_of_neg]
        at h
      simp [hf, ih id h]
    · simp only [hf, Bool.not_false, List.filter_cons_of_pos, List.map_cons, List.length_cons,
        slotsFrom_succ, List.cons.injEq, Bool.not_eq_true, not_false_eq_true] at h
      have hfalse : f.isStatic = false := by simpa using hf
      simp only [hfalse, Bool.false_eq_true, if_false, ih (id + 1) h.2, List.cons.injEq, and_true]
      cases f
      simp_all

theorem initializeFieldID.assign_spec (c : ClassRef) (id : Int) (w : World σ) :
    (initializeFieldID.assign c id w).1
        = (id + ((w.vm.classes c).file.InstanceFields.length : Int), none) ∧
      (initializeFieldID.assign c id w).2.vm.classes
        = Function.update w.vm.classes c ((initializeFieldID.assign c id w).2.vm.classes c) ∧
      ((initializeFieldID.assign c id w).2.vm.classes c).file.superClass
        = (w.vm.classes c).file.superClass ∧
      ((initializeFieldID.assign c id w).2.vm.classes c).instanceFieldIDs
        = slotsFrom id (w.vm.classes c).file.InstanceFields.length ∧
      ((initializeFieldID.assign c id w).2.vm.classes c).file.InstanceFields.length
        = (w.vm.classes c).file.InstanceFields.length ∧
      ((initializeFieldID.assign c id w).2.vm.classes c).totalIFields
        = id + ((w.vm.classes c).file.InstanceFields.length : Int) := by
  refine ⟨?_, ?_, ?_, ?_, ?_, ?_⟩ <;>
    simp only [initializeFieldID.assign, VM.setClass, Function.update_same,
      Class.instanceFieldIDs, ClassFile.InstanceFields]
  · rw [assignFieldIDs_total]
  · exact assignFieldIDs_ids _ _
  · exact assignFieldIDs_length _ _
  · exact assignFieldIDs_total _ _

theorem initializeFieldID.assign_fixed (c : ClassRef) (id : Int) (w : World σ)
    (hids : (w.vm.classes c).instanceFieldIDs
      = slotsFrom id (w.vm.classes c).file.InstanceFields.length)
    (htotal : (w.vm.classes c).totalIFields
      = id + ((w.vm.classes c).file.InstanceFields.length : Int)) :
    (initializeFieldID.assign c id w).2.vm.classes = w.vm.classes := by
  simp only [initializeFieldID.assign, VM.setClass]
  rw [Function.update_eq_self_iff]
  have h1 := assignFieldIDs_fixed (w.vm.classes c).file.fields id hids
  have h2 := assignFieldIDs_total (w.vm.classes c).file.fields id
  simp only [ClassFile.InstanceFields] at htotal
  rw [h1, h2, ← htotal]

theorem Slotted.total {reg : String → Except Error ClassRef} {cs : ClassRef → Class}
    {c : ClassRef} {n : Nat} (h : Slotted reg cs c n) : (cs c).totalIFields = (n : Int) := by
  cases h with
  | root _ _ _ ht => exact ht
  | step _ _ _ _ _ _ _ _ ht => exact ht

theorem Slotted.frame {reg : String → Except Error ClassRef} {cs cs1 : ClassRef → Class}
    (hsame : ∀ d, (cs d).totalIFields ≠ -1 → cs1 d = cs d) {c : ClassRef} {n : Nat}
    (h : Slotted reg cs c n) : Slotted reg cs1 c n := by
  induction h with
  | root c hs hids ht =>
    have hc : cs1 c = cs c := hsame c (by rw [ht]; omega)
    rw [← hc] at hs hids ht ⊢
    exact Slotted.root c hs hids ht
  | step c p superName n hs hreg _ hids ht ih =>
    have hc : cs1 c = cs c := hsame c (by rw [ht]; omega)
    rw [← hc] at hs hids ht ⊢
    exact Slotted.step c p superName n hs hreg ih hids ht

theorem Slotted.own {reg : String → Except Error ClassRef} {cs : ClassRef → Class}
    {c : ClassRef} {n : Nat} (h : Slotted reg cs c n) :
    (cs c).instanceFieldIDs
        = slotsFrom (superTotal reg cs c) (cs c).file.InstanceFields.length ∧
      (n : Int) = superTotal reg cs c + ((cs c).file.InstanceFields.length : Int) := by
  cases h with
  | root _ hs hids _ => simp [superTotal, hs, hids]
  | step _ p superName m hs hreg hp hids _ =>
    simp [superTotal, hs, hreg, hp.total, hids]

theorem slotsFrom_append (a b : Nat) :
    slotsFrom 0 a ++ slotsFrom (a : Int) b = slotsFrom 0 (a + b) := by
  unfold slotsFrom
  rw [List.range_add, List.map_append, List.map_map]
  congr 1
  apply List.map_congr_left
  intro i _
  simp

theorem Slotted.chain {reg : String → Except Error ClassRef} {cs : ClassRef → Class}
    {c : ClassRef} {n : Nat} (h : Slotted reg cs c n) :
    ∃ fuel chain, superChain reg cs fuel c = some chain ∧
      chainFieldIDs cs chain = slotsFrom 0 n := by
  induction h with
  | root c hs hids _ =>
    exact ⟨1, [c], by simp [superChain, hs], by simp [chainFieldIDs, hids]⟩
  | step c p superName n hs hreg _ hids _ ih =>
    obtain ⟨fuel, chain, hchain, hall⟩ := ih
    refine ⟨fuel + 1, chain ++ [c], by simp [superChain, hs, hreg, hchain], ?_⟩
    simp only [chainFieldIDs, List.map_append, List.flatten_append, List.map_cons, List.map_nil,
      List.flatten_cons, List.flatten_nil, List.append_nil] at hall ⊢
    rw [hall, hids, slotsFrom_append]

theorem initializeFieldID.assign_other (c d : ClassRef) (id : Int) (w : World σ) (h : d ≠ c) :
    (initializeFieldID.assign c id w).2.vm.classes d = w.vm.classes d := by
  simp [initializeFieldID.assign, VM.setClass, Function.update_noteq h]

theorem initializeFieldID.assign_frame {reg : String → Except Error ClassRef} (c : ClassRef)
    (id : Int) (w : World σ) (hunset : (w.vm.classes c).totalIFields = -1) {d : ClassRef}
    {m : Nat} (h : Slotted reg w.vm.classes d m) :
    Slotted reg (initializeFieldID.assign c id w).2.vm.classes d m := by
  refine Slotted.frame (fun e he => ?_) h
  apply initializeFieldID.assign_other
  intro hec
  rw [hec] at he
  exact he hunset

theorem initializeFieldID.assign_wf {reg : String → Except Error ClassRef} (c : ClassRef)
    (id : Int) (w : World σ) (n : Nat)
    (hframe : ∀ d m, Slotted reg w.vm.classes d m →
      Slotted reg (initializeFieldID.assign c id w).2.vm.classes d m)
    (hc : Slotted reg (initializeFieldID.assign c id w).2.vm.classes c n)
    (hwf : SlotsWF reg w.vm.classes) :
    SlotsWF reg (initializeFieldID.assign c id w).2.vm.classes := by
  intro d hd
  by_cases hdc : d = c
  · rw [hdc]
    exact ⟨n, hc⟩
  · rw [initializeFieldID.assign_other c d id w hdc] at hd
    obtain ⟨m, hm⟩ := hwf d hd
    exact ⟨m, hframe d m hm⟩

theorem initializeFieldID.assign_superClass (c d : ClassRef) (id : Int) (w : World σ) :
    ((initializeFieldID.assign c id w).2.vm.classes d).file.superClass
      = (w.vm.classes d).file.superClass := by
  by_cases hdc : d = c
  · rw [hdc]
    exact (initializeFieldID.assign_spec c id w).2.2.1
  · rw [initializeFieldID.assign_other c d id w hdc]

theorem initializeFieldID_slotted (env : Env σ) (reg : String → Except Error ClassRef)
    (hreg : ∀ name vm, env.Class name none vm = (reg name, vm)) (fuel : Nat) :
    ∀ (c : ClassRef) (w w1 : World σ) (total : Int),
      SlotsWF reg w.vm.classes →
      initializeFieldID env fuel c w = some ((total, none), w1) →
      ∃ n : Nat, total = (n : Int) ∧ Slotted reg w1.vm.classes c n ∧
        SlotsWF reg w1.vm.classes ∧
        ∀ d, (w1.vm.classes d).file.superClass = (w.vm.classes d).file.superClass := by
  induction fuel with
  | zero => intro c w w1 total _ h; simp [initializeFieldID] at h
  | succ fuel ih =>
    intro c w w1 total hwf h
    unfold initializeFieldID at h
    split at h
    · rename_i hmemo
      cases h
      obtain ⟨n, hn⟩ := hwf c hmemo
      exact ⟨n, hn.total, hn, hwf, fun _ => rfl⟩
    · rename_i hunset
      have hunset : (w.vm.classes c).totalIFields = -1 := by
        by_contra hne
        exact hunset hne
      split at h
      · rename_i superName hsuper
        split at h
        · cases h
        · rename_i p w2 hres
          simp only [World.resolve, hreg, Prod.mk.injEq] at hres
          obtain ⟨hp, hw2⟩ := hres
          split at h
          · cases h
          · cases h
          · rename_i id w3 hrec
            have hwf2 : SlotsWF reg w2.vm.classes := by rw [← hw2]; exact hwf
            obtain ⟨np, hid, hslot, hwf3, hsup⟩ := ih p w2 w3 id hwf2 hrec
            have hsup3 : ∀ d, (w3.vm.classes d).file.superClass
                = (w.vm.classes d).file.superClass := by
              intro d
              rw [hsup d, ← hw2]
            have hspec := initializeFieldID.assign_spec c id w3
            obtain ⟨hres, _, hs4, hids4, hlen4, htot4⟩ := hspec
            have hw1 : initializeFieldID.assign c id w3 = ((total, none), w1) :=
              Option.some.inj h
            have hsuper4 : ((initializeFieldID.assign c id w3).2.vm.classes c).file.superClass
                = some superName := by rw [hs4, hsup3 c, hsuper]
            have hframe : ∀ d m, Slotted reg w3.vm.classes d m →
                Slotted reg (initializeFieldID.assign c id w3).2.vm.classes d m := by
              by_cases hc3 : (w3.vm.classes c).totalIFields = -1
              · intro d m hd
                exact initializeFieldID.assign_frame c id w3 hc3 hd
              · obtain ⟨m, hm⟩ := hwf3 c hc3
                have hsame : (initializeFieldID.assign c id w3).2.vm.classes
                    = w3.vm.classes := by
                  apply initializeFieldID.assign_fixed
                  · obtain ⟨hown, _⟩ := hm.own
                    rw [hown, superTotal, hsup3 c, hsuper]
                    simp only [hp, hslot.total, hid]
                  · obtain ⟨_, htotal⟩ := hm.own
                    rw [hm.total, htotal, superTotal, hsup3 c, hsuper]
                    simp only [hp, hslot.total, hid]
                intro d m hd
                rw [hsame]
                exact hd
            have hc4 : Slotted reg (initializeFieldID.assign c id w3).2.vm.classes c
                (np + (w3.vm.classes c).file.InstanceFields.length) := by
              have : Slotted reg (initializeFieldID.assign c id w3).2.vm.classes c _ :=
                Slotted.step c p superName np
                  hsuper4 hp (hframe p np hslot) (by rw [hids4, hlen4, hid])
                  (by rw [htot4, hlen4, hid]; push_cast; rfl)
              rw [hlen4] at this
              exact this
            have hwf4 := initializeFieldID.assign_wf c id w3 _ hframe hc4 hwf3
            rw [hw1] at hres hc4 hwf4
            refine ⟨np + (w3.vm.classes c).file.InstanceFields.length, ?_, hc4, hwf4, ?_⟩
            · have : total = id + ((w3.vm.classes c).file.InstanceFields.length : Int) :=
                (Prod.mk.inj hres).1
              rw [this, hid]
              push_cast
              rfl
            · intro d
              have := initializeFieldID.assign_superClass c d id w3
              rw [hw1] at this
              rw [this, hsup3 d]
      · rename_i hsuper
        have hw1 : initializeFieldID.assign c 0 w = ((total, none), w1) := Option.some.inj h
        obtain ⟨hres, _, hs4, hids4, hlen4, htot4⟩ := initializeFieldID.assign_spec c 0 w
        have hframe : ∀ d m, Slotted reg w.vm.classes d m →
            Slotted reg (initializeFieldID.assign c 0 w).2.vm.classes d m :=
          fun d m hd => initializeFieldID.assign_frame c 0 w hunset hd
        have hc4 : Slotted reg (initializeFieldID.assign c 0 w).2.vm.classes c
            (w.vm.classes c).file.InstanceFields.length := by
          have : Slotted reg (initializeFieldID.assign c 0 w).2.vm.classes c _ :=
            Slotted.root c (by rw [hs4, hsuper]) (by rw [hids4, hlen4])
              (by rw [htot4, hlen4]; simp)
          rw [hlen4] at this
          exact this
        have hwf4 := initializeFieldID.assign_wf c 0 w _ hframe hc4 hwf
        rw [hw1] at hres hc4 hwf4
        refine ⟨(w.vm.classes c).file.InstanceFields.length, ?_, hc4, hwf4, ?_⟩
        · have : total = 0 + ((w.vm.classes c).file.InstanceFields.length : Int) :=
            (Prod.mk.inj hres).1
          rw [this]
          simp
        · intro d
          have := initializeFieldID.assign_superClass c d 0 w
          rw [hw1] at this
          exact this

theorem slotsFrom_nodup (n : Nat) : (slotsFrom 0 n).Nodup := by
  unfold slotsFrom
  refine List.Nodup.map ?_ (List.nodup_range n)
  intro a b hab
  simpa using hab

/-- C7: when `vm.Class(name, nil)` is a lookup that changes nothing and every
class numbered so far is numbered consistently (`SlotsWF`, true of freshly
loaded classes), a successful `initializeFieldID` on `c` returns a total `n`
such that: `n` is stored as the total of `c`; the instance fields declared by
`c` have, in declaration order, the ids `superTotal, superTotal + 1, ...`; the
ids of all instance fields along the superclass chain of `c` (root first) are
exactly `0, 1, ..., n - 1`, hence pairwise distinct and `n` in number; and the
state left is again consistently numbered. -/
theorem initializeFieldID_contiguous (env : Env σ) (reg : String → Except Error ClassRef)
    (hreg : ∀ name vm, env.Class name none vm = (reg name, vm)) (fuel : Nat) (c : ClassRef)
    (w w1 : World σ) (total : Int) (hwf : SlotsWF reg w.vm.classes)
    (h : initializeFieldID env fuel c w = some ((total, none), w1)) :
    ∃ (n : Nat) (chain : List ClassRef) (fuel1 : Nat),
      total = (n : Int) ∧
      (w1.vm.classes c).totalIFields = (n : Int) ∧
      (w1.vm.classes c).instanceFieldIDs
        = slotsFrom (superTotal reg w1.vm.classes c)
            (w1.vm.classes c).file.InstanceFields.length ∧
      (n : Int) = superTotal reg w1.vm.classes c
        + ((w1.vm.classes c).file.InstanceFields.length : Int) ∧
      superChain reg w1.vm.classes fuel1 c = some chain ∧
      chainFieldIDs w1.vm.classes chain = slotsFrom 0 n ∧
      (chainFieldIDs w1.vm.classes chain).Nodup ∧
      (chainFieldIDs w1.vm.classes chain).length = n ∧
      SlotsWF reg w1.vm.classes := by
  obtain ⟨n, hn, hslot, hwf1, _⟩ := initializeFieldID_slotted env reg hreg fuel c w w1 total hwf h
  obtain ⟨fuel1, chain, hchain, hids⟩ := hslot.chain
  refine ⟨n, chain, fuel1, hn, hslot.total, hslot.own.1, hslot.own.2, hchain, hids, ?_, ?_, hwf1⟩
  · rw [hids]
    exact slotsFrom_nodup n
  · rw [hids]
    simp [slotsFrom]

theorem slotWorld_wf : SlotsWF slotRegistry slotWorld.vm.classes := by
  intro c hc
  exfalso
  apply hc
  show (if c = 0 then _ else _ : Class).totalIFields = -1
  split <;> rfl

theorem initializeFieldID_contiguous_witness :
    ∃ (n : Nat) (chain : List ClassRef) (fuel1 : Nat),
      (3 : Int) = (n : Int) ∧
      (slotWorldNumbered.vm.classes 0).totalIFields = (n : Int) ∧
      (slotWorldNumbered.vm.classes 0).instanceFieldIDs
        = slotsFrom (superTotal slotRegistry slotWorldNumbered.vm.classes 0)
            (slotWorldNumbered.vm.classes 0).file.InstanceFields.length ∧
      (n : Int) = superTotal slotRegistry slotWorldNumbered.vm.classes 0
        + ((slotWorldNumbered.vm.classes 0).file.InstanceFields.length : Int) ∧
      superChain slotRegistry slotWorldNumbered.vm.classes fuel1 0 = some chain ∧
      chainFieldIDs slotWorldNumbered.vm.classes chain = slotsFrom 0 n ∧
      (chainFieldIDs slotWorldNumbered.vm.classes chain).Nodup ∧
      (chainFieldIDs slotWorldNumbered.vm.classes chain).length = n ∧
      SlotsWF slotRegistry slotWorldNumbered.vm.classes :=
  initializeFieldID_contiguous slotEnv slotRegistry (fun _ _ => rfl) 2 0 slotWorld
    slotWorldNumbered 3 slotWorld_wf rfl

/-- C8: once `initializeFieldID` has succeeded on `c` (under the conditions of
C7), a further call in the state it left, and in any later state that still
holds this total for `c`, returns the same total and leaves the whole state
as it was, whatever the external code is and with fuel for one call only: no
id changes, no class is resolved, the superclass is not entered. -/
theorem initializeFieldID_memoized (env : Env σ) (reg : String → Except Error ClassRef)
    (hreg : ∀ name vm, env.Class name none vm = (reg name, vm)) (fuel : Nat) (c : ClassRef)
    (w w1 : World σ) (total : Int) (hwf : SlotsWF reg w.vm.classes)
    (h : initializeFieldID env fuel c w = some ((total, none), w1)) :
    (∀ (env2 : Env σ) (fuel2 : Nat),
      initializeFieldID env2 (fuel2 + 1) c w1 = some ((total, none), w1)) ∧
    (∀ (env2 : Env σ) (fuel2 : Nat) (w2 : World σ),
      (w2.vm.classes c).totalIFields = total →
      initializeFieldID env2 (fuel2 + 1) c w2 = some ((total, none), w2)) := by
  obtain ⟨n, hn, hslot, _, _⟩ := initializeFieldID_slotted env reg hreg fuel c w w1 total hwf h
  have key : ∀ (env2 : Env σ) (fuel2 : Nat) (w2 : World σ),
      (w2.vm.classes c).totalIFields = total →
      initializeFieldID env2 (fuel2 + 1) c w2 = some ((total, none), w2) := by
    intro env2 fuel2 w2 h2
    unfold initializeFieldID
    rw [if_pos (by rw [h2, hn]; omega), h2]
  exact ⟨fun env2 fuel2 => key env2 fuel2 w1 (by rw [hslot.total, hn]), key⟩

theorem initializeFieldID_memoized_witness :
    initializeFieldID quietEnv 1 0 slotWorldNumbered = some ((3, none), slotWorldNumbered) :=
  (initializeFieldID_memoized slotEnv slotRegistry (fun _ _ => rfl) 2 0 slotWorld
    slotWorldNumbered 3 slotWorld_wf rfl).1 quietEnv 0

/-! ## The execution loop -/

/-- C9 (the code at the failing input): `Execute(frame 0)` on an empty call
stack; the first instruction throws, frame 0 has a matching handler at pc 7,
and the instruction at pc 7 would return.  `Execute` returns nil right after
the handler lookup: no step is made at the handler, and frame 0 is still on
the call stack, whose depth is 1 and not the starting depth 0. -/
theorem Execute_returns_after_handler_found :
    (Execute handlerEnv 5 0 0 frameWorld).map
        (fun r => (r.1, (r.2.vm.threads 0).frameStack, (r.2.vm.frames 0).pc, r.2.log))
      = some (none, [0], 7,
          [Event.execute 0 0, Event.step 0 0, Event.findHandler 0]) := by
  decide

/-- C10 (the code at the failing input): `Execute(frame 0)` on an empty call
stack; frame 0 invokes a method, whose frame 1 throws and owns the matching
handler at pc 7.  The handler is entered on frame 0, the frame passed to
`Execute`: its pc becomes 7 and its operand stack `[exception]`, while the pc
and the operand stack of frame 1, which owns the handler, stay as they
were. -/
theorem Execute_enters_handler_on_initial_frame :
    (Execute calleeEnv 5 0 0 frameWorld).map
        (fun r => (r.1, (r.2.vm.threads 0).frameStack,
          (r.2.vm.frames 0).pc, (r.2.vm.frames 0).operands,
          (r.2.vm.frames 1).pc, (r.2.vm.frames 1).operands))
      = some (none, [0, 1], 7, [Value.ref 42], 0, [Value.int 9]) := by
  rfl

/-- C11 (the code at the failing input): `Execute(frame 0)` on an empty call
stack; frame 0 invokes a method, whose frame 1 throws; frame 1 has no
matching handler, the caller frame 0 has one at pc 7.  After frame 1 is popped
the lookup is made on frame 1 again, never on frame 0, the frame then on top:
frame 0 is popped as well, its pc stays 0, and `Execute` returns the error. -/
theorem Execute_unwind_never_looks_below :
    (Execute callerHandlerEnv 5 0 0 frameWorld).map
        (fun r => (r.1, (r.2.vm.threads 0).frameStack, (r.2.vm.frames 0).pc, r.2.log))
      = some (some (Error.java 42), [], 0,
          [Event.execute 0 0, Event.step 0 0, Event.step 0 1, Event.findHandler 1,
            Event.popFrame 0 1, Event.findHandler 1, Event.popFrame 0 0]) := by
  decide

theorem PopFrame_spec (env : Env σ) (hmon : MonitorsLocal env) (thread : ThreadRef)
    (w : World σ) (init : List FrameRef) (top : FrameRef) (syncObj : Option InstanceRef)
    (hstack : (w.vm.threads thread).frameStack = init ++ [top])
    (hsync : (w.vm.threads thread).syncStack.get? init.length = some syncObj)
    (hrec : (w.vm.frames top).curMethod.isSync = true → ∃ obj, syncObj = some obj) :
    ∃ w1, PopFrame env thread w = some w1 ∧
      (w1.vm.threads thread).frameStack = init ∧
      (w1.vm.threads thread).syncStack = (w.vm.threads thread).syncStack.take init.length ∧
      w1.vm.frames = w.vm.frames ∧ w1.vm.classes = w.vm.classes ∧
      w1.log = w.log ++ PopFrame.events thread top (w.vm.frames top).curMethod.isSync syncObj := by
  have hlast : (w.vm.threads thread).frameStack.getLast? = some top := by
    rw [hstack]; simp
  have hidx : (w.vm.threads thread).frameStack.length - 1 = init.length := by
    rw [hstack]; simp
  have htake : (init ++ [top]).take init.length = init := by simp
  unfold PopFrame
  simp only [hlast, hidx, hsync]
  by_cases hs : (w.vm.frames top).curMethod.isSync = true
  · obtain ⟨obj, hobj⟩ := hrec hs
    obtain ⟨_, _, _, hc, hf, ht⟩ := hmon obj thread w.vm
    subst hobj
    simp only [hs, if_true]
    refine ⟨_, rfl, ?_, ?_, ?_, ?_, ?_⟩
    · simp [VM.setThread, ht, hstack]
    · simp [VM.setThread, ht]
    · simp [VM.setThread, hf]
    · simp [VM.setThread, hc]
    · simp [PopFrame.events]
  · have hs1 : (w.vm.frames top).curMethod.isSync = false := by simpa using hs
    simp only [hs1, Bool.false_eq_true, if_false]
    refine ⟨_, rfl, ?_, ?_, ?_, ?_, ?_⟩
    · simp [VM.setThread, hstack]
    · simp [VM.setThread]
    · simp [VM.setThread]
    · simp [VM.setThread]
    · simp [PopFrame.events]

theorem PopFrame.events_filter (thread : ThreadRef) (top : FrameRef) (isSync : Bool)
    (syncObj : Option InstanceRef) :
    (PopFrame.events thread top isSync syncObj).filter Event.isPopFrame
      = [Event.popFrame thread top] := by
  cases isSync <;> cases syncObj <;> simp [PopFrame.events, Event.isPopFrame]

theorem StacksWF.init {vm vm1 : VM σ} {thread : ThreadRef} {init : List FrameRef}
    {top : FrameRef} (hwf : StacksWF vm thread)
    (hstack : (vm.threads thread).frameStack = init ++ [top])
    (hstack1 : (vm1.threads thread).frameStack = init)
    (hsync1 : (vm1.threads thread).syncStack = (vm.threads thread).syncStack.take init.length)
    (hframes : vm1.frames = vm.frames) : StacksWF vm1 thread := by
  obtain ⟨hlen, hrec⟩ := hwf
  rw [hstack] at hlen hrec
  refine ⟨?_, ?_⟩
  · rw [hsync1, hstack1, List.length_take, hlen]
    simp
  · intro i f hi hs
    rw [hstack1] at hi
    rw [hframes] at hs
    have hlt : i < init.length := by
      rcases Nat.lt_or_ge i init.length with h | h
      · exact h
      · rw [List.get?_eq_none.mpr h] at hi
        cases hi
    have hi2 : (init ++ [top]).get? i = some f := by
      rw [List.get?_eq_getElem?, List.getElem?_append_left hlt, ← List.get?_eq_getElem?]
      exact hi
    obtain ⟨obj, hobj⟩ := hrec i f hi2 hs
    refine ⟨obj, ?_⟩
    rw [hsync1, List.get?_eq_getElem?, List.getElem?_take_of_lt hlt, ← List.get?_eq_getElem?]
    exact hobj

theorem StacksWF.top {vm : VM σ} {thread : ThreadRef} {init : List FrameRef} {top : FrameRef}
    (hwf : StacksWF vm thread) (hstack : (vm.threads thread).frameStack = init ++ [top]) :
    ∃ syncObj, (vm.threads thread).syncStack.get? init.length = some syncObj ∧
      ((vm.frames top).curMethod.isSync = true → ∃ obj, syncObj = some obj) := by
  obtain ⟨hlen, hrec⟩ := hwf
  rw [hstack] at hlen hrec
  have hlt : init.length < (vm.threads thread).syncStack.length := by
    rw [hlen]; simp
  refine ⟨(vm.threads thread).syncStack.get ⟨init.length, hlt⟩, List.get?_eq_get hlt, ?_⟩
  intro hs
  obtain ⟨obj, hobj⟩ := hrec init.length top (by simp) hs
  rw [List.get?_eq_get hlt] at hobj
  exact ⟨obj, Option.some.inj hobj⟩

theorem Execute.unwind_uncaught (env : Env σ) (hmon : MonitorsLocal env) (thread : ThreadRef)
    (frame curFrame : FrameRef) (bottom : Nat) (exception : InstanceRef) (err : Error)
    (hnone : ∀ vm, env.FindCurrentExceptionHandler curFrame exception vm = none) (k : Nat) :
    ∀ (fuel : Nat) (w : World σ),
      (w.vm.threads thread).frameStack.length = bottom + k → StacksWF w.vm thread → k < fuel →
      ∃ w1, Execute.unwind env thread frame curFrame bottom exception err fuel w
          = some (some err, w1) ∧
        (w1.vm.threads thread).frameStack = (w.vm.threads thread).frameStack.take bottom ∧
        (w1.vm.threads thread).syncStack = (w.vm.threads thread).syncStack.take bottom ∧
        w1.vm.frames = w.vm.frames ∧ w1.vm.classes = w.vm.classes ∧
        ∃ l, w1.log = w.log ++ l ∧
          l.filter Event.isPopFrame
            = (((w.vm.threads thread).frameStack.drop bottom).reverse).map
                (Event.popFrame thread) := by
  induction k with
  | zero =>
    intro fuel w hlen hwf hfuel
    obtain ⟨fuel, rfl⟩ : ∃ n, fuel = n + 1 := ⟨fuel - 1, by omega⟩
    refine ⟨w, ?_, ?_, ?_, rfl, rfl, [], by simp, ?_⟩
    · unfold Execute.unwind
      rw [if_neg (by omega)]
    · rw [List.take_of_length_le (by omega)]
    · rw [List.take_of_length_le (by rw [hwf.1]; omega)]
    · rw [List.drop_of_length_le (by omega)]
      rfl
  | succ k ih =>
    intro fuel w hlen hwf hfuel
    obtain ⟨fuel, rfl⟩ : ∃ n, fuel = n + 1 := ⟨fuel - 1, by omega⟩
    have hne : (w.vm.threads thread).frameStack ≠ [] := by
      intro h
      rw [h] at hlen
      simp at hlen
      omega
    obtain ⟨init, top, hstack⟩ : ∃ init top,
        (w.vm.threads thread).frameStack = init ++ [top] :=
      ⟨_, _, (List.dropLast_append_getLast hne).symm⟩
    have hinit : init.length = bottom + k := by
      rw [hstack] at hlen
      simp at hlen
      omega
    obtain ⟨syncObj, hsync, hrec⟩ := hwf.top hstack
    obtain ⟨w2, hpop, hst2, hsy2, hfr2, hcl2, hlog2⟩ :=
      PopFrame_spec env hmon thread (w.emit (Event.findHandler curFrame)) init top syncObj
        hstack hsync hrec
    have hwf2 : StacksWF w2.vm thread := hwf.init hstack hst2 hsy2 hfr2
    obtain ⟨w3, hrun, hst3, hsy3, hfr3, hcl3, l, hlog3, hpops⟩ :=
      ih fuel w2 (by rw [hst2, hinit]) hwf2 (by omega)
    refine ⟨w3, ?_, ?_, ?_, ?_, ?_, ?_⟩
    · unfold Execute.unwind
      rw [if_pos (by omega)]
      simp only [hnone, hpop, hrun]
    · rw [hst3, hst2, hstack, List.take_append_of_le_length (by omega)]
    · rw [hsy3, hsy2, List.take_take, hinit]
      simp only [Nat.le_add_right, inf_of_le_left]
      rfl
    · rw [hfr3, hfr2]
      rfl
    · rw [hcl3, hcl2]
      rfl
    · refine ⟨Event.findHandler curFrame ::
          (PopFrame.events thread top
            ((w.emit (Event.findHandler curFrame)).vm.frames top).curMethod.isSync syncObj
            ++ l), ?_, ?_⟩
      · rw [hlog3, hlog2]
        simp [World.emit]
      · rw [hstack, List.drop_append_of_le_length (by omega), List.reverse_append]
        simp only [List.filter_cons, Event.isPopFrame, List.filter_append, hpops, hst2,
          PopFrame.events_filter]
        simp

theorem Execute.loop_uncaught (env : Env σ) (hmon : MonitorsLocal env)
    (thread : ThreadRef) (frame curFrame : FrameRef) (bottom fuel : Nat) (w : World σ)
    (err : Error) (exception : InstanceRef)
    (hdepth : bottom < (w.vm.threads thread).frameStack.length)
    (htop : (w.vm.threads thread).frameStack.getLast? = some curFrame)
    (hstep : (env.ExecInstr thread curFrame (env.NextInstr curFrame w.vm).1
      (env.NextInstr curFrame w.vm).2).1 = some err)
    (hjava : UnwrapJavaError err = some exception)
    (hnone : ∀ vm, env.FindCurrentExceptionHandler curFrame exception vm = none)
    (hwf : StacksWF (env.ExecInstr thread curFrame (env.NextInstr curFrame w.vm).1
      (env.NextInstr curFrame w.vm).2).2 thread)
    (hge : bottom ≤ (((env.ExecInstr thread curFrame (env.NextInstr curFrame w.vm).1
      (env.NextInstr curFrame w.vm).2).2).threads thread).frameStack.length)
    (hfuel : (((env.ExecInstr thread curFrame (env.NextInstr curFrame w.vm).1
      (env.NextInstr curFrame w.vm).2).2).threads thread).frameStack.length - bottom < fuel) :
    ∃ w1 l,
      Execute.loop env thread frame bottom (fuel + 1) w = some (some err, w1) ∧
      (w1.vm.threads thread).frameStack
        = (((env.ExecInstr thread curFrame (env.NextInstr curFrame w.vm).1
            (env.NextInstr curFrame w.vm).2).2).threads thread).frameStack.take bottom ∧
      (w1.vm.threads thread).frameStack.length = bottom ∧
      (w1.vm.threads thread).syncStack
        = (((env.ExecInstr thread curFrame (env.NextInstr curFrame w.vm).1
            (env.NextInstr curFrame w.vm).2).2).threads thread).syncStack.take bottom ∧
      w1.vm.frames = ((env.ExecInstr thread curFrame (env.NextInstr curFrame w.vm).1
        (env.NextInstr curFrame w.vm).2).2).frames ∧
      w1.vm.classes = ((env.ExecInstr thread curFrame (env.NextInstr curFrame w.vm).1
        (env.NextInstr curFrame w.vm).2).2).classes ∧
      w1.log = w.log ++ Event.step thread curFrame :: l ∧
      l.filter Event.isPopFrame
        = (((((env.ExecInstr thread curFrame (env.NextInstr curFrame w.vm).1
            (env.NextInstr curFrame w.vm).2).2).threads thread).frameStack.drop
              bottom).reverse).map (Event.popFrame thread) := by
  obtain ⟨w1, hrun, hst, hsy, hfr, hcl, l, hlog, hpops⟩ :=
    Execute.unwind_uncaught env hmon thread frame curFrame bottom exception err hnone
      ((((env.ExecInstr thread curFrame (env.NextInstr curFrame w.vm).1
        (env.NextInstr curFrame w.vm).2).2).threads thread).frameStack.length - bottom) fuel
      { vm := (env.ExecInstr thread curFrame (env.NextInstr curFrame w.vm).1
          (env.NextInstr curFrame w.vm).2).2
        log := w.log ++ [Event.step thread curFrame] }
      (by simp only []; omega) hwf hfuel
  refine ⟨w1, l, ?_, hst, ?_, hsy, hfr, hcl, ?_, hpops⟩
  · unfold Execute.loop
    rw [if_pos hdepth]
    simp only [htop, hstep, hjava, hrun]
  · rw [hst, List.length_take]
    exact Nat.min_eq_left hge
  · rw [hlog]
    simp

theorem Execute.loop_fatal (env : Env σ) (thread : ThreadRef)
    (frame curFrame : FrameRef) (bottom fuel : Nat) (w : World σ) (err : Error)
    (hdepth : bottom < (w.vm.threads thread).frameStack.length)
    (htop : (w.vm.threads thread).frameStack.getLast? = some curFrame)
    (hstep : (env.ExecInstr thread curFrame (env.NextInstr curFrame w.vm).1
      (env.NextInstr curFrame w.vm).2).1 = some err)
    (hfatal : UnwrapJavaError err = none) :
    Execute.loop env thread frame bottom (fuel + 1) w
      = some (some err,
          { vm := (env.ExecInstr thread curFrame (env.NextInstr curFrame w.vm).1
              (env.NextInstr curFrame w.vm).2).2
            log := w.log ++ [Event.step thread curFrame] }) := by
  unfold Execute.loop
  rw [if_pos hdepth]
  simp only [htop, hstep, hfatal]

theorem StacksWF.of_not_sync (vm : VM σ) (thread : ThreadRef)
    (hlen : (vm.threads thread).syncStack.length = (vm.threads thread).frameStack.length)
    (hns : ∀ f, (vm.frames f).curMethod.isSync = false) : StacksWF vm thread := by
  refine ⟨hlen, ?_⟩
  intro i f _ hs
  rw [hns f] at hs
  cases hs

theorem Execute.loop_steps (env : Env σ) (thread : ThreadRef) (frame : FrameRef)
    (bottom : Nat) (n : Nat) (w w1 : World σ) (h : Execute.Steps env thread bottom n w w1) :
    ∀ fuel, Execute.loop env thread frame bottom (fuel + n) w
      = Execute.loop env thread frame bottom fuel w1 := by
  induction h with
  | done w => intro fuel; rfl
  | next n w w1 w2 hstep _ ih =>
    intro fuel
    obtain ⟨hdepth, curFrame, htop, hok, hw1⟩ := hstep
    have hok1 : (env.ExecInstr thread curFrame (env.NextInstr curFrame w.vm).1
        (env.NextInstr curFrame w.vm).2).1 = none := hok
    have h1 : Execute.loop env thread frame bottom (fuel + n + 1) w
        = Execute.loop env thread frame bottom (fuel + n) w1 := by
      conv_lhs => unfold Execute.loop
      rw [if_pos hdepth]
      simp only [htop, hok1]
      rw [hw1]
      rfl
    rw [← Nat.add_assoc, h1, ih]

/-- C12: `Execute(frame)` pushes the frame and makes any number `n` of steps
that succeed; then the step on the top frame `curFrame` returns an error that
wraps a Java exception, for which the lookup on `curFrame` finds no handler.
With aligned stacks that this step left at the starting depth or above, and
monitor code that acts on monitors only, `Execute` returns that same error
for every sufficient fuel; the call stack is then the part of the stack at
and below the starting depth, unchanged and of exactly the starting depth;
the frames above it were removed by `PopFrame`, one call each, from the top
down; and no frame and no class was written to after the step. -/
theorem Execute_uncaught_unwinds (env : Env σ) (hmon : MonitorsLocal env)
    (thread : ThreadRef) (frame curFrame : FrameRef) (n fuel : Nat) (w0 w1 w : World σ)
    (err : Error) (exception : InstanceRef)
    (hpush : PushFrame env thread frame (w0.emit (Event.execute thread frame)) = some w1)
    (hsteps : Execute.Steps env thread (w0.vm.threads thread).frameStack.length n w1 w)
    (hdepth : (w0.vm.threads thread).frameStack.length < (w.vm.threads thread).frameStack.length)
    (htop : (w.vm.threads thread).frameStack.getLast? = some curFrame)
    (hstep : (Execute.instr env thread curFrame w.vm).1 = some err)
    (hjava : UnwrapJavaError err = some exception)
    (hnone : ∀ vm, env.FindCurrentExceptionHandler curFrame exception vm = none)
    (hwf : StacksWF (Execute.instr env thread curFrame w.vm).2 thread)
    (hge : (w0.vm.threads thread).frameStack.length
      ≤ ((Execute.instr env thread curFrame w.vm).2.threads thread).frameStack.length)
    (hfuel : ((Execute.instr env thread curFrame w.vm).2.threads thread).frameStack.length
      - (w0.vm.threads thread).frameStack.length < fuel) :
    ∃ w2 l,
      Execute env (fuel + 1 + n) thread frame w0 = some (some err, w2) ∧
      (w2.vm.threads thread).frameStack
        = ((Execute.instr env thread curFrame w.vm).2.threads thread).frameStack.take
            (w0.vm.threads thread).frameStack.length ∧
      (w2.vm.threads thread).frameStack.length = (w0.vm.threads thread).frameStack.length ∧
      (w2.vm.threads thread).syncStack
        = ((Execute.instr env thread curFrame w.vm).2.threads thread).syncStack.take
            (w0.vm.threads thread).frameStack.length ∧
      w2.vm.frames = (Execute.instr env thread curFrame w.vm).2.frames ∧
      w2.vm.classes = (Execute.instr env thread curFrame w.vm).2.classes ∧
      w2.log = w.log ++ Event.step thread curFrame :: l ∧
      l.filter Event.isPopFrame
        = ((((Execute.instr env thread curFrame w.vm).2.threads thread).frameStack.drop
              (w0.vm.threads thread).frameStack.length).reverse).map
            (Event.popFrame thread) := by
  obtain ⟨w2, l, hrun, hrest⟩ :=
    Execute.loop_uncaught env hmon thread frame curFrame
      (w0.vm.threads thread).frameStack.length fuel w err exception hdepth htop hstep hjava
      hnone hwf hge hfuel
  refine ⟨w2, l, ?_, hrest⟩
  unfold Execute
  simp only [hpush]
  rw [Execute.loop_steps env thread frame _ n w1 w hsteps (fuel + 1)]
  exact hrun

/-- C19: `Execute(frame)` pushes the frame and makes any number `n` of steps
that succeed; then the step on the top frame returns an error that wraps no
Java exception.  `Execute` returns that same error with the state this step
left, for every fuel that allows the `n + 1` steps: the record gains the step
only, no handler lookup and no pop, and nothing is written to any frame. -/
theorem Execute_fatal_error_returns_at_once (env : Env σ) (thread : ThreadRef)
    (frame curFrame : FrameRef) (n fuel : Nat) (w0 w1 w : World σ) (err : Error)
    (hpush : PushFrame env thread frame (w0.emit (Event.execute thread frame)) = some w1)
    (hsteps : Execute.Steps env thread (w0.vm.threads thread).frameStack.length n w1 w)
    (hdepth : (w0.vm.threads thread).frameStack.length < (w.vm.threads thread).frameStack.length)
    (htop : (w.vm.threads thread).frameStack.getLast? = some curFrame)
    (hstep : (Execute.instr env thread curFrame w.vm).1 = some err)
    (hfatal : UnwrapJavaError err = none) :
    Execute env (fuel + 1 + n) thread frame w0
      = some (some err,
          { vm := (Execute.instr env thread curFrame w.vm).2
            log := w.log ++ [Event.step thread curFrame] }) := by
  unfold Execute
  simp only [hpush]
  rw [Execute.loop_steps env thread frame _ n w1 w hsteps (fuel + 1)]
  exact Execute.loop_fatal env thread frame curFrame _ fuel w err hdepth htop hstep hfatal

theorem Execute_uncaught_unwinds_witness :
    ∃ w2 l,
      Execute uncaughtEnv 5 0 0 frameWorld = some (some (Error.java 42), w2) ∧
      (w2.vm.threads 0).frameStack = ([0, 1] : List FrameRef).take 0 ∧
      (w2.vm.threads 0).frameStack.length = 0 ∧
      (w2.vm.threads 0).syncStack = ([none, none] : List (Option InstanceRef)).take 0 ∧
      w2.vm.frames = frameWorld.vm.frames ∧
      w2.vm.classes = frameWorld.vm.classes ∧
      w2.log = [Event.execute 0 0, Event.step 0 0] ++ Event.step 0 1 :: l ∧
      l.filter Event.isPopFrame
        = (([0, 1] : List FrameRef).drop 0).reverse.map (Event.popFrame 0) :=
  Execute_uncaught_unwinds uncaughtEnv (fun _ _ _ => ⟨rfl, rfl, rfl, rfl, rfl, rfl⟩) 0 0 1 1 3
    frameWorld _ _ (Error.java 42) 42 rfl
    (Execute.Steps.next 0 _ _ _ ⟨by decide, 0, by decide, by decide, rfl⟩ (Execute.Steps.done _))
    (by decide) (by decide) (by decide) (by decide)
    (fun _ => rfl) (StacksWF.of_not_sync _ 0 (by decide) (fun _ => rfl)) (by decide) (by decide)

theorem Execute_fatal_error_returns_at_once_witness :
    ∃ w2, Execute fatalEnv 1 0 0 frameWorld
      = some (some (Error.other "native method not found"), w2) :=
  ⟨_, Execute_fatal_error_returns_at_once fatalEnv 0 0 0 0 0 frameWorld _ _
    (Error.other "native method not found") rfl (Execute.Steps.done _)
    (by decide) (by decide) (by decide) (by decide)⟩

/-! ## Monitors of synchronized frames -/

theorem PushFrame_spec (env : Env σ) (hmon : MonitorsLocal env) (thread : ThreadRef)
    (frame : FrameRef) (w : World σ) (syncObj : Option InstanceRef)
    (hobj : syncObj
      = if (w.vm.frames frame).curMethod.isSync then PushFrame.syncObj w.vm frame else none)
    (hsome : (w.vm.frames frame).curMethod.isSync = true → ∃ obj, syncObj = some obj) :
    ∃ w1, PushFrame env thread frame w = some w1 ∧
      (w1.vm.threads thread).frameStack = (w.vm.threads thread).frameStack ++ [frame] ∧
      (w1.vm.threads thread).syncStack = (w.vm.threads thread).syncStack ++ [syncObj] ∧
      w1.vm.frames = w.vm.frames ∧ w1.vm.classes = w.vm.classes ∧
      w1.log = w.log ++ PushFrame.events thread syncObj := by
  unfold PushFrame
  by_cases hs : (w.vm.frames frame).curMethod.isSync = true
  · obtain ⟨obj, hsync⟩ := hsome hs
    rw [hs, if_pos rfl, hsync] at hobj
    obtain ⟨hc, hf, ht, _, _, _⟩ := hmon obj thread w.vm
    simp only [hs, if_true, ← hobj, hsync]
    refine ⟨_, rfl, ?_, ?_, ?_, ?_, ?_⟩ <;>
      simp [VM.setThread, ht, hf, hc, PushFrame.events, hsync]
  · have hs1 : (w.vm.frames frame).curMethod.isSync = false := by simpa using hs
    rw [hs1] at hobj
    simp only [Bool.false_eq_true, if_false] at hobj
    simp only [hs1, Bool.false_eq_true, if_false, hobj]
    refine ⟨_, rfl, ?_, ?_, ?_, ?_, ?_⟩ <;> simp [VM.setThread, PushFrame.events, hobj]

theorem PushFrame_PopFrame_pair (env : Env σ) (hmon : MonitorsLocal env) (thread : ThreadRef)
    (frame : FrameRef) (w : World σ) (syncObj : Option InstanceRef)
    (halign : (w.vm.threads thread).syncStack.length = (w.vm.threads thread).frameStack.length)
    (hobj : syncObj
      = if (w.vm.frames frame).curMethod.isSync then PushFrame.syncObj w.vm frame else none)
    (hsome : (w.vm.frames frame).curMethod.isSync = true → ∃ obj, syncObj = some obj) :
    ∃ w1, PushFrame env thread frame w = some w1 ∧
      w1.log = w.log ++ PushFrame.events thread syncObj ∧
      (w1.vm.threads thread).frameStack = (w.vm.threads thread).frameStack ++ [frame] ∧
      (w1.vm.threads thread).syncStack = (w.vm.threads thread).syncStack ++ [syncObj] ∧
      w1.vm.frames = w.vm.frames ∧
      ∀ w2 : World σ, w2.vm.threads thread = w1.vm.threads thread →
        (w2.vm.frames frame).curMethod = (w.vm.frames frame).curMethod →
        ∃ w3, PopFrame env thread w2 = some w3 ∧
          w3.log = w2.log
            ++ PopFrame.events thread frame (w.vm.frames frame).curMethod.isSync syncObj ∧
          (w3.vm.threads thread).frameStack = (w.vm.threads thread).frameStack ∧
          (w3.vm.threads thread).syncStack = (w.vm.threads thread).syncStack ∧
          w3.vm.frames = w2.vm.frames := by
  obtain ⟨w1, hpush, hst1, hsy1, hfr1, _, hlog1⟩ :=
    PushFrame_spec env hmon thread frame w syncObj hobj hsome
  refine ⟨w1, hpush, hlog1, hst1, hsy1, hfr1, ?_⟩
  intro w2 hthread hmethod
  have hst2 : (w2.vm.threads thread).frameStack = (w.vm.threads thread).frameStack ++ [frame] := by
    rw [hthread, hst1]
  have hsy2 : (w2.vm.threads thread).syncStack.get? (w.vm.threads thread).frameStack.length
      = some syncObj := by
    rw [hthread, hsy1, ← halign]
    simp
  obtain ⟨w3, hpop, hst3, hsy3, hfr3, _, hlog3⟩ :=
    PopFrame_spec env hmon thread w2 _ frame syncObj hst2 hsy2
      (by rw [hmethod]; exact hsome)
  refine ⟨w3, hpop, ?_, hst3, ?_, hfr3⟩
  · rw [hlog3, hmethod]
  · rw [hsy3, hthread, hsy1, ← halign]
    simp

theorem Execute_throwing_frame (env : Env σ) (hmon : MonitorsLocal env) (thread : ThreadRef)
    (frame : FrameRef) (w : World σ) (syncObj : Option InstanceRef)
    (halign : (w.vm.threads thread).syncStack.length = (w.vm.threads thread).frameStack.length)
    (hobj : syncObj
      = if (w.vm.frames frame).curMethod.isSync then PushFrame.syncObj w.vm frame else none)
    (hsome : (w.vm.frames frame).curMethod.isSync = true → ∃ obj, syncObj = some obj)
    (err : Error) (exception : InstanceRef)
    (hthrow : ∀ vm : VM σ,
      (env.ExecInstr thread frame (env.NextInstr frame vm).1 (env.NextInstr frame vm).2).1
        = some err ∧
      (env.ExecInstr thread frame (env.NextInstr frame vm).1 (env.NextInstr frame vm).2).2.threads
          thread = vm.threads thread ∧
      ((env.ExecInstr thread frame (env.NextInstr frame vm).1 (env.NextInstr frame vm).2).2.frames
          frame).curMethod = (vm.frames frame).curMethod)
    (hjava : UnwrapJavaError err = some exception)
    (hnone : ∀ vm, env.FindCurrentExceptionHandler frame exception vm = none) (fuel : Nat) :
    ∃ w3, Execute env (fuel + 3) thread frame w = some (some err, w3) ∧
      w3.log = w.log ++ Event.execute thread frame ::
        (PushFrame.events thread syncObj
          ++ [Event.step thread frame, Event.findHandler frame]
          ++ PopFrame.events thread frame (w.vm.frames frame).curMethod.isSync syncObj) ∧
      (w3.vm.threads thread).frameStack = (w.vm.threads thread).frameStack ∧
      (w3.vm.threads thread).syncStack = (w.vm.threads thread).syncStack := by
  obtain ⟨w1, hpush, hlog1, hst1, _, hfr1, hpop⟩ :=
    PushFrame_PopFrame_pair env hmon thread frame (w.emit (Event.execute thread frame)) syncObj
      halign hobj hsome
  obtain ⟨hstep, hthread, hmethod⟩ := hthrow w1.vm
  obtain ⟨w3, hpop3, hlog3, hst3, hsy3, _⟩ := hpop
    { vm := (env.ExecInstr thread frame (env.NextInstr frame w1.vm).1
        (env.NextInstr frame w1.vm).2).2
      log := w1.log ++ [Event.step thread frame, Event.findHandler frame] }
    hthread (by rw [hmethod, hfr1])
  have hlen1 : (w.vm.threads thread).frameStack.length
      < (w1.vm.threads thread).frameStack.length := by
    rw [hst1]
    simp [World.emit]
  have hlast1 : (w1.vm.threads thread).frameStack.getLast? = some frame := by
    rw [hst1]
    simp
  have hlen2 : (w.vm.threads thread).frameStack.length
      < (((env.ExecInstr thread frame (env.NextInstr frame w1.vm).1
          (env.NextInstr frame w1.vm).2).2).threads thread).frameStack.length := by
    rw [hthread]
    exact hlen1
  refine ⟨w3, ?_, ?_, hst3, hsy3⟩
  · unfold Execute
    simp only [hpush]
    unfold Execute.loop
    rw [if_pos hlen1]
    simp only [hlast1, hstep, hjava]
    unfold Execute.unwind
    rw [if_pos hlen2]
    simp only [World.emit, hnone, List.append_assoc, List.singleton_append] at hpop3 ⊢
    simp only [hpop3]
    unfold Execute.unwind
    rw [if_neg (by rw [hst3]; exact Nat.lt_irrefl _)]
  · rw [hlog3, hlog1]
    simp [World.emit]

theorem PushFrame_aligned (env : Env σ) (hmon : MonitorsLocal env) (thread : ThreadRef)
    (frame : FrameRef) (w w1 : World σ) (h : PushFrame env thread frame w = some w1)
    (halign : (w.vm.threads thread).syncStack.length = (w.vm.threads thread).frameStack.length) :
    (w1.vm.threads thread).syncStack.length = (w1.vm.threads thread).frameStack.length := by
  unfold PushFrame at h
  simp only [] at h
  split at h
  · split at h
    · cases h
    · rename_i syncObj _
      obtain ⟨_, _, ht, _, _, _⟩ := hmon syncObj thread w.vm
      cases h
      simp [VM.setThread, ht, halign]
  · cases h
    simp [VM.setThread, halign]

theorem PopFrame_aligned (env : Env σ) (hmon : MonitorsLocal env) (thread : ThreadRef)
    (w w1 : World σ) (h : PopFrame env thread w = some w1)
    (halign : (w.vm.threads thread).syncStack.length = (w.vm.threads thread).frameStack.length) :
    (w1.vm.threads thread).syncStack.length = (w1.vm.threads thread).frameStack.length := by
  unfold PopFrame at h
  simp only [] at h
  split at h
  · cases h
  · split at h
    · split at h
      · rename_i syncObj _
        obtain ⟨_, _, _, _, _, ht⟩ := hmon syncObj thread w.vm
        cases h
        simp [VM.setThread, ht, halign]
      · cases h
    · cases h
      simp [VM.setThread, halign]

/-- C13: with monitor code that acts on monitors only and a thread whose two
stacks have equal length.  A frame whose method is not synchronized is pushed
and popped without any monitor call.  For a frame whose method is synchronized
with lock object `obj`, `PushFrame` enters the monitor of `obj` once and
records `obj`; the `PopFrame` that removes the frame, in any later state with
the same stacks (whatever local 0 then holds), exits the monitor of `obj`
once and restores both stacks; and when the method throws a Java exception
that is not handled, `Execute` records exactly one enter and one exit, both on
`obj`.  `PushFrame` and `PopFrame` keep the two stacks at equal length. -/
theorem PopFrame_exits_monitor_of_PushFrame (env : Env σ) (hmon : MonitorsLocal env)
    (thread : ThreadRef) (frame : FrameRef) (w : World σ)
    (halign : (w.vm.threads thread).syncStack.length = (w.vm.threads thread).frameStack.length) :
    ((w.vm.frames frame).curMethod.isSync = false →
      ∃ w1, PushFrame env thread frame w = some w1 ∧ w1.log = w.log ∧
        ∀ w2 : World σ, w2.vm.threads thread = w1.vm.threads thread →
          (w2.vm.frames frame).curMethod = (w.vm.frames frame).curMethod →
          ∃ w3, PopFrame env thread w2 = some w3 ∧
            w3.log = w2.log ++ [Event.popFrame thread frame] ∧
            (w3.vm.threads thread).frameStack = (w.vm.threads thread).frameStack ∧
            (w3.vm.threads thread).syncStack = (w.vm.threads thread).syncStack) ∧
    (∀ obj, (w.vm.frames frame).curMethod.isSync = true →
      PushFrame.syncObj w.vm frame = some obj →
      (∃ w1, PushFrame env thread frame w = some w1 ∧
        w1.log = w.log ++ [Event.monitorEnter obj thread] ∧
        (w1.vm.threads thread).syncStack = (w.vm.threads thread).syncStack ++ [some obj] ∧
        ∀ w2 : World σ, w2.vm.threads thread = w1.vm.threads thread →
          (w2.vm.frames frame).curMethod = (w.vm.frames frame).curMethod →
          ∃ w3, PopFrame env thread w2 = some w3 ∧
            w3.log = w2.log ++ [Event.monitorExit obj thread, Event.popFrame thread frame] ∧
            (w3.vm.threads thread).frameStack = (w.vm.threads thread).frameStack ∧
            (w3.vm.threads thread).syncStack = (w.vm.threads thread).syncStack) ∧
      ∀ (fuel : Nat) (err : Error) (exception : InstanceRef),
        (∀ vm : VM σ,
          (env.ExecInstr thread frame (env.NextInstr frame vm).1 (env.NextInstr frame vm).2).1
            = some err ∧
          (env.ExecInstr thread frame (env.NextInstr frame vm).1
            (env.NextInstr frame vm).2).2.threads thread = vm.threads thread ∧
          ((env.ExecInstr thread frame (env.NextInstr frame vm).1
            (env.NextInstr frame vm).2).2.frames frame).curMethod
              = (vm.frames frame).curMethod) →
        UnwrapJavaError err = some exception →
        (∀ vm, env.FindCurrentExceptionHandler frame exception vm = none) →
        ∃ w3, Execute env (fuel + 3) thread frame w = some (some err, w3) ∧
          w3.log = w.log ++ [Event.execute thread frame, Event.monitorEnter obj thread,
            Event.step thread frame, Event.findHandler frame, Event.monitorExit obj thread,
            Event.popFrame thread frame] ∧
          (w3.vm.threads thread).frameStack = (w.vm.threads thread).frameStack ∧
          (w3.vm.threads thread).syncStack = (w.vm.threads thread).syncStack) ∧
    (∀ w1, PushFrame env thread frame w = some w1 →
      (w1.vm.threads thread).syncStack.length = (w1.vm.threads thread).frameStack.length) ∧
    (∀ w1, PopFrame env thread w = some w1 →
      (w1.vm.threads thread).syncStack.length = (w1.vm.threads thread).frameStack.length) := by
  refine ⟨?_, ?_, fun w1 h => PushFrame_aligned env hmon thread frame w w1 h halign,
    fun w1 h => PopFrame_aligned env hmon thread w w1 h halign⟩
  · intro hs
    obtain ⟨w1, hpush, hlog1, _, _, _, hpop⟩ :=
      PushFrame_PopFrame_pair env hmon thread frame w none halign (by simp [hs]) (by simp [hs])
    refine ⟨w1, hpush, by simpa [PushFrame.events] using hlog1, ?_⟩
    intro w2 hthread hmethod
    obtain ⟨w3, hpop3, hlog3, hst3, hsy3, _⟩ := hpop w2 hthread hmethod
    exact ⟨w3, hpop3, by simpa [PopFrame.events, hs] using hlog3, hst3, hsy3⟩
  · intro obj hs hobj
    have hobj1 : some obj
        = if (w.vm.frames frame).curMethod.isSync then PushFrame.syncObj w.vm frame else none := by
      simp [hs, hobj]
    refine ⟨?_, ?_⟩
    · obtain ⟨w1, hpush, hlog1, _, hsy1, _, hpop⟩ :=
        PushFrame_PopFrame_pair env hmon thread frame w (some obj) halign hobj1
          (fun _ => ⟨obj, rfl⟩)
      refine ⟨w1, hpush, by simpa [PushFrame.events] using hlog1, hsy1, ?_⟩
      intro w2 hthread hmethod
      obtain ⟨w3, hpop3, hlog3, hst3, hsy3, _⟩ := hpop w2 hthread hmethod
      exact ⟨w3, hpop3, by simpa [PopFrame.events, hs] using hlog3, hst3, hsy3⟩
    · intro fuel err exception hthrow hjava hnone
      obtain ⟨w3, hrun, hlog3, hst3, hsy3⟩ :=
        Execute_throwing_frame env hmon thread frame w (some obj) halign hobj1
          (fun _ => ⟨obj, rfl⟩) err exception hthrow hjava hnone fuel
      exact ⟨w3, hrun, by simpa [PushFrame.events, PopFrame.events, hs] using hlog3, hst3, hsy3⟩

theorem PopFrame_exits_monitor_of_PushFrame_witness :
    ∃ w3, Execute throwingEnv 3 0 0 syncWorld = some (some (Error.java 42), w3) ∧
      w3.log = [] ++ [Event.execute 0 0, Event.monitorEnter 5 0, Event.step 0 0,
        Event.findHandler 0, Event.monitorExit 5 0, Event.popFrame 0 0] ∧
      (w3.vm.threads 0).frameStack = [] ∧
      (w3.vm.threads 0).syncStack = [] :=
  ((PopFrame_exits_monitor_of_PushFrame throwingEnv (fun _ _ _ => ⟨rfl, rfl, rfl, rfl, rfl, rfl⟩)
    0 0 syncWorld (by decide)).2.1 5 (by decide) (by decide)).2 0 (Error.java 42) 42
    (fun vm => ⟨rfl, rfl, by simp [throwingEnv, quietEnv, VM.setFrame]⟩) (by decide)
    (fun _ => rfl)

/-! ## Interruption -/

theorem Interrupt.closeAll_spec (watchers : List ChanRef) :
    ∀ chans : Chans, watchers.Nodup → (∀ w ∈ watchers, w ∉ chans.closed) →
      Interrupt.closeAll watchers chans
        = some { chans with closed := chans.closed ++ watchers } := by
  induction watchers with
  | nil => intro chans _ _; simp [Interrupt.closeAll]
  | cons w rest ih =>
    intro chans hnodup hopen
    have hw : w ∉ chans.closed := hopen w (List.mem_cons_self _ _)
    obtain ⟨hwrest, hrest⟩ := List.nodup_cons.mp hnodup
    have hopen1 : ∀ x ∈ rest, x ∉ chans.closed ++ [w] := by
      intro x hx hmem
      rcases List.mem_append.mp hmem with h | h
      · exact hopen x (List.mem_cons_of_mem _ hx) h
      · rw [List.mem_singleton] at h
        rw [h] at hx
        exact hwrest hx
    simp only [Interrupt.closeAll, Chans.close, hw, if_false]
    rw [ih { chans with closed := chans.closed ++ [w] } hrest hopen1]
    simp

/-- C14: on a thread whose `interLock` is free and whose registered watchers
are distinct open channels, `Interrupt` returns; it closes exactly the
watchers registered at that moment, in order, leaves the watcher list empty,
and sets `interrupted` to true if and only if a watcher was registered,
whatever it was before; nothing else of the thread changes.  Without a
registered watcher `interrupted` is false afterwards. -/
theorem Interrupt_spec (thread : Thread) (chans : Chans)
    (hfree : thread.interLocked = false) (hnodup : thread.interWatcher.Nodup)
    (hopen : ∀ w ∈ thread.interWatcher, w ∉ chans.closed) :
    ∃ thread1 chans1, Interrupt thread chans = some (thread1, chans1) ∧
      chans1.closed = chans.closed ++ thread.interWatcher ∧
      chans1.next = chans.next ∧
      thread1.interWatcher = [] ∧
      (thread1.interrupted = true ↔ thread.interWatcher ≠ []) ∧
      (thread.interWatcher = [] → thread1.interrupted = false) ∧
      thread1 = { thread with interrupted := thread1.interrupted, interWatcher := [] } := by
  refine ⟨{ thread with
      interrupted := decide (thread.interWatcher.length > 0), interWatcher := [] },
    { chans with closed := chans.closed ++ thread.interWatcher }, ?_, rfl, rfl, rfl, ?_, ?_, rfl⟩
  · unfold Interrupt
    rw [if_neg (by simp [hfree]), Interrupt.closeAll_spec thread.interWatcher chans hnodup hopen]
  · simp [List.length_pos]
  · intro h
    simp [h]

theorem Interrupt_spec_witness :
    ∃ thread1 chans1, Interrupt watchedThread { closed := [1], next := 5 }
        = some (thread1, chans1) ∧
      chans1.closed = [1] ++ [3, 4] ∧
      chans1.next = 5 ∧
      thread1.interWatcher = [] ∧
      (thread1.interrupted = true ↔ watchedThread.interWatcher ≠ []) ∧
      (watchedThread.interWatcher = [] → thread1.interrupted = false) ∧
      thread1 = { watchedThread with interrupted := thread1.interrupted, interWatcher := [] } :=
  Interrupt_spec watchedThread { closed := [1], next := 5 } (by decide) (by decide) (by decide)

/-! ## Termination detection of the executor -/

theorem ThreadExecutor.startAll_spec (threads : List Thread) :
    ∀ executor : ThreadExecutor, executor.locked = false →
      ThreadExecutor.startAll threads executor
        = some { executor with
            executingNum := executor.executingNum + (threads.length : Int)
            daemonNum := executor.daemonNum
              + ((threads.filter (fun t => t.daemon)).length : Int) } := by
  induction threads with
  | nil => intro executor _; simp [ThreadExecutor.startAll]
  | cons t rest ih =>
    intro executor hfree
    simp only [ThreadExecutor.startAll, ThreadExecutor.Start, hfree, Bool.false_eq_true, if_false]
    rw [ih _ rfl]
    by_cases hd : t.daemon = true
    · simp only [hd, if_true, List.filter_cons_of_pos, List.length_cons, Nat.cast_succ]
      congr 2 <;> omega
    · simp only [hd, Bool.false_eq_true, if_false, List.length_cons, Nat.cast_succ]
      rw [List.filter_cons_of_neg (by simpa using hd)]
      congr 2
      omega

theorem ThreadExecutor.Start.report_spec (executor : ThreadExecutor) (thread : ThreadRef)
    (daemon : Bool) (err : Option Error) (done : Bool) (executor1 : ThreadExecutor)
    (h : ThreadExecutor.Start.report executor thread daemon err = some (done, executor1)) :
    executor1.executingNum = executor.executingNum - 1 ∧
      executor1.daemonNum = executor.daemonNum - (if daemon then 1 else 0) ∧
      (done = true ↔ executor1.executingNum - executor1.daemonNum = 0) ∧
      executor1.delivered = executor.delivered ++ [{ thread := thread, err := err }] ∧
      executor1.closed = done := by
  unfold ThreadExecutor.Start.report at h
  by_cases hl : executor.locked = true
  · simp [hl] at h
  · by_cases hc : executor.closed = true
    · simp [hl, hc] at h
    · by_cases hd : executor.executingNum - 1
          - (if daemon = true then executor.daemonNum - 1 else executor.daemonNum) = 0
      · simp only [hl, hc, hd, if_false, if_true, decide_True, Bool.false_eq_true,
          Option.some.injEq, Prod.mk.injEq] at h
        obtain ⟨hdone, hex⟩ := h
        subst hex
        subst hdone
        refine ⟨rfl, ?_, ?_, rfl, rfl⟩
        · cases daemon <;> simp
        · simpa using hd
      · simp only [hl, hc, hd, if_false, decide_False, Option.some.injEq, Prod.mk.injEq,
          Bool.false_eq_true] at h
        obtain ⟨hdone, hex⟩ := h
        subst hex
        subst hdone
        refine ⟨rfl, ?_, ?_, rfl, rfl⟩
        · cases daemon <;> simp
        · simpa using hd

theorem ThreadExecutor.Start.report_done (executor : ThreadExecutor) (thread : ThreadRef)
    (daemon : Bool) (err : Option Error) (hfree : executor.locked = false)
    (hopen : executor.closed = false) :
    ∃ executor1,
      ThreadExecutor.Start.report executor thread daemon err
        = some (decide (executor.executingNum - 1
            - (if daemon = true then executor.daemonNum - 1 else executor.daemonNum) = 0),
            executor1) := by
  unfold ThreadExecutor.Start.report
  simp [hfree, hopen]

/-- C15: whenever the goroutine of `Start` reports the end of a thread, `done`
is true if and only if the counters left satisfy
`executingNum - daemonNum = 0`, the counters left being the old ones minus the
thread, and the channel is closed exactly when `done` holds.  After `Start`
on any list of threads of which exactly one is not a daemon, in any order and
from a new executor: the end of the non-daemon thread gives `done = true`
with that one result delivered and the channel closed, and the end of a
daemon thread gives `done = false` with the channel left open. -/
theorem ThreadExecutor_done_iff_no_live_non_daemon :
    (∀ (executor : ThreadExecutor) (thread : ThreadRef) (daemon : Bool) (err : Option Error)
        (done : Bool) (executor1 : ThreadExecutor),
      ThreadExecutor.Start.report executor thread daemon err = some (done, executor1) →
      executor1.executingNum = executor.executingNum - 1 ∧
      executor1.daemonNum = executor.daemonNum - (if daemon then 1 else 0) ∧
      (done = true ↔ executor1.executingNum - executor1.daemonNum = 0) ∧
      executor1.delivered = executor.delivered ++ [{ thread := thread, err := err }] ∧
      executor1.closed = done) ∧
    (∀ (σ : Type) (env : Env σ) (fuel : Nat) (executor : ThreadExecutor) (thread : ThreadRef)
        (frame : FrameRef) (w w1 : World σ) (done : Bool) (executor1 : ThreadExecutor),
      ThreadExecutor.Start.goroutine env fuel executor thread frame w
        = some ((done, executor1), w1) →
      (done = true ↔ executor1.executingNum - executor1.daemonNum = 0) ∧
      executor1.closed = done) ∧
    (∀ threads : List Thread, (threads.filter (fun t => !t.daemon)).length = 1 →
      ∃ started, ThreadExecutor.startAll threads NewThreadExecutor = some started ∧
        started.executingNum = (threads.length : Int) ∧
        started.daemonNum = (threads.length : Int) - 1 ∧
        (∀ thread err, ∃ executor1,
          ThreadExecutor.Start.report started thread false err = some (true, executor1) ∧
          executor1.delivered = [{ thread := thread, err := err }] ∧
          executor1.closed = true) ∧
        (∀ thread err, ∃ executor1,
          ThreadExecutor.Start.report started thread true err = some (false, executor1) ∧
          executor1.delivered = [{ thread := thread, err := err }] ∧
          executor1.closed = false)) := by
  refine ⟨ThreadExecutor.Start.report_spec, ?_, ?_⟩
  · intro σ env fuel executor thread frame w w1 done executor1 h
    unfold ThreadExecutor.Start.goroutine at h
    split at h
    · cases h
    · simp only [] at h
      split at h
      · cases h
      · rename_i obj _
        split at h
        · cases h
        · rename_i r hr
          obtain ⟨hr1, hw1⟩ := Prod.mk.inj (Option.some.inj h)
          subst hr1
          obtain ⟨_, _, hiff, _, hclosed⟩ :=
            ThreadExecutor.Start.report_spec executor thread _ _ done executor1 hr
          exact ⟨hiff, hclosed⟩
  · intro threads hone
    have hcount : ((threads.filter (fun t => t.daemon)).length : Int)
        = (threads.length : Int) - 1 := by
      have hlen : threads.length
          = (threads.filter (fun t => t.daemon)).length
            + (threads.filter (fun t => !t.daemon)).length :=
        List.length_eq_length_filter_add (fun t : Thread => t.daemon)
      rw [hone] at hlen
      omega
    refine ⟨_, ThreadExecutor.startAll_spec threads NewThreadExecutor rfl, ?_, ?_, ?_, ?_⟩
    · simp [NewThreadExecutor]
    · simp [NewThreadExecutor, hcount]
    · intro thread err
      obtain ⟨executor1, he⟩ := ThreadExecutor.Start.report_done
        { NewThreadExecutor with
          executingNum := NewThreadExecutor.executingNum + (threads.length : Int)
          daemonNum := NewThreadExecutor.daemonNum
            + ((threads.filter (fun t => t.daemon)).length : Int) }
        thread false err rfl rfl
      have hd : decide (NewThreadExecutor.executingNum + (threads.length : Int) - 1
          - (if false = true then NewThreadExecutor.daemonNum
              + ((threads.filter (fun t => t.daemon)).length : Int) - 1
            else NewThreadExecutor.daemonNum
              + ((threads.filter (fun t => t.daemon)).length : Int)) = 0) = true := by
        simp [NewThreadExecutor, hcount]
      rw [hd] at he
      obtain ⟨_, _, _, hdel, hcl⟩ :=
        ThreadExecutor.Start.report_spec _ _ _ _ _ _ he
      exact ⟨executor1, he, by simpa [NewThreadExecutor] using hdel, hcl⟩
    · intro thread err
      obtain ⟨executor1, he⟩ := ThreadExecutor.Start.report_done
        { NewThreadExecutor with
          executingNum := NewThreadExecutor.executingNum + (threads.length : Int)
          daemonNum := NewThreadExecutor.daemonNum
            + ((threads.filter (fun t => t.daemon)).length : Int) }
        thread true err rfl rfl
      have hd : decide (NewThreadExecutor.executingNum + (threads.length : Int) - 1
          - (if true = true then NewThreadExecutor.daemonNum
              + ((threads.filter (fun t => t.daemon)).length : Int) - 1
            else NewThreadExecutor.daemonNum
              + ((threads.filter (fun t => t.daemon)).length : Int)) = 0) = false := by
        simp [NewThreadExecutor, hcount]
      rw [hd] at he
      obtain ⟨_, _, _, hdel, hcl⟩ :=
        ThreadExecutor.Start.report_spec _ _ _ _ _ _ he
      exact ⟨executor1, he, by simpa [NewThreadExecutor] using hdel, hcl⟩

theorem ThreadExecutor_done_iff_no_live_non_daemon_witness :
    ∃ started,
      ThreadExecutor.startAll [daemonThread, exampleThread, daemonThread] NewThreadExecutor
        = some started ∧
      started.executingNum = 3 ∧ started.daemonNum = 2 ∧
      (∃ executor1, ThreadExecutor.Start.report started 1 false none = some (true, executor1) ∧
        executor1.delivered = [{ thread := 1, err := none }] ∧ executor1.closed = true) ∧
      (∃ executor1, ThreadExecutor.Start.report started 0 true none = some (false, executor1) ∧
        executor1.delivered = [{ thread := 0, err := none }] ∧ executor1.closed = false) := by
  obtain ⟨started, hstart, hex, hdm, hnon, hdaemon⟩ :=
    ThreadExecutor_done_iff_no_live_non_daemon.2.2 [daemonThread, exampleThread, daemonThread]
      (by decide)
  exact ⟨started, hstart, by simpa using hex, by simpa using hdm, hnon 1 none, hdaemon 0 none⟩

/-! ## Class state, link fields and the value that `Initialize` returns -/

/-- C16 (the code at the failing input): class `A` is `NotInitialized` and the
initialization of its superclass `B` fails.  `Initialize` sets the state to
`Initializing` when it enters, and the state it leaves is `NotInitialized`
again; a second call goes through the same states and asks for the superclass
once more. -/
theorem Initialize_state_returns_to_NotInitialized :
    (lockInit 0 { vm := exampleVM, log := [] }).map
        (fun w => ((Initialize.enter failingSuperEnv 0 0 w).vm.classes 0).state)
      = some ClassState.Initializing ∧
    (Initialize failingSuperEnv 2 0 0 { vm := exampleVM, log := [] }).map
        (fun r => (r.2.vm.classes 0).state)
      = some ClassState.NotInitialized ∧
    ((Initialize failingSuperEnv 2 0 0 { vm := exampleVM, log := [] }).bind
        (fun r => Initialize failingSuperEnv 2 0 0 { vm := r.2.vm, log := [] })).map
        (fun r => ((r.2.vm.classes 0).state, r.2.log))
      = some (ClassState.NotInitialized,
          [Event.resolve "B" (some 0), Event.broadcast 0]) := by
  decide

/-- C17 (counterexample): class `K` implements the interface `I`, and its
static initializer throws.  When `Initialize` has returned, no initialization
is in progress and the state is `FailedInitialization`, yet `interfaces` is
populated: it is neither unset nor that of an `Initialized` class. -/
theorem Initialize_failed_clinit_keeps_interfaces :
    (Initialize interfaceEnv 5 0 0 interfaceWorld).map
        (fun r => ((r.2.vm.classes 0).state, (r.2.vm.classes 0).initBy,
          (r.2.vm.classes 0).interfaces))
      = some (ClassState.FailedInitialization, none, [1]) := by
  decide

/-- C18 (the code at the failing input): class `K` declares a static
initializer that throws.  `Initialize` returns the state `NotInitialized`
together with the error, while the state stored for the class at that moment
is `FailedInitialization`. -/
theorem Initialize_returns_NotInitialized_for_failed_class :
    (Initialize throwingEnv 5 0 0 clinitWorld).map
        (fun r => (r.1, (r.2.vm.classes 0).state))
      = some ((ClassState.NotInitialized, some (Error.java 42)),
          ClassState.FailedInitialization) := by
  decide

theorem links_setClass (vm : VM σ) (c c1 : ClassRef) (k : Class)
    (h : k.links = (vm.classes c1).links) :
    ((vm.setClass c1 k).classes c).links = (vm.classes c).links := by
  by_cases hc : c = c1
  · subst hc
    simp [VM.setClass, h]
  · simp [VM.setClass, Function.update_noteq hc]

theorem lockInit_links {c c1 : ClassRef} {w w1 : World σ} (h : lockInit c1 w = some w1) :
    (w1.vm.classes c).links = (w.vm.classes c).links := by
  unfold lockInit at h
  split at h
  · cases h
  · cases h
    exact links_setClass _ _ _ _ rfl

theorem unlockInit_links (c c1 : ClassRef) (w : World σ) :
    ((unlockInit c1 w).vm.classes c).links = (w.vm.classes c).links :=
  links_setClass _ _ _ _ rfl

theorem InitJava_links (env : Env σ) (c : ClassRef) (hkeep : LinksUntouched env c)
    (c1 : ClassRef) (w : World σ) :
    ((InitJava env c1 w).vm.classes c).links = (w.vm.classes c).links := by
  refine (links_setClass _ c c1 _ ?_).trans ?_
  · rfl
  obtain ⟨_, _, _, htb, _⟩ := hkeep (env.NewInstance
    (w.vm.specialClass SpecialClassID.JavaLangClassID) w.vm).2
  rw [htb]
  obtain ⟨_, _, hni, _⟩ := hkeep w.vm
  rw [hni]

theorem Initialize.enter_links (env : Env σ) (c : ClassRef) (hkeep : LinksUntouched env c)
    (c1 : ClassRef) (curThread : ThreadRef) (w : World σ) :
    ((Initialize.enter env c1 curThread w).vm.classes c).links = (w.vm.classes c).links := by
  unfold Initialize.enter
  simp only []
  rw [unlockInit_links]
  refine (links_setClass _ c c1 _ ?_).trans ?_
  · rfl
  split
  · exact InitJava_links env c hkeep c1 w
  · rfl

theorem World.resolve_links (env : Env σ) (c : ClassRef) (hkeep : LinksUntouched env c)
    (name : String) (thread : Option ThreadRef) (w : World σ) :
    ((World.resolve env name thread w).2.vm.classes c).links = (w.vm.classes c).links := by
  obtain ⟨hcl, _⟩ := hkeep w.vm
  exact hcl name thread

theorem initializeFieldID.assign_links (c c1 : ClassRef) (id : Int) (w : World σ) :
    ((initializeFieldID.assign c1 id w).2.vm.classes c).links = (w.vm.classes c).links :=
  links_setClass _ _ _ _ rfl

theorem initializeFieldID_links (env : Env σ) (c : ClassRef) (hkeep : LinksUntouched env c)
    (fuel : Nat) :
    ∀ (c1 : ClassRef) (w w1 : World σ) (r : Int × Option Error),
      initializeFieldID env fuel c1 w = some (r, w1) →
      (w1.vm.classes c).links = (w.vm.classes c).links := by
  induction fuel with
  | zero => intro c1 w w1 r h; simp [initializeFieldID] at h
  | succ fuel ih =>
    intro c1 w w1 r h
    unfold initializeFieldID at h
    split at h
    · cases h; rfl
    · split at h
      · rename_i superName _
        have hres := World.resolve_links env c hkeep superName none w
        split at h
        · rename_i err w2 heq
          cases h
          rw [heq] at hres
          exact hres
        · rename_i super w2 heq
          rw [heq] at hres
          split at h
          · cases h
          · rename_i x err w3 hrec
            cases h
            rw [ih _ _ _ _ hrec, hres]
          · rename_i id w3 hrec
            have hw1 : w1 = (initializeFieldID.assign c1 id w3).2 := by
              rw [Option.some.inj h]
            rw [hw1, initializeFieldID.assign_links, ih _ _ _ _ hrec, hres]
      · have hw1 : w1 = (initializeFieldID.assign c1 0 w).2 := by
          rw [Option.some.inj h]
        rw [hw1, initializeFieldID.assign_links]

theorem initializeClass.constValue_links (env : Env σ) (c : ClassRef)
    (hkeep : LinksUntouched env c) (constVal : Value) (w : World σ) :
    ((initializeClass.constValue env constVal w).2.vm.classes c).links
      = (w.vm.classes c).links := by
  unfold initializeClass.constValue
  split
  · rename_i cv
    obtain ⟨_, hjs, _⟩ := hkeep w.vm
    exact hjs cv
  · rfl

theorem initializeClass.constants_links (env : Env σ) (c : ClassRef)
    (hkeep : LinksUntouched env c) (c1 : ClassRef) (fs : List FieldInfo) :
    ∀ (w w1 : World σ), initializeClass.constants env c1 fs w = some w1 →
      (w1.vm.classes c).links = (w.vm.classes c).links := by
  induction fs with
  | nil => intro w w1 h; simp [initializeClass.constants] at h; rw [← h]
  | cons f fs ih =>
    intro w w1 h
    unfold initializeClass.constants at h
    split at h
    · exact ih _ _ h
    · simp only [] at h
      split at h
      · cases h
      · rw [ih _ _ h]
        refine (links_setClass _ c c1 _ ?_).trans ?_
        · rfl
        · exact initializeClass.constValue_links env c hkeep _ w

theorem PushFrame_links (env : Env σ) (c : ClassRef) (hkeep : LinksUntouched env c)
    (thread : ThreadRef) (frame : FrameRef) (w w1 : World σ)
    (h : PushFrame env thread frame w = some w1) :
    (w1.vm.classes c).links = (w.vm.classes c).links := by
  unfold PushFrame at h
  simp only [] at h
  split at h
  · split at h
    · cases h
    · rename_i syncObj _
      cases h
      obtain ⟨_, _, _, _, _, _, _, hme, _⟩ := hkeep w.vm
      exact hme syncObj thread
  · cases h
    rfl

theorem PopFrame_links (env : Env σ) (c : ClassRef) (hkeep : LinksUntouched env c)
    (thread : ThreadRef) (w w1 : World σ) (h : PopFrame env thread w = some w1) :
    (w1.vm.classes c).links = (w.vm.classes c).links := by
  unfold PopFrame at h
  simp only [] at h
  split at h
  · cases h
  · split at h
    · split at h
      · rename_i syncObj _
        cases h
        obtain ⟨_, _, _, _, _, _, _, _, hmx⟩ := hkeep w.vm
        exact hmx syncObj thread
      · cases h
    · cases h
      rfl

theorem Execute.unwind_links (env : Env σ) (c : ClassRef) (hkeep : LinksUntouched env c)
    (thread : ThreadRef) (frame curFrame : FrameRef) (bottom : Nat) (exception : InstanceRef)
    (err : Error) (fuel : Nat) :
    ∀ (w w1 : World σ) (r : Option Error),
      Execute.unwind env thread frame curFrame bottom exception err fuel w = some (r, w1) →
      (w1.vm.classes c).links = (w.vm.classes c).links := by
  induction fuel with
  | zero => intro w w1 r h; simp [Execute.unwind] at h
  | succ fuel ih =>
    intro w w1 r h
    unfold Execute.unwind at h
    split at h
    · simp only [] at h
      split at h
      · cases h
        rfl
      · split at h
        · cases h
        · rename_i w2 hpop
          rw [ih _ _ _ h, PopFrame_links env c hkeep thread _ _ hpop]
          rfl
    · cases h
      rfl

theorem Execute.loop_links (env : Env σ) (c : ClassRef) (hkeep : LinksUntouched env c)
    (thread : ThreadRef) (frame : FrameRef) (bottom : Nat) (fuel : Nat) :
    ∀ (w w1 : World σ) (r : Option Error),
      Execute.loop env thread frame bottom fuel w = some (r, w1) →
      (w1.vm.classes c).links = (w.vm.classes c).links := by
  induction fuel with
  | zero => intro w w1 r h; simp [Execute.loop] at h
  | succ fuel ih =>
    intro w w1 r h
    unfold Execute.loop at h
    split at h
    · split at h
      · cases h
      · rename_i curFrame _
        simp only [] at h
        have hstep : ((env.ExecInstr thread curFrame (env.NextInstr curFrame w.vm).1
            (env.NextInstr curFrame w.vm).2).2.classes c).links = (w.vm.classes c).links := by
          obtain ⟨_, _, _, _, _, _, hex, _⟩ := hkeep (env.NextInstr curFrame w.vm).2
          rw [hex]
          obtain ⟨_, _, _, _, _, hnx, _⟩ := hkeep w.vm
          exact hnx curFrame
        split at h
        · rw [ih _ _ _ h]
          exact hstep
        · split at h
          · rw [Execute.unwind_links env c hkeep _ _ _ _ _ _ _ _ _ _ h]
            exact hstep
          · cases h
            exact hstep
    · cases h
      rfl

theorem Execute_links (env : Env σ) (c : ClassRef) (hkeep : LinksUntouched env c)
    (fuel : Nat) (thread : ThreadRef) (frame : FrameRef) (w w1 : World σ) (r : Option Error)
    (h : Execute env fuel thread frame w = some (r, w1)) :
    (w1.vm.classes c).links = (w.vm.classes c).links := by
  unfold Execute at h
  simp only [] at h
  split at h
  · cases h
  · rename_i w2 hpush
    rw [Execute.loop_links env c hkeep thread frame _ fuel _ _ _ h,
      PushFrame_links env c hkeep thread frame _ _ hpush]
    rfl

theorem initializeClass.clinit_links (env : Env σ) (c : ClassRef)
    (hkeep : LinksUntouched env c) (fuel : Nat) (c1 : ClassRef) (curThread : ThreadRef)
    (w w1 : World σ) (r : ClassState × Option Error)
    (h : initializeClass.clinit env fuel c1 curThread w = some (r, w1)) :
    (w1.vm.classes c).links = (w.vm.classes c).links ∧
      (r.1 = ClassState.Initialized ∨ r.1 = ClassState.FailedInitialization) := by
  unfold initializeClass.clinit at h
  split at h
  · cases h
    exact ⟨rfl, Or.inl rfl⟩
  · rename_i clinit _
    simp only [] at h
    have hnf : ((env.NewFrame c1 clinit w.vm).2.classes c).links = (w.vm.classes c).links := by
      obtain ⟨_, _, _, _, hnf, _⟩ := hkeep w.vm
      exact hnf c1 clinit
    split at h
    · cases h
    · rename_i err w2 hexec
      cases h
      exact ⟨(Execute_links env c hkeep fuel curThread _ _ _ _ hexec).trans hnf, Or.inr rfl⟩
    · rename_i w2 hexec
      cases h
      exact ⟨(Execute_links env c hkeep fuel curThread _ _ _ _ hexec).trans hnf, Or.inl rfl⟩

theorem initializeClass.deferred_links (c c1 : ClassRef) (state : ClassState) (w w1 : World σ)
    (h : initializeClass.deferred c1 state w = some w1) :
    (w1.vm.classes c).links = (w.vm.classes c).links ∧ (w1.vm.classes c1).state = state := by
  unfold initializeClass.deferred at h
  split at h
  · cases h
  · rename_i w2 hlock
    cases h
    refine ⟨?_, by simp [unlockInit, VM.setClass]⟩
    rw [unlockInit_links]
    refine (links_setClass _ c c1 _ ?_).trans ?_
    · rfl
    · exact lockInit_links hlock

theorem Class.links_eq {k k1 : Class} (h : k1.links = k.links) :
    k1.super = k.super ∧ k1.interfaces = k.interfaces ∧
      k1.file.superClass = k.file.superClass ∧ k1.file.interfaces = k.file.interfaces := by
  simpa [Class.links] using h

theorem World.resolve_fst (env : Env σ) (name : String) (thread : ThreadRef) (w w1 : World σ)
    (i : ClassRef) (h : World.resolve env name (some thread) w = (Except.ok i, w1)) :
    ResolvesTo env thread name i :=
  ⟨w.vm, (Prod.mk.inj h).1⟩

theorem initializeClass.super_spec (env : Env σ) (c : ClassRef) (hkeep : LinksUntouched env c)
    (curThread : ThreadRef) (w w1 : World σ)
    (h : initializeClass.super env c curThread w = (none, w1)) :
    (w1.vm.classes c).interfaces = (w.vm.classes c).interfaces ∧
      (w1.vm.classes c).file.interfaces = (w.vm.classes c).file.interfaces ∧
      (∀ name, (w.vm.classes c).file.superClass = some name →
        ∃ s, ResolvesTo env curThread name s ∧ (w1.vm.classes c).super = some s) ∧
      ((w.vm.classes c).file.superClass = none →
        (w1.vm.classes c).super = (w.vm.classes c).super) := by
  unfold initializeClass.super at h
  split at h
  · rename_i hsup
    obtain ⟨_, hw⟩ := Prod.mk.inj h
    subst hw
    refine ⟨rfl, rfl, ?_, fun _ => rfl⟩
    intro name hn
    rw [hsup] at hn
    cases hn
  · rename_i superName hsup
    have hres := World.resolve_links env c hkeep superName (some curThread) w
    split at h
    · cases h
    · rename_i s w2 heq
      rw [heq] at hres
      obtain ⟨_, hi, _, hfi⟩ := Class.links_eq hres
      obtain ⟨_, hw⟩ := Prod.mk.inj h
      subst hw
      refine ⟨?_, ?_, ?_, ?_⟩
      · simp only [VM.setClass, Function.update_same]
        exact hi
      · simp only [VM.setClass, Function.update_same]
        exact hfi
      · intro name hn
        rw [hsup] at hn
        cases hn
        exact ⟨s, World.resolve_fst env _ _ _ _ _ heq, by simp [VM.setClass]⟩
      · intro hn
        rw [hsup] at hn
        cases hn

theorem initializeClass.interfaces_spec (env : Env σ) (c : ClassRef)
    (hkeep : LinksUntouched env c) (curThread : ThreadRef) (names : List String) :
    ∀ (w w1 : World σ), initializeClass.interfaces env c curThread names w = (none, w1) →
      ∃ ifs, (w1.vm.classes c).interfaces = (w.vm.classes c).interfaces ++ ifs ∧
        List.Forall₂ (ResolvesTo env curThread) names ifs ∧
        (w1.vm.classes c).super = (w.vm.classes c).super := by
  induction names with
  | nil =>
    intro w w1 h
    obtain ⟨_, hw⟩ := Prod.mk.inj h
    subst hw
    exact ⟨[], by simp, List.Forall₂.nil, rfl⟩
  | cons ifName rest ih =>
    intro w w1 h
    unfold initializeClass.interfaces at h
    have hres := World.resolve_links env c hkeep ifName (some curThread) w
    split at h
    · cases h
    · rename_i ifClass w2 heq
      rw [heq] at hres
      obtain ⟨hs, hi, _, _⟩ := Class.links_eq hres
      obtain ⟨ifs, hifs, hall, hsup⟩ := ih _ _ h
      refine ⟨ifClass :: ifs, ?_, List.Forall₂.cons (World.resolve_fst env _ _ _ _ _ heq) hall, ?_⟩
      · rw [hifs]
        simp only [VM.setClass, Function.update_same]
        simp only [] at hi
        rw [hi]
        simp
      · rw [hsup]
        simp only [VM.setClass, Function.update_same]
        exact hs

theorem initializeClass.link_spec (env : Env σ) (c : ClassRef) (hkeep : LinksUntouched env c)
    (fuel : Nat) (curThread : ThreadRef) (w w1 : World σ)
    (h : initializeClass.link env fuel c curThread w = some (none, w1)) :
    (∃ ifs, (w1.vm.classes c).interfaces = (w.vm.classes c).interfaces ++ ifs ∧
      List.Forall₂ (ResolvesTo env curThread) (w.vm.classes c).file.interfaces ifs) ∧
    (∀ name, (w.vm.classes c).file.superClass = some name →
      ∃ s, ResolvesTo env curThread name s ∧ (w1.vm.classes c).super = some s) ∧
    ((w.vm.classes c).file.superClass = none →
      (w1.vm.classes c).super = (w.vm.classes c).super) := by
  unfold initializeClass.link at h
  split at h
  · cases h
  · cases h
  · rename_i x wa hslots
    have ha := Class.links_eq (initializeFieldID_links env c hkeep fuel c w wa _ hslots)
    split at h
    · cases h
    · rename_i wb hconst
      have hb := Class.links_eq (initializeClass.constants_links env c hkeep c _ wa wb hconst)
      split at h
      · cases h
      · rename_i wc hsuper
        obtain ⟨hci, hcf, hcs, hcn⟩ := initializeClass.super_spec env c hkeep curThread wb wc hsuper
        obtain ⟨ifs, hifs, hall, hsup⟩ :=
          initializeClass.interfaces_spec env c hkeep curThread _ wc w1
            (Option.some.inj h)
        refine ⟨⟨ifs, ?_, ?_⟩, ?_, ?_⟩
        · rw [hifs, hci, hb.2.1, ha.2.1]
        · rw [hcf, hb.2.2.2, ha.2.2.2] at hall
          exact hall
        · intro name hn
          rw [← ha.2.2.1, ← hb.2.2.1] at hn
          obtain ⟨s, hres, hs⟩ := hcs name hn
          exact ⟨s, hres, by rw [hsup, hs]⟩
        · intro hn
          have hn1 := hn
          rw [← ha.2.2.1, ← hb.2.2.1] at hn1
          rw [hsup, hcn hn1, hb.1, ha.1]

/-- C17 (amended): when external code does not write the link fields of `c`:
in an `Initialize` call on the `NotInitialized` class `c` whose `interfaces`
are still unset, if slot numbering, constants and every superclass and
interface resolution succeed, then before the static initializer runs
`interfaces` holds exactly one entry per directly declared interface, in
declaration order, each the class resolved for that name, and `super` is the
class resolved for the declared superclass (it stays as it was when none is
declared).  When `Initialize` returns, both are still so and the state is
`Initialized` or `FailedInitialization`; every later `Initialize` on the
class returns at once and changes nothing. -/
theorem Initialize_populates_links (env : Env σ) (c : ClassRef) (hkeep : LinksUntouched env c)
    (fuel : Nat) (curThread : ThreadRef) (w w1 w2 : World σ)
    (hstate : (w.vm.classes c).state = ClassState.NotInitialized)
    (hunset : (w.vm.classes c).interfaces = [])
    (hlock : lockInit c w = some w1)
    (hlink : initializeClass.link env fuel c curThread (Initialize.enter env c curThread w1)
      = some (none, w2)) :
    List.Forall₂ (ResolvesTo env curThread) (w.vm.classes c).file.interfaces
      (w2.vm.classes c).interfaces ∧
    (∀ name, (w.vm.classes c).file.superClass = some name →
      ∃ s, ResolvesTo env curThread name s ∧ (w2.vm.classes c).super = some s) ∧
    ((w.vm.classes c).file.superClass = none →
      (w2.vm.classes c).super = (w.vm.classes c).super) ∧
    (∀ r w3, Initialize env fuel c curThread w = some (r, w3) →
      (w3.vm.classes c).super = (w2.vm.classes c).super ∧
      (w3.vm.classes c).interfaces = (w2.vm.classes c).interfaces ∧
      ((w3.vm.classes c).state = ClassState.Initialized ∨
        (w3.vm.classes c).state = ClassState.FailedInitialization) ∧
      ∀ (env1 : Env σ) (fuel1 : Nat) (thread1 : ThreadRef),
        Initialize env1 fuel1 c thread1 w3 = some (((w3.vm.classes c).state, none), w3)) := by
  have h0 : ((Initialize.enter env c curThread w1).vm.classes c).links
      = (w.vm.classes c).links := by
    rw [Initialize.enter_links env c hkeep, lockInit_links hlock]
  obtain ⟨h0s, h0i, h0f, h0n⟩ := Class.links_eq h0
  obtain ⟨⟨ifs, hifs, hall⟩, hsome, hnone⟩ :=
    initializeClass.link_spec env c hkeep fuel curThread _ w2 hlink
  rw [h0i, hunset, List.nil_append] at hifs
  rw [h0n, ← hifs] at hall
  rw [h0f] at hsome hnone
  rw [h0s] at hnone
  refine ⟨hall, hsome, hnone, ?_⟩
  intro r w3 hrun
  rw [Initialize_of_NotInitialized env fuel c curThread w w1 hstate hlock] at hrun
  have hterm : ∃ st err wb, initializeClass.clinit env fuel c curThread w2 = some ((st, err), wb) ∧
      initializeClass.deferred c st wb = some w3 := by
    unfold initializeClass at hrun
    simp only [initializeClass.body, hlink] at hrun
    split at hrun
    · cases hrun
    · rename_i err w4 hinit
      split at hinit
      · cases hinit
      · rename_i st err1 wb hbody
        split at hinit
        · cases hinit
        · rename_i w5 hdef
          obtain ⟨_, hw⟩ := Prod.mk.inj (Option.some.inj hinit)
          obtain ⟨_, hw3⟩ := Prod.mk.inj (Option.some.inj hrun)
          exact ⟨st, err1, wb, hbody, by rw [hdef, hw, hw3]⟩
    · rename_i w4 hinit
      split at hinit
      · cases hinit
      · rename_i st err1 wb hbody
        split at hinit
        · cases hinit
        · rename_i w5 hdef
          obtain ⟨_, hw⟩ := Prod.mk.inj (Option.some.inj hinit)
          obtain ⟨_, hw3⟩ := Prod.mk.inj (Option.some.inj hrun)
          exact ⟨st, err1, wb, hbody, by rw [hdef, hw, hw3]⟩
  obtain ⟨st, err, wb, hbody, hdef⟩ := hterm
  obtain ⟨hlb, hst⟩ := initializeClass.clinit_links env c hkeep fuel c curThread w2 wb _ hbody
  obtain ⟨hld, hstate3⟩ := initializeClass.deferred_links c c st wb w3 hdef
  obtain ⟨hs3, hi3, _, _⟩ := Class.links_eq (hld.trans hlb)
  have hterminal : (w3.vm.classes c).state = ClassState.Initialized ∨
      (w3.vm.classes c).state = ClassState.FailedInitialization := by
    rw [hstate3]
    exact hst
  refine ⟨hs3, hi3, hterminal, ?_⟩
  intro env1 fuel1 thread1
  simp [Initialize, hterminal]

theorem interfaceReturningEnv_links : LinksUntouched interfaceReturningEnv 0 := by
  intro vm
  refine ⟨?_, fun _ => rfl, fun _ => rfl, fun _ _ => rfl, fun _ _ => rfl, fun _ => rfl,
    fun _ _ _ => rfl, fun _ _ => rfl, fun _ _ => rfl⟩
  intro name thread
  show ((if name = "I" then (Except.ok 1, vm) else (Except.error (Error.other name), vm)
    : Except Error ClassRef × VM Unit).2.classes 0).links = _
  split <;> rfl

theorem Initialize_populates_links_witness :
    List.Forall₂ (ResolvesTo interfaceReturningEnv 0) (interfaceWorld.vm.classes 0).file.interfaces
      (interfaceWorldLinked.vm.classes 0).interfaces ∧
    (interfaceWorldLinked.vm.classes 0).interfaces = [1] ∧
    (Initialize interfaceReturningEnv 5 0 0 interfaceWorld).map
        (fun r => ((r.2.vm.classes 0).state, (r.2.vm.classes 0).interfaces))
      = some (ClassState.Initialized, [1]) :=
  ⟨(Initialize_populates_links interfaceReturningEnv 0 interfaceReturningEnv_links 5 0
      interfaceWorld _ interfaceWorldLinked (by decide) (by decide) rfl rfl).1,
    by decide, by decide⟩

/-! ## Method resolution through interfaces -/

theorem ResolveMethod.interfaces_hit
    (rec : ClassRef → Option (Option ClassRef × Option MethodInfo))
    (pre post : List ClassRef) (i : ClassRef) (owner : Option ClassRef) (m : MethodInfo)
    (hpre : ∀ j ∈ pre, ∃ oj, rec j = some (oj, none))
    (hi : rec i = some (owner, some m)) :
    ResolveMethod.interfaces rec (pre ++ i :: post) = some (owner, some m) := by
  induction pre with
  | nil => simp [ResolveMethod.interfaces, hi]
  | cons j pre ih =>
    obtain ⟨oj, hj⟩ := hpre j (List.mem_cons_self _ _)
    have hrest : ∀ k ∈ pre, ∃ ok, rec k = some (ok, none) :=
      fun k hk => hpre k (List.mem_cons_of_mem _ hk)
    simp [ResolveMethod.interfaces, hj, ih hrest]

theorem ResolveMethod.interfaces_inv
    (rec : ClassRef → Option (Option ClassRef × Option MethodInfo)) (l : List ClassRef) :
    ∀ (owner : Option ClassRef) (m : Option MethodInfo),
      ResolveMethod.interfaces rec l = some (owner, m) →
      (owner = none ∧ m = none ∧ ∀ j ∈ l, ∃ oj, rec j = some (oj, none)) ∨
      (∃ i mm, i ∈ l ∧ m = some mm ∧ rec i = some (owner, some mm)) := by
  induction l with
  | nil =>
    intro owner m h
    simp only [ResolveMethod.interfaces, Option.some.injEq, Prod.mk.injEq] at h
    exact Or.inl ⟨h.1.symm, h.2.symm, by simp⟩
  | cons j rest ih =>
    intro owner m h
    unfold ResolveMethod.interfaces at h
    split at h
    · cases h
    · rename_i resolvedIf method hj
      obtain ⟨ho, hm⟩ := Prod.mk.inj (Option.some.inj h)
      subst ho
      subst hm
      exact Or.inr ⟨j, method, List.mem_cons_self _ _, rfl, hj⟩
    · rename_i oj hj
      rcases ih owner m h with ⟨ho, hm, hall⟩ | ⟨i, mm, hi, hm, hri⟩
      · refine Or.inl ⟨ho, hm, ?_⟩
        intro k hk
        rcases List.mem_cons.mp hk with hkj | hkr
        · rw [hkj]
          exact ⟨oj, hj⟩
        · exact hall k hkr
      · exact Or.inr ⟨i, mm, List.mem_cons_of_mem _ hi, hm, hri⟩

theorem ResolveMethod_sound (cs : ClassRef → Class) (name desc : String) (fuel : Nat) :
    ∀ (c : ClassRef) (owner : Option ClassRef) (m : Option MethodInfo),
      ResolveMethod cs fuel c name desc = some (owner, m) →
      (owner = none ∧ m = none) ∨
      (∃ d mm, owner = some d ∧ m = some mm ∧ (cs d).file.FindMethod name desc = some mm ∧
        Reachable cs c d) := by
  induction fuel with
  | zero => intro c owner m h; simp [ResolveMethod] at h
  | succ fuel ih =>
    intro c owner m h
    have hif : ResolveMethod.interfaces (fun i => ResolveMethod cs fuel i name desc)
        (cs c).interfaces = some (owner, m) →
        (owner = none ∧ m = none) ∨
        (∃ d mm, owner = some d ∧ m = some mm ∧ (cs d).file.FindMethod name desc = some mm ∧
          Reachable cs c d) := by
      intro hvia
      rcases ResolveMethod.interfaces_inv _ _ _ _ hvia with ⟨ho, hm, _⟩ | ⟨i, mm, hi, hm, hri⟩
      · exact Or.inl ⟨ho, hm⟩
      · rcases ih i owner (some mm) hri with ⟨_, hmm⟩ | ⟨d, mm1, ho, hm1, hfind, hreach⟩
        · cases hmm
        · exact Or.inr ⟨d, mm1, ho, by rw [hm, hm1], hfind, Reachable.viaInterface c i d hi hreach⟩
    unfold ResolveMethod at h
    split at h
    · rename_i method hown
      obtain ⟨ho, hm⟩ := Prod.mk.inj (Option.some.inj h)
      exact Or.inr ⟨c, method, ho.symm, hm.symm, hown, Reachable.self c⟩
    · simp only [] at h
      split at h
      · rename_i s hs
        split at h
        · cases h
        · rename_i o1 method hsuper
          obtain ⟨ho, hm⟩ := Prod.mk.inj (Option.some.inj h)
          rcases ih s (some o1) method hsuper with ⟨ho1, _⟩ | ⟨d, mm, hod, hmm, hfind, hreach⟩
          · cases ho1
          · exact Or.inr ⟨d, mm, by rw [← ho, hod], by rw [← hm, hmm], hfind,
              Reachable.viaSuper c s d hs hreach⟩
        · exact hif h
      · exact hif h

theorem ResolveMethod_complete (cs : ClassRef → Class) (name desc : String) (fuel : Nat) :
    ∀ (c : ClassRef) (m : Option MethodInfo),
      ResolveMethod cs fuel c name desc = some (none, m) →
      ∀ d, Reachable cs c d → (cs d).file.FindMethod name desc = none := by
  induction fuel with
  | zero => intro c m h; simp [ResolveMethod] at h
  | succ fuel ih =>
    intro c m h
    have hif : ResolveMethod.interfaces (fun i => ResolveMethod cs fuel i name desc)
        (cs c).interfaces = some (none, m) →
        ∀ i ∈ (cs c).interfaces, ∀ d, Reachable cs i d →
          (cs d).file.FindMethod name desc = none := by
      intro hvia i hi d hd
      rcases ResolveMethod.interfaces_inv _ _ _ _ hvia with ⟨_, _, hall⟩ | ⟨j, mm, _, _, hrj⟩
      · obtain ⟨oi, hri⟩ := hall i hi
        rcases ResolveMethod_sound cs name desc fuel i oi none hri with ⟨ho, _⟩ | ⟨_, _, _, hm, _⟩
        · rw [ho] at hri
          exact ih i none hri d hd
        · cases hm
      · rcases ResolveMethod_sound cs name desc fuel j none (some mm) hrj with
          ⟨_, hm⟩ | ⟨_, _, ho, _⟩
        · cases hm
        · cases ho
    unfold ResolveMethod at h
    split at h
    · cases h
    · rename_i hown
      simp only [] at h
      intro d hd
      split at h
      · rename_i s hs
        split at h
        · cases h
        · cases h
        · rename_i om hsuper
          cases hd with
          | self => exact hown
          | viaSuper _ s1 _ hs1 hreach =>
            rw [hs] at hs1
            cases hs1
            exact ih s om hsuper d hreach
          | viaInterface _ i _ hi hreach => exact hif h i hi d hreach
      · rename_i hs
        cases hd with
        | self => exact hown
        | viaSuper _ s1 _ hs1 hreach =>
          rw [hs] at hs1
          cases hs1
        | viaInterface _ i _ hi hreach => exact hif h i hi d hreach

theorem ResolveMethod.interfaces_total
    (rec : ClassRef → Option (Option ClassRef × Option MethodInfo)) (l : List ClassRef)
    (h : ∀ i ∈ l, ∃ r, rec i = some r) : ∃ r, ResolveMethod.interfaces rec l = some r := by
  induction l with
  | nil => exact ⟨_, rfl⟩
  | cons j rest ih =>
    obtain ⟨⟨oj, mj⟩, hj⟩ := h j (List.mem_cons_self _ _)
    unfold ResolveMethod.interfaces
    cases mj with
    | some method => exact ⟨(oj, some method), by simp [hj]⟩
    | none =>
      obtain ⟨r, hr⟩ := ih (fun i hi => h i (List.mem_cons_of_mem _ hi))
      exact ⟨r, by simp [hj, hr]⟩

theorem ResolveMethod_total (cs : ClassRef → Class) (name desc : String)
    (rank : ClassRef → Nat) (hacyclic : Acyclic cs rank) (fuel : Nat) :
    ∀ c, rank c < fuel → ∃ r, ResolveMethod cs fuel c name desc = some r := by
  induction fuel with
  | zero => intro c h; omega
  | succ fuel ih =>
    intro c hc
    obtain ⟨hsuper, hifs⟩ := hacyclic c
    have hvia : ∃ r, ResolveMethod.interfaces (fun i => ResolveMethod cs fuel i name desc)
        (cs c).interfaces = some r :=
      ResolveMethod.interfaces_total _ _ (fun i hi => ih i (by have := hifs i hi; omega))
    unfold ResolveMethod
    split
    · exact ⟨_, rfl⟩
    · simp only []
      split
      · rename_i s hs
        obtain ⟨⟨o, m⟩, hr⟩ := ih s (by have := hsuper s hs; omega)
        cases o with
        | some owner => exact ⟨(some owner, m), by simp [hr]⟩
        | none =>
          obtain ⟨r, hv⟩ := hvia
          exact ⟨r, by simp [hr, hv]⟩
      · exact hvia

/-- C20: when `c` declares no method `(name, desc)` and there is no superclass
or the superclass search is not-found, `ResolveMethod` goes through the
interfaces of `c` in declaration order, resolving each by a full recursive
`ResolveMethod`, and returns the result of the first on which a method is
found.  Every result is either not-found or an owner that declares the method
returned and is reached from `c` through `super` and `interfaces` links.  A
not-found result means that no class reached from `c` declares the method.
On a graph of links without cycle `ResolveMethod` returns for every fuel
above the rank of `c`. -/
theorem ResolveMethod_interfaces_recursive (cs : ClassRef → Class) (name desc : String) :
    (∀ (fuel : Nat) (c i : ClassRef) (pre post : List ClassRef) (owner : Option ClassRef)
        (m : MethodInfo),
      (cs c).file.FindMethod name desc = none →
      ((cs c).super = none ∨
        ∃ s om, (cs c).super = some s ∧ ResolveMethod cs fuel s name desc = some (none, om)) →
      (cs c).interfaces = pre ++ i :: post →
      (∀ j ∈ pre, ∃ oj, ResolveMethod cs fuel j name desc = some (oj, none)) →
      ResolveMethod cs fuel i name desc = some (owner, some m) →
      ResolveMethod cs (fuel + 1) c name desc = some (owner, some m)) ∧
    (∀ (fuel : Nat) (c : ClassRef) (owner : Option ClassRef) (m : Option MethodInfo),
      ResolveMethod cs fuel c name desc = some (owner, m) →
      (owner = none ∧ m = none) ∨
      (∃ d mm, owner = some d ∧ m = some mm ∧ (cs d).file.FindMethod name desc = some mm ∧
        Reachable cs c d)) ∧
    (∀ (fuel : Nat) (c : ClassRef) (m : Option MethodInfo),
      ResolveMethod cs fuel c name desc = some (none, m) →
      ∀ d, Reachable cs c d → (cs d).file.FindMethod name desc = none) ∧
    (∀ rank : ClassRef → Nat, Acyclic cs rank →
      ∀ (fuel : Nat) (c : ClassRef), rank c < fuel →
        ∃ r, ResolveMethod cs fuel c name desc = some r) := by
  refine ⟨?_, ResolveMethod_sound cs name desc, ResolveMethod_complete cs name desc,
    fun rank h fuel => ResolveMethod_total cs name desc rank h fuel⟩
  intro fuel c i pre post owner m hown hsuper hifs hpre hi
  have hvia := ResolveMethod.interfaces_hit (fun k => ResolveMethod cs fuel k name desc)
    pre post i owner m hpre hi
  rw [← hifs] at hvia
  unfold ResolveMethod
  rcases hsuper with hs | ⟨s, om, hs, hr⟩
  · simp only [hown, hs, hvia]
  · simp only [hown, hs, hr, hvia]

theorem interfaceHeap_acyclic : Acyclic interfaceHeap interfaceRank := by
  intro c
  match c with
  | 0 => exact ⟨by decide, by decide⟩
  | 1 => exact ⟨by decide, by decide⟩
  | 2 => exact ⟨by decide, by decide⟩
  | n + 3 => exact ⟨fun s h => (by cases h), fun i h => (by cases h)⟩

theorem ResolveMethod_interfaces_recursive_witness :
    ResolveMethod interfaceHeap 3 0 "m" "()V" = some (some 3, some (exampleMethod "m")) ∧
    (∃ r, ResolveMethod interfaceHeap 3 0 "x" "()V" = some r) :=
  ⟨(ResolveMethod_interfaces_recursive interfaceHeap "m" "()V").1 2 0 2 [1] []
      (some 3) (exampleMethod "m") (by decide) (Or.inl (by decide)) (by decide)
      (fun j hj => ⟨none, by rw [List.mem_singleton.mp hj]; decide⟩) (by decide),
    (ResolveMethod_interfaces_recursive interfaceHeap "x" "()V").2.2.2 interfaceRank
      interfaceHeap_acyclic 3 0 (by decide)⟩

/-! ## Field resolution: what is found and what is not -/

theorem ClassFile.FindField_eq_none_iff (c : ClassFile) (name desc : String) :
    c.FindField name desc = none ↔ ¬ c.DeclaresField name desc := by
  unfold ClassFile.FindField ClassFile.DeclaresField
  simp [List.find?_eq_none]

theorem ResolveField.interfaces_eq_none_iff (cs : ClassRef → Class) (name desc : String)
    (l : List ClassRef) :
    ResolveField.interfaces cs name desc l = none ↔
      ∀ i ∈ l, (cs i).file.FindField name desc = none := by
  induction l with
  | nil => simp [ResolveField.interfaces]
  | cons j rest ih =>
    unfold ResolveField.interfaces
    cases hj : (cs j).file.FindField name desc with
    | some f => simp [hj]
    | none => simp [hj, ih]

theorem ResolveField.interfaces_some (cs : ClassRef → Class) (name desc : String)
    (l : List ClassRef) (i : ClassRef) (f : FieldInfo)
    (h : ResolveField.interfaces cs name desc l = some (i, f)) :
    i ∈ l ∧ (cs i).file.FindField name desc = some f := by
  induction l with
  | nil => simp [ResolveField.interfaces] at h
  | cons j rest ih =>
    unfold ResolveField.interfaces at h
    split at h
    · rename_i field hj
      obtain ⟨hi, hf⟩ := Prod.mk.inj (Option.some.inj h)
      subst hi
      subst hf
      exact ⟨List.mem_cons_self _ _, hj⟩
    · obtain ⟨hi, hf⟩ := ih h
      exact ⟨List.mem_cons_of_mem _ hi, hf⟩

theorem ResolveField_sound (cs : ClassRef → Class) (name desc : String) (fuel : Nat) :
    ∀ (c : ClassRef) (owner : Option ClassRef) (field : Option FieldInfo),
      ResolveField cs fuel c name desc = some (owner, field) →
      (owner = none ∧ field = none) ∨
      (∃ d f, owner = some d ∧ field = some f ∧ (cs d).file.FindField name desc = some f ∧
        Reachable cs c d) := by
  induction fuel with
  | zero => intro c owner field h; simp [ResolveField] at h
  | succ fuel ih =>
    intro c owner field h
    unfold ResolveField at h
    split at h
    · rename_i f hown
      obtain ⟨ho, hf⟩ := Prod.mk.inj (Option.some.inj h)
      exact Or.inr ⟨c, f, ho.symm, hf.symm, hown, Reachable.self c⟩
    · split at h
      · rename_i i f hvia
        obtain ⟨ho, hf⟩ := Prod.mk.inj (Option.some.inj h)
        obtain ⟨hi, hfind⟩ := ResolveField.interfaces_some cs name desc _ i f hvia
        exact Or.inr ⟨i, f, ho.symm, hf.symm, hfind,
          Reachable.viaInterface c i i hi (Reachable.self i)⟩
      · split at h
        · rename_i s hs
          rcases ih s owner field h with hnone | ⟨d, f, ho, hf, hfind, hreach⟩
          · exact Or.inl hnone
          · exact Or.inr ⟨d, f, ho, hf, hfind, Reachable.viaSuper c s d hs hreach⟩
        · obtain ⟨ho, hf⟩ := Prod.mk.inj (Option.some.inj h)
          exact Or.inl ⟨ho.symm, hf.symm⟩

theorem ResolveField_total (cs : ClassRef → Class) (name desc : String)
    (rank : ClassRef → Nat) (hrank : ∀ c s, (cs c).super = some s → rank s < rank c)
    (fuel : Nat) :
    ∀ c, rank c < fuel → ∃ r, ResolveField cs fuel c name desc = some r := by
  induction fuel with
  | zero => intro c h; omega
  | succ fuel ih =>
    intro c hc
    unfold ResolveField
    split
    · exact ⟨_, rfl⟩
    · split
      · exact ⟨_, rfl⟩
      · split
        · rename_i s hs
          exact ih s (by have := hrank c s hs; omega)
        · exact ⟨_, rfl⟩

theorem ResolveField_none_iff (cs : ClassRef → Class) (name desc : String) (fuel : Nat) :
    ∀ (c : ClassRef) (owner : Option ClassRef) (field : Option FieldInfo),
      ResolveField cs fuel c name desc = some (owner, field) →
      (field = none ↔
        ∀ d, OnSuperChain cs c d →
          (cs d).file.FindField name desc = none ∧
          ∀ i ∈ (cs d).interfaces, (cs i).file.FindField name desc = none) := by
  induction fuel with
  | zero => intro c owner field h; simp [ResolveField] at h
  | succ fuel ih =>
    intro c owner field h
    unfold ResolveField at h
    split at h
    · rename_i f hown
      obtain ⟨_, hf⟩ := Prod.mk.inj (Option.some.inj h)
      subst hf
      refine ⟨fun hn => (by cases hn), fun hall => ?_⟩
      have := (hall c (OnSuperChain.self c)).1
      rw [hown] at this
      cases this
    · rename_i hown
      split at h
      · rename_i i f hvia
        obtain ⟨_, hf⟩ := Prod.mk.inj (Option.some.inj h)
        subst hf
        obtain ⟨hi, hfind⟩ := ResolveField.interfaces_some cs name desc _ i f hvia
        refine ⟨fun hn => (by cases hn), fun hall => ?_⟩
        have := (hall c (OnSuperChain.self c)).2 i hi
        rw [hfind] at this
        cases this
      · rename_i hvia
        have hifs := (ResolveField.interfaces_eq_none_iff cs name desc _).mp hvia
        split at h
        · rename_i s hs
          rw [ih s owner field h]
          constructor
          · intro hall d hd
            cases hd with
            | self => exact ⟨hown, hifs⟩
            | viaSuper _ s1 _ hs1 hchain =>
              rw [hs] at hs1
              cases hs1
              exact hall d hchain
          · intro hall d hd
            exact hall d (OnSuperChain.viaSuper c s d hs hd)
        · rename_i hs
          obtain ⟨_, hf⟩ := Prod.mk.inj (Option.some.inj h)
          subst hf
          refine ⟨fun _ d hd => ?_, fun _ => rfl⟩
          cases hd with
          | self => exact ⟨hown, hifs⟩
          | viaSuper _ s1 _ hs1 _ =>
            rw [hs] at hs1
            cases hs1

theorem superInterfaceHeap_acyclic : Acyclic superInterfaceHeap superInterfaceRank := by
  intro c
  match c with
  | 0 => exact ⟨by decide, by decide⟩
  | 1 => exact ⟨by decide, by decide⟩
  | 2 => exact ⟨by decide, by decide⟩
  | n + 3 => exact ⟨fun s h => (by cases h), fun i h => (by cases h)⟩

theorem superInterfaceHeap_chain (d : ClassRef) (h : OnSuperChain superInterfaceHeap 0 d) :
    d = 0 ∨ d = 3 := by
  cases h with
  | self => exact Or.inl rfl
  | viaSuper _ s _ hs hchain =>
    cases hs
    cases hchain with
    | self => exact Or.inr rfl
    | viaSuper _ s1 _ hs1 _ => cases hs1

/-- C23: on a chain of `super` links without cycle `ResolveField` returns for
every fuel above the rank of the class, with an owner that is nil exactly when
the field is nil; the result is not-found if and only if neither a class on
the superclass chain of `c` (`c` included) nor a directly implemented
interface of a class on that chain declares the field.  What the interfaces of
those interfaces declare has no part in it. -/
theorem ResolveField_not_found_iff (cs : ClassRef → Class) (name desc : String)
    (rank : ClassRef → Nat) (hrank : ∀ c s, (cs c).super = some s → rank s < rank c)
    (fuel : Nat) (c : ClassRef) (hfuel : rank c < fuel) :
    ∃ owner field, ResolveField cs fuel c name desc = some (owner, field) ∧
      (owner = none ↔ field = none) ∧
      (field = none ↔
        ∀ d, OnSuperChain cs c d →
          ¬ (cs d).file.DeclaresField name desc ∧
          ∀ i ∈ (cs d).interfaces, ¬ (cs i).file.DeclaresField name desc) := by
  obtain ⟨⟨owner, field⟩, h⟩ := ResolveField_total cs name desc rank hrank fuel c hfuel
  refine ⟨owner, field, h, ?_, ?_⟩
  · rcases ResolveField_sound cs name desc fuel c owner field h with
      ⟨ho, hf⟩ | ⟨d, f, ho, hf, _, _⟩
    · simp [ho, hf]
    · simp [ho, hf]
  · rw [ResolveField_none_iff cs name desc fuel c owner field h]
    simp only [ClassFile.FindField_eq_none_iff]

theorem ResolveField_not_found_iff_witness :
    (superInterfaceHeap 2).file.DeclaresField "f" "I" ∧
    2 ∈ (superInterfaceHeap 1).interfaces ∧ 1 ∈ (superInterfaceHeap 0).interfaces ∧
    ResolveField superInterfaceHeap 3 0 "f" "I" = some (none, none) ∧
    ResolveMethod superInterfaceHeap 3 0 "m" "()V" = some (some 2, some (exampleMethod "m")) := by
  obtain ⟨owner, field, h, hown, hiff⟩ :=
    ResolveField_not_found_iff superInterfaceHeap "f" "I" superInterfaceRank
      (fun c s hs => (superInterfaceHeap_acyclic c).1 s hs) 3 0 (by decide)
  have hfield : field = none := by
    refine hiff.mpr (fun d hd => ?_)
    rcases superInterfaceHeap_chain d hd with hd0 | hd3
    · subst hd0
      refine ⟨fun ⟨f, hf, _⟩ => (by cases hf), fun i hi => ?_⟩
      rw [List.mem_singleton.mp hi]
      exact fun ⟨f, hf, _⟩ => (by cases hf)
    · subst hd3
      exact ⟨fun ⟨f, hf, _⟩ => (by cases hf), fun i hi => (by cases hi)⟩
  rw [hown.mpr hfield, hfield] at h
  exact ⟨⟨exampleField "f", by decide, rfl, rfl⟩, by decide, by decide, h, by decide⟩

/-- C25: on a graph of `super` and `interfaces` links without cycle,
`ResolveField` and `ResolveMethod` return for every fuel above the rank of the
class; the owner returned is nil if and only if the member returned is nil;
a non-nil owner is `c` itself or is reached from `c` through `super` and
`interfaces` links, and the lookup of `(name, desc)` among the members that
the owner itself declares gives exactly the member returned. -/
theorem Resolve_results_well_formed (cs : ClassRef → Class) (rank : ClassRef → Nat)
    (hacyclic : Acyclic cs rank) (fuel : Nat) (c : ClassRef) (name desc : String)
    (hfuel : rank c < fuel) :
    (∃ owner field, ResolveField cs fuel c name desc = some (owner, field) ∧
      (owner = none ↔ field = none) ∧
      ∀ d, owner = some d →
        Reachable cs c d ∧ field ≠ none ∧ (cs d).file.FindField name desc = field) ∧
    (∃ owner method, ResolveMethod cs fuel c name desc = some (owner, method) ∧
      (owner = none ↔ method = none) ∧
      ∀ d, owner = some d →
        Reachable cs c d ∧ method ≠ none ∧ (cs d).file.FindMethod name desc = method) := by
  constructor
  · obtain ⟨⟨owner, field⟩, h⟩ :=
      ResolveField_total cs name desc rank (fun c s hs => (hacyclic c).1 s hs) fuel c hfuel
    refine ⟨owner, field, h, ?_⟩
    rcases ResolveField_sound cs name desc fuel c owner field h with
      ⟨ho, hf⟩ | ⟨d, f, ho, hf, hfind, hreach⟩
    · subst ho
      subst hf
      exact ⟨by simp, fun d hd => (by cases hd)⟩
    · subst ho
      subst hf
      refine ⟨by simp, fun d1 hd => ?_⟩
      cases hd
      exact ⟨hreach, by simp, hfind⟩
  · obtain ⟨⟨owner, method⟩, h⟩ := ResolveMethod_total cs name desc rank hacyclic fuel c hfuel
    refine ⟨owner, method, h, ?_⟩
    rcases ResolveMethod_sound cs name desc fuel c owner method h with
      ⟨ho, hm⟩ | ⟨d, m, ho, hm, hfind, hreach⟩
    · subst ho
      subst hm
      exact ⟨by simp, fun d hd => (by cases hd)⟩
    · subst ho
      subst hm
      refine ⟨by simp, fun d1 hd => ?_⟩
      cases hd
      exact ⟨hreach, by simp, hfind⟩

theorem resolutionHeap_acyclic :
    Acyclic resolutionHeap (fun r => if r = 0 then 1 else 0) := by
  intro c
  match c with
  | 0 => exact ⟨by decide, by decide⟩
  | 1 => exact ⟨by decide, by decide⟩
  | 2 => exact ⟨by decide, by decide⟩
  | n + 3 => exact ⟨fun s h => (by cases h), fun i h => (by cases h)⟩

theorem Resolve_results_well_formed_witness :
    (∃ owner field, ResolveField resolutionHeap 2 0 "f" "I" = some (owner, field) ∧
      (owner = none ↔ field = none) ∧
      ∀ d, owner = some d →
        Reachable resolutionHeap 0 d ∧ field ≠ none ∧
          (resolutionHeap d).file.FindField "f" "I" = field) ∧
    (∃ owner method, ResolveMethod resolutionHeap 2 0 "f" "I" = some (owner, method) ∧
      (owner = none ↔ method = none) ∧
      ∀ d, owner = some d →
        Reachable resolutionHeap 0 d ∧ method ≠ none ∧
          (resolutionHeap d).file.FindMethod "f" "I" = method) :=
  Resolve_results_well_formed resolutionHeap (fun r => if r = 0 then 1 else 0)
    resolutionHeap_acyclic 2 0 "f" "I" (by decide)

/-! ## Type tests -/

theorem OnSuperChain.of_super_none {cs : ClassRef → Class} {c d : ClassRef}
    (hs : (cs c).super = none) (h : OnSuperChain cs c d) : d = c := by
  cases h with
  | self => rfl
  | viaSuper _ s _ hs1 _ =>
    rw [hs] at hs1
    cases hs1

theorem OnSuperChain.of_super_some {cs : ClassRef → Class} {c s d : ClassRef}
    (hs : (cs c).super = some s) (h : OnSuperChain cs c d) : d = c ∨ OnSuperChain cs s d := by
  cases h with
  | self => exact Or.inl rfl
  | viaSuper _ s1 _ hs1 hchain =>
    rw [hs] at hs1
    cases hs1
    exact Or.inr hchain

theorem IsSubClassOf_spec (cs : ClassRef → Class) (className : String) (fuel : Nat) :
    ∀ (c : ClassRef) (b : Bool), IsSubClassOf cs fuel c className = some b →
      (b = true ↔ ∃ d, OnSuperChain cs c d ∧ (cs d).file.thisClass = className) := by
  induction fuel with
  | zero => intro c b h; simp [IsSubClassOf] at h
  | succ fuel ih =>
    intro c b h
    unfold IsSubClassOf at h
    split at h
    · rename_i hname
      cases h
      exact ⟨fun _ => ⟨c, OnSuperChain.self c, hname⟩, fun _ => rfl⟩
    · rename_i hname
      split at h
      · rename_i hs
        cases h
        refine ⟨fun hb => (by cases hb), fun ⟨d, hd, hn⟩ => ?_⟩
        rw [OnSuperChain.of_super_none hs hd] at hn
        exact absurd hn hname
      · rename_i s hs
        rw [ih s b h]
        constructor
        · rintro ⟨d, hd, hn⟩
          exact ⟨d, OnSuperChain.viaSuper c s d hs hd, hn⟩
        · rintro ⟨d, hd, hn⟩
          rcases OnSuperChain.of_super_some hs hd with hdc | hchain
          · rw [hdc] at hn
            exact absurd hn hname
          · exact ⟨d, hchain, hn⟩

theorem IsSubClassOf_total (cs : ClassRef → Class) (className : String)
    (rank : ClassRef → Nat) (hrank : ∀ c s, (cs c).super = some s → rank s < rank c)
    (fuel : Nat) :
    ∀ c, rank c < fuel → ∃ b, IsSubClassOf cs fuel c className = some b := by
  induction fuel with
  | zero => intro c h; omega
  | succ fuel ih =>
    intro c hc
    unfold IsSubClassOf
    split
    · exact ⟨_, rfl⟩
    · split
      · exact ⟨_, rfl⟩
      · rename_i s hs
        exact ih s (by have := hrank c s hs; omega)

theorem Implements_spec (cs : ClassRef → Class) (ifName : String) (fuel : Nat) :
    ∀ (c : ClassRef) (b : Bool), Implements cs fuel c ifName = some b →
      (b = true ↔ ∃ d, OnSuperChain cs c d ∧ ifName ∈ (cs d).file.interfaces) := by
  induction fuel with
  | zero => intro c b h; simp [Implements] at h
  | succ fuel ih =>
    intro c b h
    unfold Implements at h
    split at h
    · rename_i hany
      cases h
      refine ⟨fun _ => ⟨c, OnSuperChain.self c, ?_⟩, fun _ => rfl⟩
      simpa using hany
    · rename_i hany
      have hnot : ifName ∉ (cs c).file.interfaces := by simpa using hany
      split at h
      · rename_i hs
        cases h
        refine ⟨fun hb => (by cases hb), fun ⟨d, hd, hn⟩ => ?_⟩
        rw [OnSuperChain.of_super_none hs hd] at hn
        exact absurd hn hnot
      · rename_i s hs
        rw [ih s b h]
        constructor
        · rintro ⟨d, hd, hn⟩
          exact ⟨d, OnSuperChain.viaSuper c s d hs hd, hn⟩
        · rintro ⟨d, hd, hn⟩
          rcases OnSuperChain.of_super_some hs hd with hdc | hchain
          · rw [hdc] at hn
            exact absurd hn hnot
          · exact ⟨d, hchain, hn⟩

theorem Implements_total (cs : ClassRef → Class) (ifName : String)
    (rank : ClassRef → Nat) (hrank : ∀ c s, (cs c).super = some s → rank s < rank c)
    (fuel : Nat) :
    ∀ c, rank c < fuel → ∃ b, Implements cs fuel c ifName = some b := by
  induction fuel with
  | zero => intro c h; omega
  | succ fuel ih =>
    intro c hc
    unfold Implements
    split
    · exact ⟨_, rfl⟩
    · split
      · exact ⟨_, rfl⟩
      · rename_i s hs
        exact ih s (by have := hrank c s hs; omega)

/-- C28: on a chain of `super` links without cycle the three type tests return
for every fuel above the rank of the class.  `IsSubClassOf(n)` is true if and
only if `n` is the name of `c` or of a class on its superclass chain;
`Implements(n)` is true if and only if `n` is among the interface names that
the class file of `c`, or of a class on that chain, declares; `IsInstanceOf(n)`
is the disjunction of the two.  The interfaces that a declared interface
extends are not looked at. -/
theorem IsInstanceOf_declared_names_only (cs : ClassRef → Class) (rank : ClassRef → Nat)
    (hrank : ∀ c s, (cs c).super = some s → rank s < rank c)
    (fuel : Nat) (c : ClassRef) (n : String) (hfuel : rank c < fuel) :
    ∃ sub imp, IsSubClassOf cs fuel c n = some sub ∧
      Implements cs fuel c n = some imp ∧
      IsInstanceOf cs fuel c n = some (sub || imp) ∧
      (sub = true ↔ ∃ d, OnSuperChain cs c d ∧ (cs d).file.thisClass = n) ∧
      (imp = true ↔ ∃ d, OnSuperChain cs c d ∧ n ∈ (cs d).file.interfaces) := by
  obtain ⟨sub, hsub⟩ := IsSubClassOf_total cs n rank hrank fuel c hfuel
  obtain ⟨imp, himp⟩ := Implements_total cs n rank hrank fuel c hfuel
  refine ⟨sub, imp, hsub, himp, ?_, IsSubClassOf_spec cs n fuel c sub hsub,
    Implements_spec cs n fuel c imp himp⟩
  unfold IsInstanceOf
  rw [hsub]
  cases sub with
  | true => rfl
  | false => simpa using himp

theorem IsInstanceOf_declared_names_only_witness :
    (superInterfaceHeap 0).file.interfaces = ["J"] ∧
    (superInterfaceHeap 1).file.thisClass = "J" ∧
    (superInterfaceHeap 1).file.interfaces = ["I"] ∧
    IsInstanceOf superInterfaceHeap 3 0 "J" = some true ∧
    IsInstanceOf superInterfaceHeap 3 0 "I" = some false := by
  obtain ⟨sub, imp, _, _, hinst, hsub, himp⟩ :=
    IsInstanceOf_declared_names_only superInterfaceHeap superInterfaceRank
      (fun c s hs => (superInterfaceHeap_acyclic c).1 s hs) 3 0 "I" (by decide)
  have hs : sub = false := by
    cases sub with
    | false => rfl
    | true =>
      obtain ⟨d, hd, hn⟩ := hsub.mp rfl
      rcases superInterfaceHeap_chain d hd with h0 | h3
      · subst h0
        exact absurd hn (by decide)
      · subst h3
        exact absurd hn (by decide)
  have hi : imp = false := by
    cases imp with
    | false => rfl
    | true =>
      obtain ⟨d, hd, hn⟩ := himp.mp rfl
      rcases superInterfaceHeap_chain d hd with h0 | h3
      · subst h0
        exact absurd hn (by decide)
      · subst h3
        exact absurd hn (by decide)
  rw [hs, hi] at hinst
  exact ⟨rfl, rfl, rfl, by decide, hinst⟩

/-! ## Slot numbering: failure -/

theorem initializeFieldID_failure_keeps (env : Env σ) (c : ClassRef)
    (hres : ∀ name vm, (env.Class name none vm).2.classes c = vm.classes c) (fuel : Nat) :
    ∀ (d : ClassRef) (w w1 : World σ) (n : Int) (err : Error),
      initializeFieldID env fuel d w = some ((n, some err), w1) →
      n = -1 ∧ w1.vm.classes c = w.vm.classes c := by
  induction fuel with
  | zero => intro d w w1 n err h; simp [initializeFieldID] at h
  | succ fuel ih =>
    intro d w w1 n err h
    unfold initializeFieldID at h
    split at h
    · cases h
    · split at h
      · rename_i superName _
        have hkeep : (World.resolve env superName none w).2.vm.classes c = w.vm.classes c :=
          hres superName w.vm
        split at h
        · rename_i err1 w2 heq
          cases h
          rw [heq] at hkeep
          exact ⟨rfl, hkeep⟩
        · rename_i super w2 heq
          rw [heq] at hkeep
          split at h
          · cases h
          · rename_i x err1 w3 hrec
            cases h
            exact ⟨rfl, ((ih _ _ _ _ _ hrec).2).trans hkeep⟩
          · cases h
      · cases h

/-- C26: let the memoized total of `c` be unset and `c` have a superclass
name.  If resolving that name fails with `err`, `initializeFieldID` returns
`(-1, err)` in the state that the resolution left; if the name resolves and
`initializeFieldID` on the superclass fails with `err`, it returns `(-1, err)`
in the state that this call left.  Whenever `initializeFieldID` returns an
error, the number returned is -1 and, class resolution leaving the record of
`c` alone, that record is as before the call: the total is still -1 and no
instance field of `c` has received an id. -/
theorem initializeFieldID_failure_atomic (env : Env σ) (c : ClassRef)
    (hres : ∀ name vm, (env.Class name none vm).2.classes c = vm.classes c)
    (fuel : Nat) (w : World σ) (superName : String)
    (hunset : (w.vm.classes c).totalIFields = -1)
    (hsuper : (w.vm.classes c).file.superClass = some superName) :
    (∀ err, (World.resolve env superName none w).1 = Except.error err →
      initializeFieldID env (fuel + 1) c w
        = some ((-1, some err), (World.resolve env superName none w).2)) ∧
    (∀ s n err w2, (World.resolve env superName none w).1 = Except.ok s →
      initializeFieldID env fuel s (World.resolve env superName none w).2
        = some ((n, some err), w2) →
      initializeFieldID env (fuel + 1) c w = some ((-1, some err), w2)) ∧
    (∀ n err w1, initializeFieldID env (fuel + 1) c w = some ((n, some err), w1) →
      n = -1 ∧ w1.vm.classes c = w.vm.classes c ∧
      (w1.vm.classes c).totalIFields = -1 ∧
      (w1.vm.classes c).file.fields = (w.vm.classes c).file.fields ∧
      (w1.vm.classes c).instanceFieldIDs = (w.vm.classes c).instanceFieldIDs) := by
  refine ⟨?_, ?_, ?_⟩
  · intro err he
    unfold initializeFieldID
    rw [if_neg (by simp [hunset])]
    simp only [hsuper]
    rcases hr : World.resolve env superName none w with ⟨r, w1⟩
    rw [hr] at he
    simp only at he
    subst he
    rfl
  · intro s n err w2 hs hrec
    unfold initializeFieldID
    rw [if_neg (by simp [hunset])]
    simp only [hsuper]
    rcases hr : World.resolve env superName none w with ⟨r, w1⟩
    rw [hr] at hs hrec
    simp only at hs hrec
    subst hs
    simp only [hrec]
  · intro n err w1 h
    obtain ⟨hn, hkeep⟩ := initializeFieldID_failure_keeps env c hres (fuel + 1) c w w1 n err h
    exact ⟨hn, hkeep, by rw [hkeep, hunset], by rw [hkeep], by rw [hkeep]⟩

theorem initializeFieldID_failure_atomic_witness :
    (initializeFieldID quietEnv 2 0 failingChainWorld
      = some ((-1, some (Error.other "B")),
          (World.resolve quietEnv "B" none failingChainWorld).2)) ∧
    (∃ w1, initializeFieldID slotEnv 2 0 failingChainWorld
        = some ((-1, some (Error.other "Z")), w1) ∧
      w1.vm.classes 0 = failingChainWorld.vm.classes 0 ∧
      (w1.vm.classes 0).totalIFields = -1) := by
  refine ⟨(initializeFieldID_failure_atomic quietEnv 0 (fun _ _ => rfl) 1 failingChainWorld "B"
    rfl rfl).1 (Error.other "B") rfl, ?_⟩
  obtain ⟨_, hrec, hkeep⟩ :=
    initializeFieldID_failure_atomic slotEnv 0 (fun _ _ => rfl) 1 failingChainWorld "B" rfl rfl
  have h := hrec 1 (-1) (Error.other "Z") _ rfl rfl
  obtain ⟨_, hsame, htotal, _, _⟩ := hkeep _ _ _ h
  exact ⟨_, h, hsame, htotal⟩

/-! ## Watchers: registration, deregistration and closing -/

theorem UnWatchInterruption.remove_eq_erase (watcher : ChanRef) (l : List ChanRef) :
    UnWatchInterruption.remove watcher l = l.erase watcher := by
  induction l with
  | nil => rfl
  | cons w rest ih =>
    unfold UnWatchInterruption.remove
    by_cases h : w = watcher
    · simp [h]
    · simp [h, ih, List.erase_cons]

theorem UnWatchInterruption.remove_split (watcher : ChanRef) (pre post : List ChanRef)
    (hpre : watcher ∉ pre) :
    UnWatchInterruption.remove watcher (pre ++ watcher :: post) = pre ++ post := by
  induction pre with
  | nil => simp [UnWatchInterruption.remove]
  | cons w rest ih =>
    have hw : w ≠ watcher := fun h => hpre (h ▸ List.mem_cons_self _ _)
    have hrest : watcher ∉ rest := fun h => hpre (List.mem_cons_of_mem _ h)
    simp [UnWatchInterruption.remove, hw, ih hrest]

theorem UnWatchInterruption.remove_absent (watcher : ChanRef) (l : List ChanRef)
    (h : watcher ∉ l) : UnWatchInterruption.remove watcher l = l := by
  rw [UnWatchInterruption.remove_eq_erase, List.erase_of_not_mem h]

theorem WatchInterruption_wf (thread : Thread) (chans : Chans) (hwf : WatchersWF thread chans) :
    ∃ thread1 chans1, WatchInterruption thread chans = some (chans.next, thread1, chans1) ∧
      thread1 = { thread with interWatcher := thread.interWatcher ++ [chans.next] } ∧
      chans1 = { chans with next := chans.next + 1 } ∧
      WatchersWF thread1 chans1 := by
  obtain ⟨hfree, hnodup, hopen, hclosed, hmade⟩ := hwf
  refine ⟨_, _, by simp [WatchInterruption, hfree], rfl, rfl, hfree, ?_, ?_, hclosed, ?_⟩
  · refine List.Nodup.append hnodup (List.nodup_singleton _) ?_
    intro w hw hw1
    rw [List.mem_singleton] at hw1
    have hlt := (hopen w hw).1
    rw [hw1] at hlt
    exact Nat.lt_irrefl _ hlt
  · intro w hw
    rcases List.mem_append.mp hw with h | h
    · exact ⟨Nat.lt_succ_of_lt (hopen w h).1, (hopen w h).2⟩
    · rw [List.mem_singleton] at h
      subst h
      exact ⟨Nat.lt_succ_self _, fun hc => Nat.lt_irrefl _ (hmade _ hc)⟩
  · intro w hw
    exact Nat.lt_succ_of_lt (hmade w hw)

theorem UnWatchInterruption_wf (thread : Thread) (chans : Chans) (watcher : ChanRef)
    (hwf : WatchersWF thread chans) :
    ∃ thread1, UnWatchInterruption thread watcher = some thread1 ∧
      thread1 = { thread with interWatcher := thread.interWatcher.erase watcher } ∧
      WatchersWF thread1 chans := by
  obtain ⟨hfree, hnodup, hopen, hclosed, hmade⟩ := hwf
  refine ⟨_, by simp [UnWatchInterruption, hfree, UnWatchInterruption.remove_eq_erase], rfl,
    hfree, hnodup.erase _, ?_, hclosed, hmade⟩
  intro w hw
  exact hopen w (List.mem_of_mem_erase hw)

theorem Interrupt_wf (thread : Thread) (chans : Chans) (hwf : WatchersWF thread chans) :
    ∃ thread1 chans1, Interrupt thread chans = some (thread1, chans1) ∧
      thread1 = { thread with
        interrupted := decide (thread.interWatcher.length > 0), interWatcher := [] } ∧
      chans1 = { chans with closed := chans.closed ++ thread.interWatcher } ∧
      WatchersWF thread1 chans1 := by
  obtain ⟨hfree, hnodup, hopen, hclosed, hmade⟩ := hwf
  refine ⟨_, _, ?_, rfl, rfl, hfree, List.nodup_nil, fun w hw => (by cases hw), ?_, ?_⟩
  · unfold Interrupt
    rw [if_neg (by simp [hfree]),
      Interrupt.closeAll_spec thread.interWatcher chans hnodup (fun w hw => (hopen w hw).2)]
  · refine List.Nodup.append hclosed hnodup ?_
    intro w hc hw
    exact (hopen w hw).2 hc
  · intro w hw
    rcases List.mem_append.mp hw with h | h
    · exact hmade w h
    · exact (hopen w h).1

theorem InterruptionCall.run_wf (call : InterruptionCall) (thread : Thread) (chans : Chans)
    (hwf : WatchersWF thread chans) :
    ∃ thread1 chans1, call.run thread chans = some (thread1, chans1) ∧
      WatchersWF thread1 chans1 ∧
      ∀ w, w ∈ chans1.closed → w ∉ chans.closed →
        call = InterruptionCall.interrupt ∧ w ∈ thread.interWatcher := by
  cases call with
  | watch =>
    obtain ⟨thread1, chans1, h, _, hc, hwf1⟩ := WatchInterruption_wf thread chans hwf
    refine ⟨thread1, chans1, by simp [InterruptionCall.run, h], hwf1, ?_⟩
    intro w hw hn
    rw [hc] at hw
    exact absurd hw hn
  | unwatch watcher =>
    obtain ⟨thread1, h, _, hwf1⟩ := UnWatchInterruption_wf thread chans watcher hwf
    exact ⟨thread1, chans, by simp [InterruptionCall.run, h], hwf1,
      fun w hw hn => absurd hw hn⟩
  | interrupt =>
    obtain ⟨thread1, chans1, h, _, hc, hwf1⟩ := Interrupt_wf thread chans hwf
    refine ⟨thread1, chans1, by simp [InterruptionCall.run, h], hwf1, ?_⟩
    intro w hw hn
    rw [hc] at hw
    rcases List.mem_append.mp hw with h1 | h1
    · exact absurd h1 hn
    · exact ⟨rfl, h1⟩

theorem InterruptionCall.runAll_wf (calls : List InterruptionCall) :
    ∀ (thread : Thread) (chans : Chans), WatchersWF thread chans →
      ∃ thread1 chans1, InterruptionCall.runAll calls thread chans = some (thread1, chans1) ∧
        WatchersWF thread1 chans1 := by
  induction calls with
  | nil => intro thread chans hwf; exact ⟨thread, chans, rfl, hwf⟩
  | cons call rest ih =>
    intro thread chans hwf
    obtain ⟨thread1, chans1, h, hwf1, _⟩ := InterruptionCall.run_wf call thread chans hwf
    obtain ⟨thread2, chans2, h2, hwf2⟩ := ih thread1 chans1 hwf1
    exact ⟨thread2, chans2, by simp [InterruptionCall.runAll, h, h2], hwf2⟩

/-- C24: take a thread whose `interLock` is free and whose watchers are
distinct open channels made earlier.  Every sequence of `WatchInterruption`,
`UnWatchInterruption` (with any argument) and `Interrupt` calls on it returns,
so no `close` in it is a second close of a channel; in the state reached the
watcher list holds no channel twice and none that is closed, and no channel
is recorded as closed twice.  Whatever call comes next returns as well, and
each channel that it closes was registered when the call was made, the call
being `Interrupt`. -/
theorem Interrupt_closes_no_watcher_twice (thread : Thread) (chans : Chans)
    (hwf : WatchersWF thread chans) (calls : List InterruptionCall) :
    ∃ thread1 chans1, InterruptionCall.runAll calls thread chans = some (thread1, chans1) ∧
      thread1.interWatcher.Nodup ∧
      chans1.closed.Nodup ∧
      (∀ w ∈ thread1.interWatcher, w ∉ chans1.closed) ∧
      ∀ call : InterruptionCall, ∃ thread2 chans2,
        call.run thread1 chans1 = some (thread2, chans2) ∧
        chans2.closed.Nodup ∧
        ∀ w, w ∈ chans2.closed → w ∉ chans1.closed →
          call = InterruptionCall.interrupt ∧ w ∈ thread1.interWatcher := by
  obtain ⟨thread1, chans1, h, hwf1⟩ := InterruptionCall.runAll_wf calls thread chans hwf
  refine ⟨thread1, chans1, h, hwf1.2.1, hwf1.2.2.2.1, fun w hw => (hwf1.2.2.1 w hw).2, ?_⟩
  intro call
  obtain ⟨thread2, chans2, h2, hwf2, hnew⟩ := InterruptionCall.run_wf call thread1 chans1 hwf1
  exact ⟨thread2, chans2, h2, hwf2.2.2.2.1, hnew⟩

theorem Interrupt_closes_no_watcher_twice_witness :
    (InterruptionCall.runAll
        [InterruptionCall.watch, InterruptionCall.watch, InterruptionCall.unwatch 0,
          InterruptionCall.interrupt, InterruptionCall.watch, InterruptionCall.interrupt]
        exampleThread { closed := [], next := 0 }).map (fun r => r.2.closed) = some [1, 2] ∧
    ∃ thread1 chans1,
      InterruptionCall.runAll
        [InterruptionCall.watch, InterruptionCall.watch, InterruptionCall.unwatch 0,
          InterruptionCall.interrupt, InterruptionCall.watch, InterruptionCall.interrupt]
        exampleThread { closed := [], next := 0 } = some (thread1, chans1) ∧
      thread1.interWatcher.Nodup ∧
      chans1.closed.Nodup ∧
      (∀ w ∈ thread1.interWatcher, w ∉ chans1.closed) ∧
      ∀ call : InterruptionCall, ∃ thread2 chans2,
        call.run thread1 chans1 = some (thread2, chans2) ∧
        chans2.closed.Nodup ∧
        ∀ w, w ∈ chans2.closed → w ∉ chans1.closed →
          call = InterruptionCall.interrupt ∧ w ∈ thread1.interWatcher :=
  ⟨by decide,
    Interrupt_closes_no_watcher_twice exampleThread { closed := [], next := 0 }
      ⟨rfl, List.nodup_nil, fun _ hw => (by cases hw), List.nodup_nil,
        fun _ hw => (by cases hw)⟩
      [InterruptionCall.watch, InterruptionCall.watch, InterruptionCall.unwatch 0,
        InterruptionCall.interrupt, InterruptionCall.watch, InterruptionCall.interrupt]⟩

/-- C27: on a thread whose `interLock` is free and whose watchers are distinct
open channels made earlier, `UnWatchInterruption(w)` leaves the thread as it
is when `w` is not registered, and otherwise removes the entry `w` and keeps
the entries before and after it in their order.  `WatchInterruption` appends
the channel it returns, and `UnWatchInterruption` of that channel gives back
the thread as it was before the two calls.  An `Interrupt` after them closes
exactly the watchers registered before, not the channel returned, and
records an interruption if and only if one of those was registered. -/
theorem UnWatchInterruption_undoes_WatchInterruption (thread : Thread) (chans : Chans)
    (hwf : WatchersWF thread chans) :
    (∀ watcher, watcher ∉ thread.interWatcher →
      UnWatchInterruption thread watcher = some thread) ∧
    (∀ watcher pre post, thread.interWatcher = pre ++ watcher :: post →
      UnWatchInterruption thread watcher = some { thread with interWatcher := pre ++ post }) ∧
    (∃ watcher thread1 chans1,
      WatchInterruption thread chans = some (watcher, thread1, chans1) ∧
      thread1.interWatcher = thread.interWatcher ++ [watcher] ∧
      UnWatchInterruption thread1 watcher = some thread ∧
      ∃ thread2 chans2, Interrupt thread chans1 = some (thread2, chans2) ∧
        watcher ∉ chans2.closed ∧
        chans2.closed = chans.closed ++ thread.interWatcher ∧
        (thread2.interrupted = true ↔ thread.interWatcher ≠ [])) := by
  have hwf0 := hwf
  obtain ⟨hfree, hnodup, hopen, hclosed, hmade⟩ := hwf
  have hfresh : chans.next ∉ thread.interWatcher :=
    fun h => Nat.lt_irrefl _ (hopen _ h).1
  refine ⟨?_, ?_, ?_⟩
  · intro watcher habsent
    unfold UnWatchInterruption
    rw [if_neg (by simp [hfree]), UnWatchInterruption.remove_absent watcher _ habsent]
  · intro watcher pre post hsplit
    have hpre : watcher ∉ pre := by
      intro hmem
      rw [hsplit] at hnodup
      exact (List.nodup_append.mp hnodup).2.2 hmem (List.mem_cons_self _ _)
    simp [UnWatchInterruption, hfree, hsplit, UnWatchInterruption.remove_split watcher pre post hpre]
  · obtain ⟨thread1, chans1, hwatch, ht1, hc1, _⟩ := WatchInterruption_wf thread chans hwf0
    refine ⟨chans.next, thread1, chans1, hwatch, by rw [ht1], ?_, ?_⟩
    · have hrem : UnWatchInterruption.remove chans.next (thread.interWatcher ++ [chans.next])
          = thread.interWatcher := by
        have := UnWatchInterruption.remove_split chans.next thread.interWatcher [] hfresh
        simpa using this
      rw [ht1]
      unfold UnWatchInterruption
      rw [if_neg (by simp [hfree])]
      show some { thread with
        interWatcher := UnWatchInterruption.remove chans.next
          (thread.interWatcher ++ [chans.next]) } = some thread
      rw [hrem]
    · have hwf1 : WatchersWF thread chans1 := by
        rw [hc1]
        exact ⟨hfree, hnodup, fun w hw => ⟨Nat.lt_succ_of_lt (hopen w hw).1, (hopen w hw).2⟩,
          hclosed, fun w hw => Nat.lt_succ_of_lt (hmade w hw)⟩
      obtain ⟨thread2, chans2, hint, ht2, hc2, _⟩ := Interrupt_wf thread chans1 hwf1
      refine ⟨thread2, chans2, hint, ?_, by rw [hc2, hc1], ?_⟩
      · rw [hc2, hc1]
        intro hmem
        rcases List.mem_append.mp hmem with h | h
        · exact Nat.lt_irrefl _ (hmade _ h)
        · exact hfresh h
      · rw [ht2]
        simp [List.length_pos]

theorem UnWatchInterruption_undoes_WatchInterruption_witness :
    UnWatchInterruption watchedThread 7 = some watchedThread ∧
    UnWatchInterruption watchedThread 3 = some { watchedThread with interWatcher := [4] } ∧
    (∃ watcher thread1 chans1,
      WatchInterruption watchedThread { closed := [1], next := 5 }
        = some (watcher, thread1, chans1) ∧
      thread1.interWatcher = watchedThread.interWatcher ++ [watcher] ∧
      UnWatchInterruption thread1 watcher = some watchedThread ∧
      ∃ thread2 chans2, Interrupt watchedThread chans1 = some (thread2, chans2) ∧
        watcher ∉ chans2.closed ∧
        chans2.closed = [1] ++ watchedThread.interWatcher ∧
        (thread2.interrupted = true ↔ watchedThread.interWatcher ≠ [])) :=
  have h := UnWatchInterruption_undoes_WatchInterruption watchedThread { closed := [1], next := 5 }
    ⟨rfl, by decide, by decide, by decide, by decide⟩
  ⟨h.1 7 (by decide), h.2.1 3 [] [4] rfl, h.2.2⟩

/-! ## The initialization lock at the return of `Initialize` -/

theorem lockInit_locked {c : ClassRef} {w w1 : World σ} (h : lockInit c w = some w1) :
    (w1.vm.classes c).initLocked = true := by
  unfold lockInit at h
  split at h
  · cases h
  · cases h; simp [VM.setClass]

theorem lockInit_held (c : ClassRef) (w : World σ) (h : (w.vm.classes c).initLocked = true) :
    lockInit c w = none := by
  simp [lockInit, h]

theorem unlockInit_unlocked (c : ClassRef) (w : World σ) :
    ((unlockInit c w).vm.classes c).initLocked = false := by
  simp [unlockInit, VM.setClass]

theorem initializeClass_unlocked (env : Env σ) (fuel : Nat) (c : ClassRef) (curThread : ThreadRef)
    (w w1 : World σ) (err : Option Error)
    (h : initializeClass env fuel c curThread w = some (err, w1)) :
    (w1.vm.classes c).initLocked = false := by
  unfold initializeClass at h
  split at h
  · cases h
  · rename_i state err1 w2 _
    split at h
    · cases h
    · rename_i w3 hdeferred
      obtain ⟨_, hw⟩ := Prod.mk.inj (Option.some.inj h)
      subst hw
      unfold initializeClass.deferred at hdeferred
      split at hdeferred
      · cases hdeferred
      · simp only [] at hdeferred
        rw [← Option.some.inj hdeferred]
        exact unlockInit_unlocked c _

theorem Initialize_held_blocks (env : Env σ) (fuel : Nat) (c : ClassRef) (curThread : ThreadRef)
    (w : World σ) (hheld : (w.vm.classes c).initLocked = true)
    (h1 : (w.vm.classes c).state ≠ ClassState.Initialized)
    (h2 : (w.vm.classes c).state ≠ ClassState.FailedInitialization) :
    Initialize env fuel c curThread w = none := by
  unfold Initialize
  rw [if_neg (by simp [h1, h2]), lockInit_held c w hheld]

/-- C21: let the initialization lock of the class be free when `Initialize`
is called.  Whenever the call returns, the lock is held in the state left if
and only if the class was `Initializing` by another thread, that is, if the
caller went through `initCond.Wait()`: `Wait` returns with the lock locked
again and `Initialize` returns without `Unlock()`.  On that path, the waiting
thread being woken with the lock free, `Initialize` does return, with the
state it then reads and the lock held; no later `Lock()` on it succeeds, and a
later `Initialize` by any thread on the class, unless its state is terminal,
does not return. -/
theorem Initialize_returns_with_lock_held_after_wait (env : Env σ) (fuel : Nat) (c : ClassRef)
    (curThread : ThreadRef) (w : World σ)
    (hfree : (w.vm.classes c).initLocked = false) :
    (∀ r w1, Initialize env fuel c curThread w = some (r, w1) →
      ((w1.vm.classes c).initLocked = true ↔
        (w.vm.classes c).state = ClassState.Initializing ∧
          (w.vm.classes c).initBy ≠ some curThread)) ∧
    ((w.vm.classes c).state = ClassState.Initializing →
      (w.vm.classes c).initBy ≠ some curThread →
      ((env.awaitBroadcast c curThread w.vm).classes c).initLocked = false →
      ∃ w1, Initialize env fuel c curThread w = some (((w1.vm.classes c).state, none), w1) ∧
        (w1.vm.classes c).initLocked = true ∧
        (w1.vm.classes c).state = ((env.awaitBroadcast c curThread w.vm).classes c).state ∧
        w1.log = w.log ++ [Event.wait c curThread] ∧
        lockInit c w1 = none ∧
        ∀ (env2 : Env σ) (fuel2 : Nat) (thread2 : ThreadRef),
          (w1.vm.classes c).state ≠ ClassState.Initialized →
          (w1.vm.classes c).state ≠ ClassState.FailedInitialization →
          Initialize env2 fuel2 c thread2 w1 = none) := by
  obtain ⟨wl, hlock, hunlock, hs1, hb1⟩ := lockInit_free c w hfree
  constructor
  · intro r w1 h
    unfold Initialize at h
    split at h
    · rename_i hterminal
      obtain ⟨_, hw⟩ := Prod.mk.inj (Option.some.inj h)
      subst hw
      rw [hfree]
      refine ⟨fun hf => (by cases hf), fun ⟨hs, _⟩ => ?_⟩
      rw [hs] at hterminal
      rcases hterminal with ht | ht <;> cases ht
    · rw [hlock] at h
      simp only [] at h
      split at h
      · rename_i hstate
        rw [hs1] at hstate
        have hunlocked : (w1.vm.classes c).initLocked = false := by
          split at h
          · cases h
          · rename_i err w2 hinit
            obtain ⟨_, hw⟩ := Prod.mk.inj (Option.some.inj h)
            subst hw
            exact initializeClass_unlocked env fuel c curThread _ _ _ hinit
          · rename_i w2 hinit
            obtain ⟨_, hw⟩ := Prod.mk.inj (Option.some.inj h)
            subst hw
            exact initializeClass_unlocked env fuel c curThread _ _ _ hinit
        rw [hunlocked, hstate]
        exact ⟨fun hf => (by cases hf), fun ⟨hs, _⟩ => (by cases hs)⟩
      · rename_i hstate
        rw [hs1] at hstate
        split at h
        · rename_i hby
          rw [hb1] at hby
          simp only [hunlock] at h
          obtain ⟨_, hw⟩ := Prod.mk.inj (Option.some.inj h)
          subst hw
          rw [hfree]
          exact ⟨fun hf => (by cases hf), fun ⟨_, hne⟩ => absurd hby hne⟩
        · rename_i hby
          rw [hb1] at hby
          split at h
          · cases h
          · rename_i w4 hlock4
            obtain ⟨_, hw⟩ := Prod.mk.inj (Option.some.inj h)
            subst hw
            rw [lockInit_locked hlock4]
            exact ⟨fun _ => ⟨hstate, hby⟩, fun _ => rfl⟩
      · rename_i hnot1 hnot2
        simp only [hunlock] at h
        obtain ⟨_, hw⟩ := Prod.mk.inj (Option.some.inj h)
        subst hw
        rw [hfree]
        refine ⟨fun hf => (by cases hf), fun ⟨hs, _⟩ => ?_⟩
        rw [← hs1] at hs
        exact absurd hs hnot2
  · intro hstate hby hwoken
    have hs1a : (wl.vm.classes c).state = ClassState.Initializing := by rw [hs1, hstate]
    have hb1a : ¬ (wl.vm.classes c).initBy = some curThread := by rw [hb1]; exact hby
    obtain ⟨w4, hlock4, _, hs4, _⟩ := lockInit_free c
      ({ vm := env.awaitBroadcast c curThread w.vm, log := w.log ++ [Event.wait c curThread] } :
        World σ) hwoken
    have hheld := lockInit_locked hlock4
    refine ⟨w4, ?_, hheld, hs4, lockInit_log hlock4, lockInit_held c w4 hheld, ?_⟩
    · unfold Initialize
      rw [if_neg (by simp [hstate]), hlock]
      simp only [hs1a, hb1a, if_false, hunlock, hlock4]
    · intro env2 fuel2 thread2 h1 h2
      exact Initialize_held_blocks env2 fuel2 c thread2 w4 hheld h1 h2

theorem Initialize_returns_with_lock_held_after_wait_witness :
    ∃ w1, Initialize wakingEnv 1 0 1 initializingWorld
        = some ((ClassState.NotInitialized, none), w1) ∧
      (w1.vm.classes 0).initLocked = true ∧
      Initialize quietEnv 5 0 0 w1 = none := by
  obtain ⟨w1, h, hheld, hstate, _, _, hlater⟩ :=
    (Initialize_returns_with_lock_held_after_wait wakingEnv 1 0 1 initializingWorld rfl).2
      rfl (by decide) rfl
  have hs : (w1.vm.classes 0).state = ClassState.NotInitialized := hstate.trans rfl
  rw [hs] at h
  exact ⟨w1, h, hheld, hlater quietEnv 5 0 (by rw [hs]; decide) (by rw [hs]; decide)⟩

/-! ## The result channel after its close -/

theorem ThreadExecutor.Start.report_eq (executor : ThreadExecutor) (thread : ThreadRef)
    (daemon : Bool) (err : Option Error) :
    ThreadExecutor.Start.report executor thread daemon err =
      match ThreadExecutor.Start.countOut executor daemon with
      | none => none
      | some (done, counted) =>
        if counted.closed then none
        else
          let sent : ThreadExecutor :=
            { counted with delivered := counted.delivered ++ [{ thread := thread, err := err }] }
          some (done, if done then { sent with closed := true } else sent) := by
  unfold ThreadExecutor.Start.report ThreadExecutor.Start.countOut
  by_cases hl : executor.locked = true
  · simp [hl]
  · by_cases hc : executor.closed = true
    · simp [hl, hc]
    · simp [hl, hc]

theorem ThreadExecutor.Start.report_closed (executor : ThreadExecutor) (thread : ThreadRef)
    (daemon : Bool) (err : Option Error) (hclosed : executor.closed = true) :
    ThreadExecutor.Start.report executor thread daemon err = none := by
  unfold ThreadExecutor.Start.report
  by_cases hl : executor.locked = true
  · simp [hl]
  · simp [hl, hclosed]

/-- C22 (the code at the failing input): a daemon thread 0 and a thread 1 that
is not a daemon are started on a new executor, and thread 1 ends first.  Its
result is delivered and the channel is closed.  When the daemon thread ends
afterwards, the counters give `done = true` a second time, and the goroutine
sends its result on the closed channel: the report does not return. -/
theorem ThreadExecutor_daemon_reports_after_close :
    ∃ started afterFirst,
      ThreadExecutor.startAll [daemonThread, exampleThread] NewThreadExecutor = some started ∧
      ThreadExecutor.Start.report started 1 false none = some (true, afterFirst) ∧
      afterFirst.delivered = [{ thread := 1, err := none }] ∧
      afterFirst.closed = true ∧
      (∃ counted, ThreadExecutor.Start.countOut afterFirst true = some (true, counted)) ∧
      ThreadExecutor.Start.report afterFirst 0 true none = none :=
  ⟨_, _, rfl, rfl, rfl, rfl, ⟨_, rfl⟩, rfl⟩

end Gojiai
